import Mathlib

/-!
Verification of the Peer Manager core (src/libsplinter/src/peer/mod.rs).

The actor's message handlers (`add_peer`, `add_unidentified`, `remove_peer`,
`remove_peer_by_endpoint`, `handle_inbound_connection`, `handle_connected`,
`handle_disconnection`, `handle_fatal_connection`, the non-fatal error branch of
`handle_notifications`, and `retry_pending`) are embedded as pure functions on an
explicit state.  The supporting containers (`PeerMap`, `RefMap`,
`UnreferencedPeerState`, the token type and its order) live in submodules that are
not part of the sources, so they are modelled from the specification; every such
definition carries a doc comment starting with `Modelled from the spec:`.

Side effects (notification broadcast, `request_connection` and
`remove_connection` calls into the connection manager, and the strict-mode
panic) are recorded in an explicit `Effects` record.  The connection manager is
an oracle (`ConnectorEnv`) whose answers the handlers consume; wall-clock time
(`Instant::now`) is an explicit `now : Nat` argument, and the fresh UUIDs drawn
by the handlers are explicit arguments as well.
-/

namespace Splinter

/-- Modelled from the spec: token.rs is not among the sources.  A
`PeerAuthorizationToken` is a tagged variant, either `Trust{identity: string}`
or `Challenge{public_key: bytes}` (bytes modelled as a list of naturals). -/
inductive PeerAuthorizationToken where
  | trust (peerId : String)
  | challenge (publicKey : List Nat)
deriving DecidableEq, Repr

/-- Modelled from the spec: the total order on tokens is lexicographic on the
discriminant (with `Trust` before `Challenge`, the declaration order), then on
the contained bytes. -/
def tokenLt : PeerAuthorizationToken → PeerAuthorizationToken → Bool
  | .trust a, .trust b => decide (a < b)
  | .trust _, .challenge _ => true
  | .challenge _, .trust _ => false
  | .challenge a, .challenge b => decide (a < b)

theorem tokenLt_asymm (a b : PeerAuthorizationToken) :
    tokenLt a b = true → tokenLt b a = false := by
  cases a <;> cases b <;> intro h
  · simp only [tokenLt, decide_eq_true_eq] at h
    simp only [tokenLt, decide_eq_false_iff_not]
    exact asymm h
  · rfl
  · simp [tokenLt] at h
  · simp only [tokenLt, decide_eq_true_eq] at h
    simp only [tokenLt, decide_eq_false_iff_not]
    exact asymm h

theorem tokenLt_total (a b : PeerAuthorizationToken) (h : a ≠ b) :
    tokenLt a b = true ∨ tokenLt b a = true := by
  cases a with
  | trust x =>
    cases b with
    | trust y =>
      have hxy : x ≠ y := fun he => h (by rw [he])
      rcases lt_or_gt_of_ne hxy with h1 | h1
      · left; simp [tokenLt, h1]
      · right; simp [tokenLt, h1]
    | challenge y => left; rfl
  | challenge x =>
    cases b with
    | trust y => right; rfl
    | challenge y =>
      have hxy : x ≠ y := fun he => h (by rw [he])
      rcases lt_or_gt_of_ne hxy with h1 | h1
      · left; simp [tokenLt, h1]
      · right; simp [tokenLt, h1]

/-- Tokens have decidable strict comparison; `a > b` in the source is
`tokenLt b a` here. -/
theorem tokenLt_iff_not (a b : PeerAuthorizationToken) (h : a ≠ b) :
    tokenLt a b = true ↔ tokenLt b a = false := by
  constructor
  · exact tokenLt_asymm a b
  · intro hb
    rcases tokenLt_total a b h with h1 | h1
    · exact h1
    · rw [h1] at hb; cases hb

/-- Identity pair used as the key for a logical peer: the remote token and the
required local token. -/
structure PeerTokenPair where
  peerId : PeerAuthorizationToken
  localId : PeerAuthorizationToken
deriving DecidableEq, Repr

/-- Status of a peer, from peer_map.rs (modelled from the spec: `Pending`,
`Connected` or `Disconnected{retry_attempts}`). -/
inductive PeerStatus where
  | pending
  | connected
  | disconnected (retryAttempts : Nat)
deriving DecidableEq, Repr

/-- Metadata record of one peer, as described in the data model section of the
spec and used by mod.rs.  Time stamps are naturals (seconds). -/
structure PeerMetadata where
  id : PeerAuthorizationToken
  connection_id : String
  endpoints : List String
  active_endpoint : String
  status : PeerStatus
  required_local_auth : PeerAuthorizationToken
  old_connection_ids : List String
  retry_frequency : Nat
  last_connection_attempt : Nat
deriving DecidableEq, Repr

/-- Key of a metadata record. -/
def PeerMetadata.key (m : PeerMetadata) : PeerTokenPair :=
  ⟨m.id, m.required_local_auth⟩

/-- Modelled from the spec: peer_map.rs is not among the sources.  The peer map
is the authoritative table of peer metadata; it is modelled as a list of
records together with the initial retry frequency handed to `PeerMap::new`. -/
structure PeerMap where
  peers : List PeerMetadata
  initialRetryFrequency : Nat
deriving DecidableEq, Repr

/-- Modelled from the spec: lookup by peer key. -/
def PeerMap.getByPeerId (pm : PeerMap) (k : PeerTokenPair) : Option PeerMetadata :=
  pm.peers.find? (fun m => m.key == k)

/-- Modelled from the spec: lookup by connection id. -/
def PeerMap.getByConnectionId (pm : PeerMap) (cid : String) : Option PeerMetadata :=
  pm.peers.find? (fun m => m.connection_id == cid)

/-- Modelled from the spec: lookup by endpoint; every peer whose endpoint list
contains the endpoint is returned. -/
def PeerMap.getPeerFromEndpoint (pm : PeerMap) (endpoint : String) : List PeerMetadata :=
  pm.peers.filter (fun m => endpoint ∈ m.endpoints)

/-- Modelled from the spec: whether some peer claims the endpoint. -/
def PeerMap.containsEndpoint (pm : PeerMap) (endpoint : String) : Bool :=
  pm.peers.any (fun m => endpoint ∈ m.endpoints)

/-- Modelled from the spec: insertion builds a full record, stamping the
initial retry frequency and the current time, and replaces any record under
the same key. -/
def PeerMap.insert (pm : PeerMap) (id : PeerAuthorizationToken) (cid : String)
    (endpoints : List String) (active : String) (status : PeerStatus)
    (localAuth : PeerAuthorizationToken) (oldIds : List String) (now : Nat) : PeerMap :=
  { pm with peers :=
      pm.peers.filter (fun m => !(m.key == PeerTokenPair.mk id localAuth)) ++
        [{ id := id, connection_id := cid, endpoints := endpoints,
           active_endpoint := active, status := status,
           required_local_auth := localAuth, old_connection_ids := oldIds,
           retry_frequency := pm.initialRetryFrequency,
           last_connection_attempt := now }] }

/-- Modelled from the spec: update replaces the metadata under the record's own
key, failing when the key is absent. -/
def PeerMap.updatePeer (pm : PeerMap) (meta : PeerMetadata) : Option PeerMap :=
  if pm.peers.any (fun m => m.key == meta.key) then
    some { pm with peers := pm.peers.map (fun m => if m.key == meta.key then meta else m) }
  else
    none

/-- The handlers log and ignore a failed update; this helper captures that. -/
def PeerMap.updateOrKeep (pm : PeerMap) (meta : PeerMetadata) : PeerMap :=
  match pm.updatePeer meta with
  | some pm2 => pm2
  | none => pm

/-- Modelled from the spec: removal by key, returning the removed record. -/
def PeerMap.remove (pm : PeerMap) (k : PeerTokenPair) : Option PeerMetadata × PeerMap :=
  match pm.peers.find? (fun m => m.key == k) with
  | none => (none, pm)
  | some m => (some m, { pm with peers := pm.peers.filter (fun m2 => !(m2.key == k)) })

/-- Modelled from the spec: list of remote tokens in the map. -/
def PeerMap.peerIds (pm : PeerMap) : List PeerAuthorizationToken :=
  pm.peers.map (·.id)

/-- Modelled from the spec: RefMap (collections) is not among the sources.  It
counts outstanding handles per key. -/
structure RefMap where
  counts : List (PeerTokenPair × Nat)
deriving DecidableEq, Repr

def RefMap.lookup (rm : RefMap) (k : PeerTokenPair) : Option Nat :=
  (rm.counts.find? (fun p => p.1 == k)).map (·.2)

/-- Modelled from the spec: `add_ref(key)` returns the new count. -/
def RefMap.addRef (rm : RefMap) (k : PeerTokenPair) : Nat × RefMap :=
  match rm.lookup k with
  | some n => (n + 1, ⟨rm.counts.map (fun p => if p.1 == k then (k, n + 1) else p)⟩)
  | none => (1, ⟨rm.counts ++ [(k, 1)]⟩)

/-- Modelled from the spec: `remove_ref(key)` yields `some key` when the count
drops to zero, `none` when a count remains, and fails on an absent key. -/
def RefMap.removeRef (rm : RefMap) (k : PeerTokenPair) :
    Except Unit (Option PeerTokenPair × RefMap) :=
  match rm.lookup k with
  | none => .error ()
  | some n =>
    if n ≤ 1 then
      .ok (some k, ⟨rm.counts.filter (fun p => !(p.1 == k))⟩)
    else
      .ok (none, ⟨rm.counts.map (fun p => if p.1 == k then (k, n - 1) else p)⟩)

/-- Rollback helper: the handlers remove a just-added reference and merely log
a failure. -/
def RefMap.removeRefQuiet (rm : RefMap) (k : PeerTokenPair) : RefMap :=
  match rm.removeRef k with
  | .ok (_, rm2) => rm2
  | .error _ => rm

/-- Modelled from the spec: unreferenced.rs is not among the sources.  An
unreferenced peer holds its connection id, endpoint, the local authorization it
was accepted under, and superseded connection ids. -/
structure UnreferencedPeer where
  connection_id : String
  endpoint : String
  local_authorization : PeerAuthorizationToken
  old_connection_ids : List String
deriving DecidableEq, Repr

/-- Modelled from the spec: a requested by-endpoint peering that has not
resolved its identity yet. -/
structure RequestedEndpoint where
  endpoint : String
  local_authorization : PeerAuthorizationToken
deriving DecidableEq, Repr

/-- Modelled from the spec: the unreferenced-peer table plus the
requested-endpoints table, with the dedicated retry clock. -/
structure UnreferencedPeerState where
  peers : List (PeerTokenPair × UnreferencedPeer)
  requested_endpoints : List (String × RequestedEndpoint)
  retry_frequency : Nat
  last_connection_attempt : Nat
deriving DecidableEq, Repr

def UnreferencedPeerState.lookupPeer (u : UnreferencedPeerState) (k : PeerTokenPair) :
    Option UnreferencedPeer :=
  (u.peers.find? (fun p => p.1 == k)).map (·.2)

def UnreferencedPeerState.removePeer (u : UnreferencedPeerState) (k : PeerTokenPair) :
    Option UnreferencedPeer × UnreferencedPeerState :=
  (u.lookupPeer k, { u with peers := u.peers.filter (fun p => !(p.1 == k)) })

def UnreferencedPeerState.setPeer (u : UnreferencedPeerState) (k : PeerTokenPair)
    (v : UnreferencedPeer) : UnreferencedPeerState :=
  { u with peers := u.peers.map (fun p => if p.1 == k then (k, v) else p) }

def UnreferencedPeerState.insertPeer (u : UnreferencedPeerState) (k : PeerTokenPair)
    (v : UnreferencedPeer) : UnreferencedPeerState :=
  { u with peers := u.peers.filter (fun p => !(p.1 == k)) ++ [(k, v)] }

def UnreferencedPeerState.getByConnectionId (u : UnreferencedPeerState) (cid : String) :
    Option (PeerTokenPair × UnreferencedPeer) :=
  u.peers.find? (fun p => p.2.connection_id == cid)

def UnreferencedPeerState.lookupRequested (u : UnreferencedPeerState) (endpoint : String) :
    Option RequestedEndpoint :=
  (u.requested_endpoints.find? (fun p => p.1 == endpoint)).map (·.2)

def UnreferencedPeerState.insertRequested (u : UnreferencedPeerState) (endpoint : String)
    (v : RequestedEndpoint) : UnreferencedPeerState :=
  { u with requested_endpoints :=
      u.requested_endpoints.filter (fun p => !(p.1 == endpoint)) ++ [(endpoint, v)] }

/-- Result of `Connector::remove_connection`: `Ok(Some(_))`, `Ok(None)` or
`Err(_)`. -/
inductive RemoveConnResult where
  | okSome
  | okNone
  | err
deriving DecidableEq, Repr

/-- The connection manager as an oracle: whether a `request_connection` call
succeeds synchronously, and what `remove_connection` returns. -/
structure ConnectorEnv where
  reqOk : String → String → Bool
  remRes : String → String → RemoveConnResult

/-- One `request_connection(endpoint, connection_id, expected_remote_auth,
expected_local_auth)` call. -/
structure ReqCall where
  endpoint : String
  connection_id : String
  remoteAuth : Option PeerAuthorizationToken
  localAuth : Option PeerAuthorizationToken
deriving DecidableEq, Repr

/-- Notification fanned out to subscribers. -/
inductive PeerManagerNotification where
  | connected (peer : PeerTokenPair)
  | disconnected (peer : PeerTokenPair)
deriving DecidableEq, Repr

/-- Observable side effects of one handler run. -/
structure Effects where
  broadcasts : List PeerManagerNotification
  requests : List ReqCall
  removals : List (String × String)
  panicked : Bool
deriving Repr

def noEffects : Effects := ⟨[], [], [], false⟩

/-- State owned by the actor thread. -/
structure PMState where
  peers : PeerMap
  unref : UnreferencedPeerState
  refMap : RefMap
deriving DecidableEq, Repr

/-- The loop in `add_peer` (and `handle_disconnection`): request a connection
on each endpoint in order, stopping at the first synchronous success; returns
the successful endpoint (or the supplied default) and the calls made. -/
def tryEndpoints (env : ConnectorEnv) (l : List String) (cid : String)
    (remoteAuth localAuth : Option PeerAuthorizationToken) (dflt : String) :
    String × List ReqCall :=
  match l with
  | [] => (dflt, [])
  | e :: rest =>
    if env.reqOk e cid then
      (e, [⟨e, cid, remoteAuth, localAuth⟩])
    else
      let r := tryEndpoints env rest cid remoteAuth localAuth dflt
      (r.1, ⟨e, cid, remoteAuth, localAuth⟩ :: r.2)

/-- Embedding of `check_for_duplicate_endpoint` (mod.rs lines 1621 to 1643). -/
def checkForDuplicateEndpoint (peer_id : PeerAuthorizationToken)
    (endpoints : List String) (peer_map : PeerMap) : Bool :=
  match peer_id with
  | .challenge _ => false
  | .trust _ =>
    endpoints.any (fun endpoint =>
      (peer_map.getPeerFromEndpoint endpoint).any (fun meta =>
        (match meta.id with | .trust _ => true | .challenge _ => false) &&
          !(meta.id == peer_id)))

/-- Output of `add_peer`: the new state, the effects, and the reply (`Ok`
carries the key held by the returned `PeerRef`). -/
structure AddPeerOut where
  state : PMState
  effects : Effects
  result : Except String PeerTokenPair
deriving Repr

/-- Embedding of `add_peer` (mod.rs lines 530 to 696).  `newConnId` is the
fresh UUID drawn at line 648, `now` the current time. -/
def addPeer (env : ConnectorEnv) (peer_id : PeerAuthorizationToken)
    (endpoints : List String) (required_local_auth : PeerAuthorizationToken)
    (st : PMState) (newConnId : String) (now : Nat) : AddPeerOut :=
  let ptp : PeerTokenPair := ⟨peer_id, required_local_auth⟩
  if checkForDuplicateEndpoint peer_id endpoints st.peers then
    ⟨st, noEffects, .error "endpoints already belong to another peer using trust"⟩
  else
    let ar := st.refMap.addRef ptp
    let refMap1 := ar.2
    if 1 < ar.1 then
      match st.peers.getByPeerId ptp with
      | some peer_metadata =>
        if peer_metadata.endpoints.length = 1 ∧ 1 < endpoints.length then
          match peer_metadata.endpoints.head? with
          | some endpoint =>
            if (st.unref.lookupRequested endpoint).isSome ∧ endpoint ∈ endpoints then
              let pm2 := { peer_metadata with endpoints := endpoints }
              match st.peers.updatePeer pm2 with
              | some peers2 =>
                let bs := if pm2.status == PeerStatus.connected
                  then [PeerManagerNotification.connected ptp] else []
                ⟨⟨peers2, st.unref, refMap1⟩, { noEffects with broadcasts := bs }, .ok ptp⟩
              | none =>
                ⟨⟨st.peers, st.unref, refMap1⟩, noEffects, .error "unable to update peer"⟩
            else
              ⟨⟨st.peers, st.unref, refMap1.removeRefQuiet ptp⟩, noEffects,
                .error "mismatch between existing and requested peer endpoints"⟩
          | none =>
            ⟨⟨st.peers, st.unref, refMap1⟩, noEffects, .error "peer does not have any endpoints"⟩
        else
          let bs := if peer_metadata.status == PeerStatus.connected
            then [PeerManagerNotification.connected ptp] else []
          ⟨⟨st.peers, st.unref, refMap1⟩, { noEffects with broadcasts := bs }, .ok ptp⟩
      | none =>
        ⟨⟨st.peers, st.unref, refMap1⟩, noEffects,
          .error "a reference exists but peer metadata is missing"⟩
    else
      match (st.unref.removePeer ptp).1 with
      | some u =>
        let unref2 := (st.unref.removePeer ptp).2
        let peers2 := st.peers.insert peer_id u.connection_id endpoints u.endpoint
          PeerStatus.connected required_local_auth u.old_connection_ids now
        ⟨⟨peers2, unref2, refMap1⟩,
          { noEffects with broadcasts := [PeerManagerNotification.connected ptp] }, .ok ptp⟩
      | none =>
        match endpoints.head? with
        | none =>
          ⟨⟨st.peers, st.unref, refMap1.removeRefQuiet ptp⟩, noEffects,
            .error "no endpoints provided"⟩
        | some e0 =>
          let tr := tryEndpoints env endpoints newConnId (some peer_id)
            (some required_local_auth) e0
          let peers2 := st.peers.insert peer_id newConnId endpoints tr.1
            PeerStatus.pending required_local_auth [] now
          ⟨⟨peers2, st.unref, refMap1⟩, { noEffects with requests := tr.2 }, .ok ptp⟩

/-- The caller-side handle returned by `add_unidentified`. -/
structure EndpointPeerRef where
  endpoint : String
  connection_id : String
deriving DecidableEq, Repr

/-- Output of `add_unidentified`. -/
structure AddUnidentifiedOut where
  state : PMState
  effects : Effects
  result : EndpointPeerRef
deriving Repr

/-- Embedding of `add_unidentified` (mod.rs lines 699 to 748).  `newConnId` is
the fresh UUID drawn at line 728. -/
def addUnidentified (_env : ConnectorEnv) (endpoint : String)
    (local_authorization : PeerAuthorizationToken) (st : PMState)
    (newConnId : String) : AddUnidentifiedOut :=
  let metas := st.peers.getPeerFromEndpoint endpoint
  match metas.find? (fun m => m.required_local_auth == local_authorization) with
  | some peer_metadata =>
    ⟨⟨st.peers, st.unref, (st.refMap.addRef peer_metadata.key).2⟩, noEffects,
      ⟨endpoint, peer_metadata.connection_id⟩⟩
  | none =>
    let unref2 := st.unref.insertRequested endpoint ⟨endpoint, local_authorization⟩
    ⟨⟨st.peers, unref2, st.refMap⟩,
      { noEffects with requests := [⟨endpoint, newConnId, none, some local_authorization⟩] },
      ⟨endpoint, newConnId⟩⟩

/-- Output of a removal request. -/
structure RemoveOut where
  state : PMState
  effects : Effects
  result : Except String Unit
deriving Repr

/-- Tail shared by both removal functions once `remove_ref` returned `some`:
remove the peer-map entry and, unless it was pending, close its connection. -/
def removeFinish (env : ConnectorEnv) (removedKey : PeerTokenPair) (st : PMState) : RemoveOut :=
  match st.peers.remove removedKey with
  | (none, _) =>
    ⟨st, noEffects, .error "peer has already been removed from the peer map"⟩
  | (some peer_metadata, peers2) =>
    let st2 := ⟨peers2, st.unref, st.refMap⟩
    if peer_metadata.status == PeerStatus.pending then
      ⟨st2, noEffects, .ok ()⟩
    else
      let removals := [(peer_metadata.active_endpoint, peer_metadata.connection_id)]
      match env.remRes peer_metadata.active_endpoint peer_metadata.connection_id with
      | .okSome => ⟨st2, { noEffects with removals := removals }, .ok ()⟩
      | .okNone =>
        ⟨st2, { noEffects with removals := removals },
          .error "the connection has already been removed"⟩
      | .err => ⟨st2, { noEffects with removals := removals }, .error "remove connection error"⟩

/-- Embedding of `remove_peer` (mod.rs lines 750 to 813). -/
def removePeer (env : ConnectorEnv) (peer_id : PeerTokenPair) (st : PMState)
    (strict_ref_counts : Bool) : RemoveOut :=
  let unref2 := (st.unref.removePeer peer_id).2
  let st1 : PMState := ⟨st.peers, unref2, st.refMap⟩
  match st.refMap.removeRef peer_id with
  | .error _ =>
    if strict_ref_counts then
      ⟨st1, { noEffects with panicked := true }, .error "panicked"⟩
    else
      ⟨st1, noEffects, .error "failed to remove ref from ref map"⟩
  | .ok (removed, refMap2) =>
    let st2 : PMState := ⟨st.peers, unref2, refMap2⟩
    match removed with
    | some removedKey => removeFinish env removedKey st2
    | none => ⟨st2, noEffects, .ok ()⟩

/-- Embedding of `remove_peer_by_endpoint` (mod.rs lines 815 to 892); unlike
`remove_peer` it never touches the unreferenced table. -/
def removePeerByEndpoint (env : ConnectorEnv) (_endpoint : String)
    (connection_id : String) (st : PMState) (strict_ref_counts : Bool) : RemoveOut :=
  match st.peers.getByConnectionId connection_id with
  | none =>
    ⟨st, noEffects, .error "peer has already been removed from the peer map"⟩
  | some peer_metadata =>
    let ptp := peer_metadata.key
    match st.refMap.removeRef ptp with
    | .error _ =>
      if strict_ref_counts then
        ⟨st, { noEffects with panicked := true }, .error "panicked"⟩
      else
        ⟨st, noEffects, .error "failed to remove ref from ref map"⟩
    | .ok (removed, refMap2) =>
      let st2 : PMState := ⟨st.peers, st.unref, refMap2⟩
      match removed with
      | some removedKey => removeFinish env removedKey st2
      | none => ⟨st2, noEffects, .ok ()⟩

/-- Output of a connection-manager notification handler. -/
structure NotifOut where
  state : PMState
  effects : Effects
deriving Repr

/-- Embedding of `handle_disconnection` (mod.rs lines 1023 to 1102). -/
def handleDisconnection (env : ConnectorEnv) (endpoint : String)
    (identity : PeerAuthorizationToken) (connection_id : String) (st : PMState) : NotifOut :=
  match st.peers.getByConnectionId connection_id with
  | some peer_metadata =>
    if endpoint ≠ peer_metadata.active_endpoint then
      ⟨st, noEffects⟩
    else
      let ptp := peer_metadata.key
      if endpoint ∈ peer_metadata.endpoints then
        let pm2 := { peer_metadata with status := PeerStatus.disconnected 1 }
        ⟨⟨st.peers.updateOrKeep pm2, st.unref, st.refMap⟩,
          { noEffects with broadcasts := [PeerManagerNotification.disconnected ptp] }⟩
      else
        let tr := tryEndpoints env peer_metadata.endpoints peer_metadata.connection_id
          (some identity) (some peer_metadata.required_local_auth)
          peer_metadata.active_endpoint
        let pm2 := { peer_metadata with status := PeerStatus.pending }
        ⟨⟨st.peers.updateOrKeep pm2, st.unref, st.refMap⟩,
          { broadcasts := [PeerManagerNotification.disconnected ptp],
            requests := tr.2,
            removals := [(peer_metadata.active_endpoint, peer_metadata.connection_id)],
            panicked := false }⟩
  | none =>
    match st.unref.getByConnectionId connection_id with
    | some p =>
      let unref2 := (st.unref.removePeer p.1).2
      ⟨⟨st.peers, unref2, st.refMap⟩,
        { noEffects with removals := [(p.2.endpoint, p.2.connection_id)] }⟩
    | none => ⟨st, noEffects⟩

/-- Embedding of `handle_inbound_connection` (mod.rs lines 1107 to 1241).
`retryFrequency` is the configured initial backoff restored on reconnect. -/
def handleInboundConnection (_env : ConnectorEnv) (endpoint : String)
    (identity : PeerAuthorizationToken) (connection_id : String)
    (local_authorization : PeerAuthorizationToken) (st : PMState)
    (retryFrequency : Nat) (now : Nat) : NotifOut :=
  let ptp : PeerTokenPair := ⟨identity, local_authorization⟩
  match st.peers.getByPeerId ptp with
  | some peer_metadata =>
    if peer_metadata.status == PeerStatus.connected &&
        tokenLt identity peer_metadata.required_local_auth then
      ⟨st, { noEffects with removals := [(endpoint, connection_id)] }⟩
    else
      let old_endpoint := peer_metadata.active_endpoint
      let old_connection_id := peer_metadata.connection_id
      let starting_status := peer_metadata.status
      let pm2 := { peer_metadata with
        status := PeerStatus.connected,
        connection_id := connection_id,
        retry_frequency := retryFrequency,
        last_connection_attempt := now,
        active_endpoint := endpoint }
      let removals :=
        if connection_id ≠ old_connection_id ∧ starting_status ≠ PeerStatus.pending then
          [(old_endpoint, old_connection_id)]
        else []
      ⟨⟨st.peers.updateOrKeep pm2, st.unref, st.refMap⟩,
        { broadcasts := [PeerManagerNotification.connected ptp],
          requests := [], removals := removals, panicked := false }⟩
  | none =>
    match st.unref.lookupPeer ptp with
    | some unreferenced_peer =>
      if tokenLt identity unreferenced_peer.local_authorization then
        ⟨st, { noEffects with removals := [(endpoint, connection_id)] }⟩
      else
        let u2 : UnreferencedPeer :=
          ⟨connection_id, endpoint, local_authorization,
            unreferenced_peer.old_connection_ids ++ [unreferenced_peer.connection_id]⟩
        ⟨⟨st.peers, st.unref.setPeer ptp u2, st.refMap⟩,
          { noEffects with
              removals := [(unreferenced_peer.endpoint, unreferenced_peer.connection_id)] }⟩
    | none =>
      ⟨⟨st.peers,
        st.unref.insertPeer ptp ⟨connection_id, endpoint, local_authorization, []⟩,
        st.refMap⟩, noEffects⟩

/-- Embedding of `handle_connected` (mod.rs lines 1246 to 1447). -/
def handleConnected (_env : ConnectorEnv) (endpoint : String)
    (identity : PeerAuthorizationToken) (connection_id : String)
    (local_authorization : PeerAuthorizationToken) (st : PMState)
    (retryFrequency : Nat) (now : Nat) : NotifOut :=
  let ptp : PeerTokenPair := ⟨identity, local_authorization⟩
  match st.peers.getByPeerId ptp with
  | some peer_metadata =>
    if peer_metadata.status == PeerStatus.connected &&
        tokenLt peer_metadata.required_local_auth identity then
      let removals :=
        if endpoint ≠ peer_metadata.active_endpoint then [(endpoint, connection_id)] else []
      ⟨st, { noEffects with removals := removals }⟩
    else
      let starting_status := peer_metadata.status
      let old_endpoint := peer_metadata.active_endpoint
      let old_connection_id := peer_metadata.connection_id
      let pm2 := { peer_metadata with
        active_endpoint := endpoint,
        status := PeerStatus.connected,
        connection_id := connection_id,
        retry_frequency := retryFrequency,
        last_connection_attempt := now }
      let removals :=
        if connection_id ≠ old_connection_id ∧ starting_status ≠ PeerStatus.pending then
          [(old_endpoint, old_connection_id)]
        else []
      ⟨⟨st.peers.updateOrKeep pm2, st.unref, st.refMap⟩,
        { broadcasts := [PeerManagerNotification.connected ptp],
          requests := [], removals := removals, panicked := false }⟩
  | none =>
    match st.unref.lookupRequested endpoint with
    | some requested_endpoint =>
      let rem := st.unref.removePeer ptp
      let unref2 := rem.2
      let promoted : String × String × List String × List (String × String) :=
        match rem.1 with
        | some unreferenced_peer =>
          if tokenLt unreferenced_peer.local_authorization identity then
            (unreferenced_peer.endpoint, unreferenced_peer.connection_id,
              unreferenced_peer.old_connection_ids ++ [connection_id],
              if endpoint ≠ unreferenced_peer.endpoint then [(endpoint, connection_id)] else [])
          else
            (endpoint, connection_id, [unreferenced_peer.connection_id],
              [(unreferenced_peer.endpoint, unreferenced_peer.connection_id)])
        | none => (endpoint, connection_id, [], [])
      let refMap2 := (st.refMap.addRef ptp).2
      let peers2 := st.peers.insert identity promoted.2.1 [endpoint] promoted.1
        PeerStatus.connected requested_endpoint.local_authorization promoted.2.2.1 now
      ⟨⟨peers2, unref2, refMap2⟩,
        { broadcasts := [PeerManagerNotification.connected ptp],
          requests := [], removals := promoted.2.2.2, panicked := false }⟩
    | none =>
      match st.unref.lookupPeer ptp with
      | some unreferenced_peer =>
        if tokenLt unreferenced_peer.local_authorization identity then
          ⟨st, { noEffects with removals := [(endpoint, connection_id)] }⟩
        else
          let u2 : UnreferencedPeer :=
            ⟨connection_id, endpoint, local_authorization,
              unreferenced_peer.old_connection_ids ++ [unreferenced_peer.connection_id]⟩
          ⟨⟨st.peers, st.unref.setPeer ptp u2, st.refMap⟩,
            { noEffects with
                removals := [(unreferenced_peer.endpoint, unreferenced_peer.connection_id)] }⟩
      | none =>
        ⟨⟨st.peers,
          st.unref.insertPeer ptp ⟨connection_id, endpoint, local_authorization, []⟩,
          st.refMap⟩, noEffects⟩

/-- Embedding of `handle_fatal_connection` (mod.rs lines 1449 to 1482). -/
def handleFatalConnection (connection_id : String) (st : PMState)
    (maxRetryFrequency : Nat) (now : Nat) : NotifOut :=
  match st.peers.getByConnectionId connection_id with
  | some peer_metadata =>
    let pm2 := { peer_metadata with
      retry_frequency := min (peer_metadata.retry_frequency * 2) maxRetryFrequency,
      last_connection_attempt := now,
      status := PeerStatus.pending }
    ⟨⟨st.peers.updateOrKeep pm2, st.unref, st.refMap⟩,
      { noEffects with
          broadcasts := [PeerManagerNotification.disconnected peer_metadata.key] }⟩
  | none => ⟨st, noEffects⟩

/-- Loop of the non-fatal error branch: request every endpoint other than the
failing active one, stopping at the first synchronous success. -/
def tryEndpointsSkip (env : ConnectorEnv) (l : List String) (skip : String)
    (cid : String) (remoteAuth localAuth : Option PeerAuthorizationToken) : List ReqCall :=
  match l with
  | [] => []
  | e :: rest =>
    if e == skip then tryEndpointsSkip env rest skip cid remoteAuth localAuth
    else if env.reqOk e cid then [⟨e, cid, remoteAuth, localAuth⟩]
    else ⟨e, cid, remoteAuth, localAuth⟩ :: tryEndpointsSkip env rest skip cid remoteAuth localAuth

/-- Embedding of the `NonFatalConnectionError` branch of `handle_notifications`
(mod.rs lines 922 to 975). -/
def handleNonFatalConnectionError (env : ConnectorEnv) (endpoint : String)
    (attempts : Nat) (connection_id : String) (st : PMState)
    (maxRetryAttempts : Nat) : NotifOut :=
  match st.peers.getByConnectionId connection_id with
  | none => ⟨st, noEffects⟩
  | some peer_metadata =>
    if maxRetryAttempts ≤ attempts then
      if endpoint ≠ peer_metadata.active_endpoint then
        ⟨st, noEffects⟩
      else
        let calls := tryEndpointsSkip env peer_metadata.endpoints
          peer_metadata.active_endpoint peer_metadata.connection_id
          (some peer_metadata.id) (some peer_metadata.required_local_auth)
        let pm2 := { peer_metadata with status := PeerStatus.disconnected attempts }
        ⟨⟨st.peers.updateOrKeep pm2, st.unref, st.refMap⟩,
          { noEffects with requests := calls }⟩
    else
      let pm2 := { peer_metadata with status := PeerStatus.disconnected attempts }
      ⟨⟨st.peers.updateOrKeep pm2, st.unref, st.refMap⟩, noEffects⟩

/-- Retry loop body of `retry_pending` for one pending peer: every endpoint is
requested (no early stop) and the last successful one becomes active. -/
def retryOnePeer (env : ConnectorEnv) (meta : PeerMetadata) (maxRetryFrequency : Nat)
    (now : Nat) : PeerMetadata × List ReqCall :=
  let active := meta.endpoints.foldl
    (fun a e => if env.reqOk e meta.connection_id then e else a) meta.active_endpoint
  let calls := meta.endpoints.map
    (fun e => ReqCall.mk e meta.connection_id (some meta.id) (some meta.required_local_auth))
  ({ meta with
      active_endpoint := active,
      retry_frequency := min (meta.retry_frequency * 2) maxRetryFrequency,
      last_connection_attempt := now }, calls)

/-- Embedding of `retry_pending` (mod.rs lines 1487 to 1579).  `uuidGen i` is
the fresh UUID drawn for the i-th requested endpoint. -/
def retryPending (env : ConnectorEnv) (st : PMState) (now : Nat)
    (maxRetryFrequency : Nat) (uuidGen : Nat → String) : NotifOut :=
  let toRetry := st.peers.peers.filter
    (fun m => m.status == PeerStatus.pending &&
      decide (m.retry_frequency < now - m.last_connection_attempt))
  let folded := toRetry.foldl
    (fun (acc : PeerMap × List ReqCall) m =>
      let r := retryOnePeer env m maxRetryFrequency now
      (acc.1.updateOrKeep r.1, acc.2 ++ r.2))
    (st.peers, [])
  let peers2 := folded.1
  if st.unref.retry_frequency < now - st.unref.last_connection_attempt then
    let calls2 := (st.unref.requested_endpoints.enum).filterMap
      (fun p =>
        if peers2.containsEndpoint p.2.2.endpoint then none
        else some (ReqCall.mk p.2.1 (uuidGen p.1) none (some p.2.2.local_authorization)))
    ⟨⟨peers2, { st.unref with last_connection_attempt := now }, st.refMap⟩,
      { noEffects with requests := folded.2 ++ calls2 }⟩
  else
    ⟨⟨peers2, st.unref, st.refMap⟩, { noEffects with requests := folded.2 }⟩

/-- Configuration of the peer manager actor. -/
structure PMConfig where
  strict_ref_counts : Bool
  maxRetryAttempts : Nat
  retryFrequency : Nat
  maxRetryFrequency : Nat

/-- The state-mutating messages consumed by the actor loop; fresh UUIDs drawn
while handling a message travel with it. -/
inductive PMMsg where
  | addPeer (peer_id : PeerAuthorizationToken) (endpoints : List String)
      (required_local_auth : PeerAuthorizationToken) (newConnId : String)
  | addUnidentified (endpoint : String) (local_authorization : PeerAuthorizationToken)
      (newConnId : String)
  | removePeer (peer_id : PeerTokenPair)
  | removePeerByEndpoint (endpoint : String) (connection_id : String)
  | inbound (endpoint : String) (identity : PeerAuthorizationToken)
      (connection_id : String) (local_identity : PeerAuthorizationToken)
  | connected (endpoint : String) (identity : PeerAuthorizationToken)
      (connection_id : String) (local_identity : PeerAuthorizationToken)
  | disconnected (endpoint : String) (identity : PeerAuthorizationToken)
      (connection_id : String)
  | nonFatal (endpoint : String) (attempts : Nat) (connection_id : String)
  | fatal (connection_id : String)
  | retryPending (uuidGen : Nat → String)

/-- One turn of the actor loop (mod.rs lines 272 to 316): dispatch a message to
its handler; reply values are dropped here, the state and effects are kept.
Note the fatal branch: the loop hands `max_retry_attempts` to
`handle_notifications` (mod.rs line 300), which passes it into
`handle_fatal_connection`'s `max_retry_frequency` parameter (mod.rs line
1018), so the doubled retry frequency is capped by the retry-attempt count,
not by the configured maximum frequency. -/
def handleMessage (env : ConnectorEnv) (cfg : PMConfig) (st : PMState) (m : PMMsg)
    (now : Nat) : NotifOut :=
  match m with
  | .addPeer peer_id endpoints required_local_auth newConnId =>
    let out := addPeer env peer_id endpoints required_local_auth st newConnId now
    ⟨out.state, out.effects⟩
  | .addUnidentified endpoint local_authorization newConnId =>
    let out := addUnidentified env endpoint local_authorization st newConnId
    ⟨out.state, out.effects⟩
  | .removePeer peer_id =>
    let out := removePeer env peer_id st cfg.strict_ref_counts
    ⟨out.state, out.effects⟩
  | .removePeerByEndpoint endpoint connection_id =>
    let out := removePeerByEndpoint env endpoint connection_id st cfg.strict_ref_counts
    ⟨out.state, out.effects⟩
  | .inbound endpoint identity connection_id local_identity =>
    handleInboundConnection env endpoint identity connection_id local_identity st
      cfg.retryFrequency now
  | .connected endpoint identity connection_id local_identity =>
    handleConnected env endpoint identity connection_id local_identity st
      cfg.retryFrequency now
  | .disconnected endpoint identity connection_id =>
    handleDisconnection env endpoint identity connection_id st
  | .nonFatal endpoint attempts connection_id =>
    handleNonFatalConnectionError env endpoint attempts connection_id st cfg.maxRetryAttempts
  | .fatal connection_id =>
    handleFatalConnection connection_id st cfg.maxRetryAttempts now
  | .retryPending uuidGen =>
    retryPending env st now cfg.maxRetryFrequency uuidGen

/-! Helper lemmas about the association-list containers. -/

theorem find?_cons_pos {α : Type} (p : α → Bool) (a : α) (l : List α) (h : p a = true) :
    (a :: l).find? p = some a := List.find?_cons_of_pos l h

theorem find?_cons_neg {α : Type} (p : α → Bool) (a : α) (l : List α) (h : ¬ p a = true) :
    (a :: l).find? p = l.find? p := List.find?_cons_of_neg l h

theorem find?_key_map_update (l : List PeerMetadata) (meta : PeerMetadata)
    (h : ∃ m0 ∈ l, m0.key = meta.key) :
    (l.map (fun m => if m.key == meta.key then meta else m)).find?
      (fun m => m.key == meta.key) = some meta := by
  induction l with
  | nil => simp at h
  | cons a t ih =>
    by_cases ha : (a.key == meta.key) = true
    · have hif : (if a.key == meta.key then meta else a) = meta := if_pos ha
      simp only [List.map_cons, hif]
      exact find?_cons_pos _ meta _ (by simp)
    · rcases h with ⟨m0, hm0, hk⟩
      rcases List.mem_cons.mp hm0 with rfl | hmt
      · exact absurd (by simp [hk]) ha
      · have hif : (if a.key == meta.key then meta else a) = a := if_neg ha
        simp only [List.map_cons, hif]
        rw [find?_cons_neg (fun m => m.key == meta.key) a _ ha]
        exact ih ⟨m0, hmt, hk⟩

theorem find?_key_map_update_ne (l : List PeerMetadata) (meta : PeerMetadata)
    (K : PeerTokenPair) (hne : K ≠ meta.key) :
    (l.map (fun m => if m.key == meta.key then meta else m)).find? (fun m => m.key == K)
      = l.find? (fun m => m.key == K) := by
  induction l with
  | nil => rfl
  | cons a t ih =>
    by_cases ha : (a.key == meta.key) = true
    · have h1 : a.key = meta.key := by simpa using ha
      have hif : (if a.key == meta.key then meta else a) = meta := if_pos ha
      simp only [List.map_cons, hif]
      rw [find?_cons_neg (fun m => m.key == K) meta _ (by simp [hne.symm]),
        find?_cons_neg (fun m => m.key == K) a _ (by simp [h1, hne.symm]), ih]
    · have hif : (if a.key == meta.key then meta else a) = a := if_neg ha
      simp only [List.map_cons, hif]
      by_cases hK : (a.key == K) = true
      · rw [find?_cons_pos (fun m => m.key == K) a _ hK,
          find?_cons_pos (fun m => m.key == K) a _ hK]
      · rw [find?_cons_neg (fun m => m.key == K) a _ hK,
          find?_cons_neg (fun m => m.key == K) a _ hK, ih]

theorem getByPeerId_updateOrKeep_self (pm : PeerMap) (meta m0 : PeerMetadata)
    (h : m0 ∈ pm.peers) (hk : m0.key = meta.key) :
    (pm.updateOrKeep meta).getByPeerId meta.key = some meta := by
  have hany : pm.peers.any (fun m => m.key == meta.key) = true :=
    List.any_eq_true.mpr ⟨m0, h, by simp [hk]⟩
  unfold PeerMap.updateOrKeep PeerMap.updatePeer
  rw [if_pos hany]
  exact find?_key_map_update pm.peers meta ⟨m0, h, hk⟩

theorem getByPeerId_updateOrKeep_ne (pm : PeerMap) (meta : PeerMetadata)
    (K : PeerTokenPair) (hne : K ≠ meta.key) :
    (pm.updateOrKeep meta).getByPeerId K = pm.getByPeerId K := by
  unfold PeerMap.updateOrKeep PeerMap.updatePeer
  by_cases hany : pm.peers.any (fun m => m.key == meta.key)
  · rw [if_pos hany]
    exact find?_key_map_update_ne pm.peers meta K hne
  · rw [if_neg hany]

theorem getByPeerId_key (pm : PeerMap) (k : PeerTokenPair) (m : PeerMetadata)
    (h : pm.getByPeerId k = some m) : m.key = k := by
  unfold PeerMap.getByPeerId at h
  have h2 := List.find?_some h
  simpa using h2

theorem getByPeerId_mem (pm : PeerMap) (k : PeerTokenPair) (m : PeerMetadata)
    (h : pm.getByPeerId k = some m) : m ∈ pm.peers := by
  unfold PeerMap.getByPeerId at h
  exact List.mem_of_find?_eq_some h

theorem getByConnectionId_cid (pm : PeerMap) (cid : String) (m : PeerMetadata)
    (h : pm.getByConnectionId cid = some m) : m.connection_id = cid := by
  unfold PeerMap.getByConnectionId at h
  have h2 := List.find?_some h
  simpa using h2

theorem getByConnectionId_mem (pm : PeerMap) (cid : String) (m : PeerMetadata)
    (h : pm.getByConnectionId cid = some m) : m ∈ pm.peers := by
  unfold PeerMap.getByConnectionId at h
  exact List.mem_of_find?_eq_some h

/-! Sample tokens and states used by the concrete witnesses below. -/

def tokA : PeerAuthorizationToken := .trust "alpha"

def tokB : PeerAuthorizationToken := .trust "beta"

def keyAB : PeerTokenPair := ⟨tokA, tokB⟩

def sampleMeta : PeerMetadata :=
  { id := tokA, connection_id := "conn-1", endpoints := ["tcp://a"],
    active_endpoint := "tcp://a", status := PeerStatus.connected,
    required_local_auth := tokB, old_connection_ids := [],
    retry_frequency := 10, last_connection_attempt := 0 }

def sampleState : PMState :=
  { peers := ⟨[sampleMeta], 10⟩,
    unref := ⟨[], [], 60, 0⟩,
    refMap := ⟨[(keyAB, 1)]⟩ }

def sampleEnv : ConnectorEnv :=
  { reqOk := fun _ _ => false, remRes := fun _ _ => RemoveConnResult.okSome }

def envY : ConnectorEnv :=
  { reqOk := fun e _ => e == "tcp://y", remRes := fun _ _ => RemoveConnResult.okSome }

/-- `handle_fatal_connection` in isolation: for a known connection id it
broadcasts `Disconnected`, doubles the retry frequency capped by whatever cap
value it is handed, stamps the attempt time and sets the status to `Pending`.
The actor itself hands it `max_retry_attempts` as the cap, not the configured
`max_retry_frequency` — see `fatal_retry_cap_code_bug`. -/
theorem fatal_connection_spec (cid : String) (st : PMState) (maxRF now : Nat)
    (meta : PeerMetadata) (h : st.peers.getByConnectionId cid = some meta) :
    (handleFatalConnection cid st maxRF now).effects.broadcasts =
      [PeerManagerNotification.disconnected meta.key] ∧
    (handleFatalConnection cid st maxRF now).state.peers.getByPeerId meta.key =
      some { meta with
        retry_frequency := min (meta.retry_frequency * 2) maxRF,
        last_connection_attempt := now,
        status := PeerStatus.pending } ∧
    min (meta.retry_frequency * 2) maxRF ≤ maxRF ∧
    (handleFatalConnection cid st maxRF now).state.unref = st.unref ∧
    (handleFatalConnection cid st maxRF now).state.refMap = st.refMap := by
  have hmem : meta ∈ st.peers.peers := List.mem_of_find?_eq_some h
  unfold handleFatalConnection
  rw [h]
  exact ⟨rfl, getByPeerId_updateOrKeep_self st.peers _ meta hmem rfl,
    Nat.min_le_right _ _, rfl, rfl⟩

/-- `fatal_connection_spec` instantiated at a concrete state. -/
theorem fatal_connection_spec_witness :
    sampleState.peers.getByConnectionId "conn-1" = some sampleMeta ∧
    ((handleFatalConnection "conn-1" sampleState 25 7).effects.broadcasts =
      [PeerManagerNotification.disconnected sampleMeta.key] ∧
    (handleFatalConnection "conn-1" sampleState 25 7).state.peers.getByPeerId sampleMeta.key =
      some { sampleMeta with
        retry_frequency := min (sampleMeta.retry_frequency * 2) 25,
        last_connection_attempt := 7,
        status := PeerStatus.pending } ∧
    min (sampleMeta.retry_frequency * 2) 25 ≤ 25 ∧
    (handleFatalConnection "conn-1" sampleState 25 7).state.unref = sampleState.unref ∧
    (handleFatalConnection "conn-1" sampleState 25 7).state.refMap = sampleState.refMap) :=
  ⟨by decide, fatal_connection_spec "conn-1" sampleState 25 7 sampleMeta (by decide)⟩

/-- C1: tie-break on simultaneous connections.  For a peer-map entry in
`Connected` status, the inbound handler rejects the new inbound connection
(removing it and leaving the state untouched) exactly when
`required_local_auth > identity`, and otherwise installs the inbound
connection and removes the old one; the outbound `Connected` handler applies
the inverted rule (`required_local_auth < identity` keeps the existing
connection and drops the new outbound); and for distinct tokens exactly one
of the two comparisons holds. -/
theorem simultaneous_tie_break (env : ConnectorEnv) (endpoint : String)
    (identity : PeerAuthorizationToken) (cid : String)
    (la : PeerAuthorizationToken) (st : PMState) (rf now : Nat) (meta : PeerMetadata)
    (hfind : st.peers.getByPeerId ⟨identity, la⟩ = some meta)
    (hst : meta.status = PeerStatus.connected)
    (hcid : cid ≠ meta.connection_id) :
    (tokenLt identity meta.required_local_auth = true →
      (handleInboundConnection env endpoint identity cid la st rf now).state = st ∧
      (handleInboundConnection env endpoint identity cid la st rf now).effects.removals =
        [(endpoint, cid)] ∧
      (handleInboundConnection env endpoint identity cid la st rf now).effects.broadcasts = []) ∧
    (tokenLt identity meta.required_local_auth = false →
      (handleInboundConnection env endpoint identity cid la st rf now).effects.broadcasts =
        [PeerManagerNotification.connected ⟨identity, la⟩] ∧
      (handleInboundConnection env endpoint identity cid la st rf now).effects.removals =
        [(meta.active_endpoint, meta.connection_id)] ∧
      (handleInboundConnection env endpoint identity cid la st rf now).state.peers.getByPeerId
          ⟨identity, la⟩ =
        some { meta with
          status := PeerStatus.connected, connection_id := cid,
          retry_frequency := rf, last_connection_attempt := now,
          active_endpoint := endpoint }) ∧
    (tokenLt meta.required_local_auth identity = true →
      (handleConnected env endpoint identity cid la st rf now).state = st ∧
      (handleConnected env endpoint identity cid la st rf now).effects.broadcasts = [] ∧
      (handleConnected env endpoint identity cid la st rf now).effects.removals =
        (if endpoint ≠ meta.active_endpoint then [(endpoint, cid)] else [])) ∧
    (tokenLt meta.required_local_auth identity = false →
      (handleConnected env endpoint identity cid la st rf now).effects.broadcasts =
        [PeerManagerNotification.connected ⟨identity, la⟩] ∧
      (handleConnected env endpoint identity cid la st rf now).effects.removals =
        [(meta.active_endpoint, meta.connection_id)] ∧
      (handleConnected env endpoint identity cid la st rf now).state.peers.getByPeerId
          ⟨identity, la⟩ =
        some { meta with
          active_endpoint := endpoint, status := PeerStatus.connected,
          connection_id := cid, retry_frequency := rf, last_connection_attempt := now }) ∧
    (identity ≠ meta.required_local_auth →
      (tokenLt identity meta.required_local_auth = true ↔
        tokenLt meta.required_local_auth identity = false)) := by
  have hkey : meta.key = ⟨identity, la⟩ := getByPeerId_key _ _ _ hfind
  have hmem : meta ∈ st.peers.peers := getByPeerId_mem _ _ _ hfind
  refine ⟨?_, ?_, ?_, ?_, ?_⟩
  · intro ha
    simp only [handleInboundConnection, hfind, hst, ha]
    exact ⟨rfl, rfl, rfl⟩
  · intro ha
    simp only [handleInboundConnection, hfind, hst, ha]
    refine ⟨rfl, ?_, ?_⟩
    · simp [hcid]
    · rw [← hkey]
      exact getByPeerId_updateOrKeep_self st.peers
        { meta with
          status := PeerStatus.connected, connection_id := cid,
          retry_frequency := rf, last_connection_attempt := now,
          active_endpoint := endpoint } meta hmem rfl
  · intro ha
    simp only [handleConnected, hfind, hst, ha]
    exact ⟨rfl, rfl, rfl⟩
  · intro ha
    simp only [handleConnected, hfind, hst, ha]
    refine ⟨rfl, ?_, ?_⟩
    · simp [hcid]
    · rw [← hkey]
      exact getByPeerId_updateOrKeep_self st.peers
        { meta with
          active_endpoint := endpoint, status := PeerStatus.connected,
          connection_id := cid, retry_frequency := rf, last_connection_attempt := now }
        meta hmem rfl
  · intro hne
    constructor
    · intro h1
      exact tokenLt_asymm _ _ h1
    · intro h1
      rcases tokenLt_total identity meta.required_local_auth hne with h2 | h2
      · exact h2
      · rw [h2] at h1; cases h1

/-- Witness for C1: a connected peer under local token `beta` receives a
simultaneous inbound and outbound resolution against remote identity
`alpha`. -/
theorem simultaneous_tie_break_witness :
    (sampleState.peers.getByPeerId ⟨tokA, tokB⟩ = some sampleMeta ∧
      sampleMeta.status = PeerStatus.connected ∧ "conn-2" ≠ sampleMeta.connection_id) ∧
    ((tokenLt tokA sampleMeta.required_local_auth = true →
      (handleInboundConnection sampleEnv "tcp://b" tokA "conn-2" tokB sampleState 10 5).state =
        sampleState ∧
      (handleInboundConnection sampleEnv "tcp://b" tokA "conn-2" tokB sampleState
          10 5).effects.removals = [("tcp://b", "conn-2")] ∧
      (handleInboundConnection sampleEnv "tcp://b" tokA "conn-2" tokB sampleState
          10 5).effects.broadcasts = []) ∧
    (tokenLt tokA sampleMeta.required_local_auth = false →
      (handleInboundConnection sampleEnv "tcp://b" tokA "conn-2" tokB sampleState
          10 5).effects.broadcasts = [PeerManagerNotification.connected ⟨tokA, tokB⟩] ∧
      (handleInboundConnection sampleEnv "tcp://b" tokA "conn-2" tokB sampleState
          10 5).effects.removals = [(sampleMeta.active_endpoint, sampleMeta.connection_id)] ∧
      (handleInboundConnection sampleEnv "tcp://b" tokA "conn-2" tokB sampleState
          10 5).state.peers.getByPeerId ⟨tokA, tokB⟩ =
        some { sampleMeta with
          status := PeerStatus.connected, connection_id := "conn-2",
          retry_frequency := 10, last_connection_attempt := 5,
          active_endpoint := "tcp://b" }) ∧
    (tokenLt sampleMeta.required_local_auth tokA = true →
      (handleConnected sampleEnv "tcp://b" tokA "conn-2" tokB sampleState 10 5).state =
        sampleState ∧
      (handleConnected sampleEnv "tcp://b" tokA "conn-2" tokB sampleState
          10 5).effects.broadcasts = [] ∧
      (handleConnected sampleEnv "tcp://b" tokA "conn-2" tokB sampleState
          10 5).effects.removals =
        (if "tcp://b" ≠ sampleMeta.active_endpoint then [("tcp://b", "conn-2")] else [])) ∧
    (tokenLt sampleMeta.required_local_auth tokA = false →
      (handleConnected sampleEnv "tcp://b" tokA "conn-2" tokB sampleState
          10 5).effects.broadcasts = [PeerManagerNotification.connected ⟨tokA, tokB⟩] ∧
      (handleConnected sampleEnv "tcp://b" tokA "conn-2" tokB sampleState
          10 5).effects.removals = [(sampleMeta.active_endpoint, sampleMeta.connection_id)] ∧
      (handleConnected sampleEnv "tcp://b" tokA "conn-2" tokB sampleState
          10 5).state.peers.getByPeerId ⟨tokA, tokB⟩ =
        some { sampleMeta with
          active_endpoint := "tcp://b", status := PeerStatus.connected,
          connection_id := "conn-2", retry_frequency := 10, last_connection_attempt := 5 }) ∧
    (tokA ≠ sampleMeta.required_local_auth →
      (tokenLt tokA sampleMeta.required_local_auth = true ↔
        tokenLt sampleMeta.required_local_auth tokA = false))) :=
  ⟨⟨by decide, by decide, by decide⟩,
    simultaneous_tie_break sampleEnv "tcp://b" tokA "conn-2" tokB sampleState 10 5 sampleMeta
      (by decide) (by decide) (by decide)⟩

theorem tryEndpoints_calls (env : ConnectorEnv) (l : List String) (cid : String)
    (ra la : Option PeerAuthorizationToken) (d : String) :
    (tryEndpoints env l cid ra la d).2 =
      (l.takeWhile (fun e => !(env.reqOk e cid))).map (fun e => ReqCall.mk e cid ra la) ++
      (match l.find? (fun e => env.reqOk e cid) with
        | some e => [ReqCall.mk e cid ra la]
        | none => []) := by
  induction l with
  | nil => rfl
  | cons e rest ih =>
    by_cases h : env.reqOk e cid = true
    · simp only [tryEndpoints, if_pos h, List.takeWhile_cons, h]
      rw [find?_cons_pos (fun e => env.reqOk e cid) e rest h]
      simp
    · simp only [tryEndpoints, if_neg h, List.takeWhile_cons]
      rw [find?_cons_neg (fun e => env.reqOk e cid) e rest h]
      simp only [Bool.not_eq_true] at h
      simp [h, ih]

theorem tryEndpoints_active (env : ConnectorEnv) (l : List String) (cid : String)
    (ra la : Option PeerAuthorizationToken) (d : String) :
    (tryEndpoints env l cid ra la d).1 =
      (l.find? (fun e => env.reqOk e cid)).getD d := by
  induction l with
  | nil => rfl
  | cons e rest ih =>
    by_cases h : env.reqOk e cid = true
    · simp only [tryEndpoints, if_pos h]
      rw [find?_cons_pos (fun e => env.reqOk e cid) e rest h]
      rfl
    · simp only [tryEndpoints, if_neg h]
      rw [find?_cons_neg (fun e => env.reqOk e cid) e rest h]
      exact ih

/-- C3 counterexample: a `Disconnected` notification whose `connection_id` is
in the peer map but whose endpoint differs from the peer's `active_endpoint`
is ignored entirely — in particular no `Disconnected` notification is
broadcast, contradicting the claim that a broadcast happens in all cases. -/
theorem disconnection_no_broadcast_counterexample :
    (sampleState.peers.getByConnectionId "conn-1").isSome = true ∧
    (handleDisconnection sampleEnv "tcp://other" tokA "conn-1" sampleState).effects.broadcasts
      = [] ∧
    (handleDisconnection sampleEnv "tcp://other" tokA "conn-1" sampleState).state
      = sampleState := by
  refine ⟨by decide, ?_, ?_⟩ <;> rfl

/-- C3 as amended: when a `Disconnected` notification's `connection_id` maps to
a peer-map entry **and** its endpoint equals the peer's `active_endpoint`, the
handler broadcasts `Disconnected`; if the endpoint is in the configured list
the status becomes `Disconnected{retry_attempts: 1}`, otherwise the connection
is removed, the status becomes `Pending`, and connections are requested on the
configured endpoints in order until one succeeds.  (When the endpoint differs
from `active_endpoint` the notification is ignored.) -/
theorem disconnection_spec (env : ConnectorEnv) (endpoint : String)
    (identity : PeerAuthorizationToken) (cid : String) (st : PMState)
    (meta : PeerMetadata)
    (hfind : st.peers.getByConnectionId cid = some meta)
    (hep : endpoint = meta.active_endpoint) :
    (handleDisconnection env endpoint identity cid st).effects.broadcasts =
      [PeerManagerNotification.disconnected meta.key] ∧
    (endpoint ∈ meta.endpoints →
      (handleDisconnection env endpoint identity cid st).state.peers.getByPeerId meta.key =
        some { meta with status := PeerStatus.disconnected 1 } ∧
      (handleDisconnection env endpoint identity cid st).effects.removals = [] ∧
      (handleDisconnection env endpoint identity cid st).effects.requests = []) ∧
    (endpoint ∉ meta.endpoints →
      (handleDisconnection env endpoint identity cid st).state.peers.getByPeerId meta.key =
        some { meta with status := PeerStatus.pending } ∧
      (handleDisconnection env endpoint identity cid st).effects.removals =
        [(meta.active_endpoint, meta.connection_id)] ∧
      (handleDisconnection env endpoint identity cid st).effects.requests =
        (meta.endpoints.takeWhile (fun e => !(env.reqOk e meta.connection_id))).map
          (fun e => ReqCall.mk e meta.connection_id (some identity)
            (some meta.required_local_auth)) ++
        (match meta.endpoints.find? (fun e => env.reqOk e meta.connection_id) with
          | some e => [ReqCall.mk e meta.connection_id (some identity)
              (some meta.required_local_auth)]
          | none => [])) := by
  have hmem : meta ∈ st.peers.peers := getByConnectionId_mem _ _ _ hfind
  refine ⟨?_, ?_, ?_⟩
  · simp only [handleDisconnection, hfind, hep]
    by_cases hin : meta.active_endpoint ∈ meta.endpoints <;> simp [hin]
  · intro hin
    rw [hep] at hin
    simp only [handleDisconnection, hfind, hep, hin]
    simp only [if_pos hin, if_neg (by simp : ¬ meta.active_endpoint ≠ meta.active_endpoint)]
    refine ⟨?_, rfl, rfl⟩
    exact getByPeerId_updateOrKeep_self st.peers _ meta hmem rfl
  · intro hin
    rw [hep] at hin
    simp only [handleDisconnection, hfind, hep]
    simp only [if_neg (by simp : ¬ meta.active_endpoint ≠ meta.active_endpoint), if_neg hin]
    refine ⟨?_, by simp, ?_⟩
    · exact getByPeerId_updateOrKeep_self st.peers _ meta hmem rfl
    · exact tryEndpoints_calls env meta.endpoints meta.connection_id (some identity)
        (some meta.required_local_auth) meta.active_endpoint

/-- Witness for the amended C3 at a concrete state: the active endpoint is in
the configured list, so the peer moves to `Disconnected{1}` and the
disconnection is broadcast. -/
theorem disconnection_spec_witness :
    (sampleState.peers.getByConnectionId "conn-1" = some sampleMeta ∧
      "tcp://a" = sampleMeta.active_endpoint) ∧
    ((handleDisconnection sampleEnv "tcp://a" tokA "conn-1" sampleState).effects.broadcasts =
      [PeerManagerNotification.disconnected sampleMeta.key] ∧
    ("tcp://a" ∈ sampleMeta.endpoints →
      (handleDisconnection sampleEnv "tcp://a" tokA "conn-1"
          sampleState).state.peers.getByPeerId sampleMeta.key =
        some { sampleMeta with status := PeerStatus.disconnected 1 } ∧
      (handleDisconnection sampleEnv "tcp://a" tokA "conn-1" sampleState).effects.removals
        = [] ∧
      (handleDisconnection sampleEnv "tcp://a" tokA "conn-1" sampleState).effects.requests
        = []) ∧
    ("tcp://a" ∉ sampleMeta.endpoints →
      (handleDisconnection sampleEnv "tcp://a" tokA "conn-1"
          sampleState).state.peers.getByPeerId sampleMeta.key =
        some { sampleMeta with status := PeerStatus.pending } ∧
      (handleDisconnection sampleEnv "tcp://a" tokA "conn-1" sampleState).effects.removals =
        [(sampleMeta.active_endpoint, sampleMeta.connection_id)] ∧
      (handleDisconnection sampleEnv "tcp://a" tokA "conn-1" sampleState).effects.requests =
        (sampleMeta.endpoints.takeWhile
            (fun e => !(sampleEnv.reqOk e sampleMeta.connection_id))).map
          (fun e => ReqCall.mk e sampleMeta.connection_id (some tokA)
            (some sampleMeta.required_local_auth)) ++
        (match sampleMeta.endpoints.find?
            (fun e => sampleEnv.reqOk e sampleMeta.connection_id) with
          | some e => [ReqCall.mk e sampleMeta.connection_id (some tokA)
              (some sampleMeta.required_local_auth)]
          | none => []))) :=
  ⟨⟨by decide, by decide⟩,
    disconnection_spec sampleEnv "tcp://a" tokA "conn-1" sampleState sampleMeta
      (by decide) (by decide)⟩

theorem find?_append_eq {α : Type} (l1 l2 : List α) (p : α → Bool) :
    (l1 ++ l2).find? p =
      (match l1.find? p with | some a => some a | none => l2.find? p) := by
  induction l1 with
  | nil => rfl
  | cons a t ih =>
    by_cases h : p a = true
    · rw [List.cons_append, find?_cons_pos p a _ h, find?_cons_pos p a _ h]
    · rw [List.cons_append, find?_cons_neg p a _ h, find?_cons_neg p a _ h, ih]

theorem find?_filter_none {α : Type} (l : List α) (p q : α → Bool)
    (h : ∀ x, q x = true → p x = false) : (l.filter q).find? p = none := by
  induction l with
  | nil => rfl
  | cons a t ih =>
    by_cases hq : q a = true
    · rw [List.filter_cons_of_pos hq, find?_cons_neg p a _ (by simp [h a hq])]
      exact ih
    · rw [List.filter_cons_of_neg (by simpa using hq)]
      exact ih

theorem find?_filter_sub {α : Type} (l : List α) (p q : α → Bool)
    (h : ∀ x, p x = true → q x = true) : (l.filter q).find? p = l.find? p := by
  induction l with
  | nil => rfl
  | cons a t ih =>
    by_cases hp : p a = true
    · rw [List.filter_cons_of_pos (h a hp), find?_cons_pos p a _ hp, find?_cons_pos p a _ hp]
    · by_cases hq : q a = true
      · rw [List.filter_cons_of_pos hq, find?_cons_neg p a _ hp, find?_cons_neg p a _ hp]
        exact ih
      · rw [List.filter_cons_of_neg (by simpa using hq), find?_cons_neg p a _ hp]
        exact ih

/-- Record produced by `PeerMap.insert`. -/
def insertedMeta (pm : PeerMap) (id : PeerAuthorizationToken) (cid : String)
    (endpoints : List String) (active : String) (status : PeerStatus)
    (localAuth : PeerAuthorizationToken) (oldIds : List String) (now : Nat) : PeerMetadata :=
  { id := id, connection_id := cid, endpoints := endpoints,
    active_endpoint := active, status := status,
    required_local_auth := localAuth, old_connection_ids := oldIds,
    retry_frequency := pm.initialRetryFrequency,
    last_connection_attempt := now }

theorem getByPeerId_insert_self (pm : PeerMap) (id : PeerAuthorizationToken) (cid : String)
    (endpoints : List String) (active : String) (status : PeerStatus)
    (localAuth : PeerAuthorizationToken) (oldIds : List String) (now : Nat) :
    (pm.insert id cid endpoints active status localAuth oldIds now).getByPeerId ⟨id, localAuth⟩ =
      some (insertedMeta pm id cid endpoints active status localAuth oldIds now) := by
  unfold PeerMap.insert PeerMap.getByPeerId
  rw [find?_append_eq]
  rw [find?_filter_none _ _ _ (fun x hq => by
    simp only [Bool.not_eq_true'] at hq
    simpa using hq)]
  rw [find?_cons_pos _ _ _ (by simp [insertedMeta, PeerMetadata.key])]
  rfl

theorem getByPeerId_insert_ne (pm : PeerMap) (id : PeerAuthorizationToken) (cid : String)
    (endpoints : List String) (active : String) (status : PeerStatus)
    (localAuth : PeerAuthorizationToken) (oldIds : List String) (now : Nat)
    (K : PeerTokenPair) (hne : K ≠ ⟨id, localAuth⟩) :
    (pm.insert id cid endpoints active status localAuth oldIds now).getByPeerId K =
      pm.getByPeerId K := by
  unfold PeerMap.insert PeerMap.getByPeerId
  rw [find?_append_eq]
  rw [find?_filter_sub _ _ _ (fun x hp => by
    simp only [beq_iff_eq] at hp
    simp [hp, hne])]
  cases hf : pm.peers.find? (fun m => m.key == K) with
  | some m => rfl
  | none =>
    rw [find?_cons_neg _ _ _ (by simp [insertedMeta, PeerMetadata.key, Ne.symm hne])]
    rfl

theorem lookup_append_one (counts : List (PeerTokenPair × Nat)) (k k2 : PeerTokenPair)
    (n : Nat) (h : counts.find? (fun p => p.1 == k2) = none ∨ k ≠ k2) :
    (RefMap.mk (counts ++ [(k, n)])).lookup k2 =
      (match (RefMap.mk counts).lookup k2 with
        | some m => some m
        | none => if k2 = k then some n else none) := by
  unfold RefMap.lookup
  rw [find?_append_eq]
  cases hf : counts.find? (fun p => p.1 == k2) with
  | some p => simp
  | none =>
    by_cases hk : k2 = k
    · subst hk
      rw [find?_cons_pos _ _ _ (by simp)]
      simp
    · rw [find?_cons_neg _ _ _ (by simp [Ne.symm hk])]
      simp [hk]

/-- C7: a truly new `AddPeer` request draws a fresh connection id, requests the
endpoints in order stopping at the first success (the successful endpoint, or
else the first of the list, becomes `active_endpoint`), inserts the peer with
status `Pending`, and returns a handle. -/
theorem add_peer_new_spec (env : ConnectorEnv) (peer_id : PeerAuthorizationToken)
    (e0 : String) (rest : List String) (la : PeerAuthorizationToken) (st : PMState)
    (newConnId : String) (now : Nat)
    (hdup : checkForDuplicateEndpoint peer_id (e0 :: rest) st.peers = false)
    (href : st.refMap.lookup ⟨peer_id, la⟩ = none)
    (hunref : st.unref.lookupPeer ⟨peer_id, la⟩ = none) :
    (addPeer env peer_id (e0 :: rest) la st newConnId now).result = .ok ⟨peer_id, la⟩ ∧
    (addPeer env peer_id (e0 :: rest) la st newConnId now).state.peers.getByPeerId
        ⟨peer_id, la⟩ =
      some (insertedMeta st.peers peer_id newConnId (e0 :: rest)
        (((e0 :: rest).find? (fun e => env.reqOk e newConnId)).getD e0)
        PeerStatus.pending la [] now) ∧
    (addPeer env peer_id (e0 :: rest) la st newConnId now).effects.requests =
      ((e0 :: rest).takeWhile (fun e => !(env.reqOk e newConnId))).map
        (fun e => ReqCall.mk e newConnId (some peer_id) (some la)) ++
      (match (e0 :: rest).find? (fun e => env.reqOk e newConnId) with
        | some e => [ReqCall.mk e newConnId (some peer_id) (some la)]
        | none => []) ∧
    (addPeer env peer_id (e0 :: rest) la st newConnId now).effects.broadcasts = [] ∧
    (addPeer env peer_id (e0 :: rest) la st newConnId now).state.refMap.lookup
        ⟨peer_id, la⟩ = some 1 := by
  have hrm : st.refMap.addRef ⟨peer_id, la⟩ =
      (1, ⟨st.refMap.counts ++ [(⟨peer_id, la⟩, 1)]⟩) := by
    unfold RefMap.addRef
    rw [href]
  simp only [addPeer, hdup, Bool.false_eq_true, if_false, hrm,
    UnreferencedPeerState.removePeer, hunref]
  have hlt : ¬ (1 < 1) := by decide
  simp only [if_neg hlt, List.head?_cons]
  refine ⟨by trivial, ?_, ?_, by trivial, ?_⟩
  · rw [← tryEndpoints_active env (e0 :: rest) newConnId (some peer_id) (some la) e0]
    exact getByPeerId_insert_self st.peers peer_id newConnId (e0 :: rest) _
      PeerStatus.pending la [] now
  · exact tryEndpoints_calls env (e0 :: rest) newConnId (some peer_id) (some la) e0
  · have h2 := lookup_append_one st.refMap.counts ⟨peer_id, la⟩ ⟨peer_id, la⟩ 1
      (Or.inl (by
        unfold RefMap.lookup at href
        simpa using href))
    rw [h2]
    have h3 : (RefMap.mk st.refMap.counts).lookup ⟨peer_id, la⟩ = none := href
    rw [h3]
    simp

/-- Witness for C7: a fresh peer with two endpoints where only the second
accepts; the second endpoint becomes active. -/
theorem add_peer_new_spec_witness :
    (checkForDuplicateEndpoint tokB ["tcp://x", "tcp://y"] sampleState.peers = false ∧
      sampleState.refMap.lookup ⟨tokB, tokA⟩ = none ∧
      sampleState.unref.lookupPeer ⟨tokB, tokA⟩ = none) ∧
    ((addPeer envY tokB ["tcp://x", "tcp://y"] tokA sampleState "conn-9" 3).result =
      .ok ⟨tokB, tokA⟩ ∧
    (addPeer envY tokB ["tcp://x", "tcp://y"] tokA sampleState "conn-9" 3).state.peers.getByPeerId
        ⟨tokB, tokA⟩ =
      some (insertedMeta sampleState.peers tokB "conn-9" ["tcp://x", "tcp://y"]
        ((["tcp://x", "tcp://y"].find? (fun e => envY.reqOk e "conn-9")).getD "tcp://x")
        PeerStatus.pending tokA [] 3) ∧
    (addPeer envY tokB ["tcp://x", "tcp://y"] tokA sampleState "conn-9" 3).effects.requests =
      (["tcp://x", "tcp://y"].takeWhile (fun e => !(envY.reqOk e "conn-9"))).map
        (fun e => ReqCall.mk e "conn-9" (some tokB) (some tokA)) ++
      (match ["tcp://x", "tcp://y"].find? (fun e => envY.reqOk e "conn-9") with
        | some e => [ReqCall.mk e "conn-9" (some tokB) (some tokA)]
        | none => []) ∧
    (addPeer envY tokB ["tcp://x", "tcp://y"] tokA sampleState "conn-9" 3).effects.broadcasts
      = [] ∧
    (addPeer envY tokB ["tcp://x", "tcp://y"] tokA sampleState "conn-9" 3).state.refMap.lookup
        ⟨tokB, tokA⟩ = some 1) :=
  ⟨⟨by decide, by decide, by decide⟩,
    add_peer_new_spec envY tokB "tcp://x" ["tcp://y"] tokA sampleState "conn-9" 3
      (by decide) (by decide) (by decide)⟩

theorem find?_fst_map_update {α β : Type} [DecidableEq α] (l : List (α × β)) (k : α) (v : β)
    (h : ∃ p ∈ l, p.1 = k) :
    (l.map (fun p => if p.1 == k then (k, v) else p)).find? (fun p => p.1 == k) =
      some (k, v) := by
  induction l with
  | nil => simp at h
  | cons a t ih =>
    by_cases ha : (a.1 == k) = true
    · have hif : (if a.1 == k then (k, v) else a) = (k, v) := if_pos ha
      simp only [List.map_cons, hif]
      exact find?_cons_pos _ _ _ (by simp)
    · rcases h with ⟨p, hp, hk⟩
      rcases List.mem_cons.mp hp with rfl | hpt
      · exact absurd (by simp [hk]) ha
      · have hif : (if a.1 == k then (k, v) else a) = a := if_neg ha
        simp only [List.map_cons, hif]
        rw [find?_cons_neg _ a _ ha]
        exact ih ⟨p, hpt, hk⟩

theorem RefMap.lookup_some_mem (rm : RefMap) (k : PeerTokenPair) (n : Nat)
    (h : rm.lookup k = some n) : ∃ p ∈ rm.counts, p.1 = k ∧ p.2 = n := by
  unfold RefMap.lookup at h
  cases hf : rm.counts.find? (fun p => p.1 == k) with
  | none => rw [hf] at h; cases h
  | some p =>
    rw [hf] at h
    have hp := List.find?_some hf
    have hmem := List.mem_of_find?_eq_some hf
    refine ⟨p, hmem, by simpa using hp, ?_⟩
    simpa using h

/-- C8: `RemovePeer{K}` removes K from the unreferenced table, removes the
reference; exactly when the reference count drops to zero the peer-map entry
is removed and, exactly when that entry was not `Pending`, the connection
manager is asked to close the peer's active connection; a surviving count
leaves the peer map untouched and replies `Ok`. -/
theorem remove_peer_spec (env : ConnectorEnv) (peer_id : PeerTokenPair) (st : PMState)
    (strict : Bool) (n : Nat) (meta : PeerMetadata)
    (hn : st.refMap.lookup peer_id = some n)
    (hmeta : st.peers.getByPeerId peer_id = some meta) :
    (removePeer env peer_id st strict).state.unref.lookupPeer peer_id = none ∧
    (2 ≤ n →
      (removePeer env peer_id st strict).state.peers = st.peers ∧
      (removePeer env peer_id st strict).result = .ok () ∧
      (removePeer env peer_id st strict).state.refMap.lookup peer_id = some (n - 1) ∧
      (removePeer env peer_id st strict).effects.removals = []) ∧
    (n = 1 →
      (removePeer env peer_id st strict).state.peers.getByPeerId peer_id = none ∧
      (removePeer env peer_id st strict).state.refMap.lookup peer_id = none ∧
      (meta.status = PeerStatus.pending →
        (removePeer env peer_id st strict).effects.removals = [] ∧
        (removePeer env peer_id st strict).result = .ok ()) ∧
      (meta.status ≠ PeerStatus.pending →
        (removePeer env peer_id st strict).effects.removals =
          [(meta.active_endpoint, meta.connection_id)])) := by
  have hunref : ∀ (u : UnreferencedPeerState),
      (UnreferencedPeerState.mk (u.peers.filter (fun p => !(p.1 == peer_id)))
        u.requested_endpoints u.retry_frequency u.last_connection_attempt).lookupPeer
        peer_id = none := by
    intro u
    unfold UnreferencedPeerState.lookupPeer
    rw [find?_filter_none _ _ _ (fun x hq => by
      simp only [Bool.not_eq_true'] at hq
      simpa using hq)]
    rfl
  by_cases h2 : 2 ≤ n
  · have hrr : st.refMap.removeRef peer_id =
        .ok (none, RefMap.mk (st.refMap.counts.map
          (fun p => if p.1 == peer_id then (peer_id, n - 1) else p))) := by
      simp only [RefMap.removeRef, hn]
      rw [if_neg (by omega)]
    have hout : removePeer env peer_id st strict =
        ⟨⟨st.peers,
          ⟨st.unref.peers.filter (fun p => !(p.1 == peer_id)), st.unref.requested_endpoints,
            st.unref.retry_frequency, st.unref.last_connection_attempt⟩,
          RefMap.mk (st.refMap.counts.map
            (fun p => if p.1 == peer_id then (peer_id, n - 1) else p))⟩,
          noEffects, .ok ()⟩ := by
      simp only [removePeer, hrr, UnreferencedPeerState.removePeer]
    rw [hout]
    refine ⟨hunref st.unref, fun _ => ⟨rfl, rfl, ?_, rfl⟩, fun h1 => absurd h1 (by omega)⟩
    rcases RefMap.lookup_some_mem st.refMap peer_id n hn with ⟨p, hp, hk, _⟩
    unfold RefMap.lookup
    rw [find?_fst_map_update st.refMap.counts peer_id (n - 1) ⟨p, hp, hk⟩]
    rfl
  · have hle : n ≤ 1 := by omega
    have hrr : st.refMap.removeRef peer_id =
        .ok (some peer_id,
          RefMap.mk (st.refMap.counts.filter (fun p => !(p.1 == peer_id)))) := by
      simp only [RefMap.removeRef, hn]
      rw [if_pos hle]
    have hfind2 := hmeta
    unfold PeerMap.getByPeerId at hfind2
    have hgone : (PeerMap.mk (st.peers.peers.filter (fun m2 => !(m2.key == peer_id)))
        st.peers.initialRetryFrequency).getByPeerId peer_id = none := by
      unfold PeerMap.getByPeerId
      rw [find?_filter_none _ _ _ (fun x hq => by
        simp only [Bool.not_eq_true'] at hq
        simpa using hq)]
    have hrfmap : (RefMap.mk (st.refMap.counts.filter
        (fun p => !(p.1 == peer_id)))).lookup peer_id = none := by
      unfold RefMap.lookup
      rw [find?_filter_none _ _ _ (fun x hq => by
        simp only [Bool.not_eq_true'] at hq
        simpa using hq)]
      rfl
    by_cases hpend : meta.status = PeerStatus.pending
    · have hout : removePeer env peer_id st strict =
          ⟨⟨⟨st.peers.peers.filter (fun m2 => !(m2.key == peer_id)),
              st.peers.initialRetryFrequency⟩,
            ⟨st.unref.peers.filter (fun p => !(p.1 == peer_id)), st.unref.requested_endpoints,
              st.unref.retry_frequency, st.unref.last_connection_attempt⟩,
            RefMap.mk (st.refMap.counts.filter (fun p => !(p.1 == peer_id)))⟩,
            noEffects, .ok ()⟩ := by
        simp only [removePeer, hrr, UnreferencedPeerState.removePeer, removeFinish,
          PeerMap.remove, hfind2, hpend, beq_self_eq_true, if_true]
      rw [hout]
      exact ⟨hunref st.unref, fun hh => absurd hh h2,
        fun _ => ⟨hgone, hrfmap, fun _ => ⟨rfl, rfl⟩, fun hq => absurd hpend hq⟩⟩
    · have hsf : (meta.status == PeerStatus.pending) = false := by
        simp [hpend]
      have houtState : ∀ r : Except String Unit,
          (⟨⟨⟨st.peers.peers.filter (fun m2 => !(m2.key == peer_id)),
              st.peers.initialRetryFrequency⟩,
            ⟨st.unref.peers.filter (fun p => !(p.1 == peer_id)), st.unref.requested_endpoints,
              st.unref.retry_frequency, st.unref.last_connection_attempt⟩,
            RefMap.mk (st.refMap.counts.filter (fun p => !(p.1 == peer_id)))⟩,
            ⟨[], [], [(meta.active_endpoint, meta.connection_id)], false⟩,
            r⟩ : RemoveOut).state.unref.lookupPeer peer_id = none := by
        intro r
        exact hunref st.unref
      cases hrm : env.remRes meta.active_endpoint meta.connection_id with
      | okSome =>
        have hout : removePeer env peer_id st strict =
            ⟨⟨⟨st.peers.peers.filter (fun m2 => !(m2.key == peer_id)),
                st.peers.initialRetryFrequency⟩,
              ⟨st.unref.peers.filter (fun p => !(p.1 == peer_id)),
                st.unref.requested_endpoints,
                st.unref.retry_frequency, st.unref.last_connection_attempt⟩,
              RefMap.mk (st.refMap.counts.filter (fun p => !(p.1 == peer_id)))⟩,
              ⟨[], [], [(meta.active_endpoint, meta.connection_id)], false⟩, .ok ()⟩ := by
          simp only [removePeer, hrr, UnreferencedPeerState.removePeer, removeFinish,
            PeerMap.remove, hfind2, hsf, Bool.false_eq_true, if_false, hrm, noEffects]
        rw [hout]
        exact ⟨hunref st.unref, fun hh => absurd hh h2,
          fun _ => ⟨hgone, hrfmap, fun hq => absurd hq hpend, fun _ => rfl⟩⟩
      | okNone =>
        have hout : removePeer env peer_id st strict =
            ⟨⟨⟨st.peers.peers.filter (fun m2 => !(m2.key == peer_id)),
                st.peers.initialRetryFrequency⟩,
              ⟨st.unref.peers.filter (fun p => !(p.1 == peer_id)),
                st.unref.requested_endpoints,
                st.unref.retry_frequency, st.unref.last_connection_attempt⟩,
              RefMap.mk (st.refMap.counts.filter (fun p => !(p.1 == peer_id)))⟩,
              ⟨[], [], [(meta.active_endpoint, meta.connection_id)], false⟩,
              .error "the connection has already been removed"⟩ := by
          simp only [removePeer, hrr, UnreferencedPeerState.removePeer, removeFinish,
            PeerMap.remove, hfind2, hsf, Bool.false_eq_true, if_false, hrm, noEffects]
        rw [hout]
        exact ⟨hunref st.unref, fun hh => absurd hh h2,
          fun _ => ⟨hgone, hrfmap, fun hq => absurd hq hpend, fun _ => rfl⟩⟩
      | err =>
        have hout : removePeer env peer_id st strict =
            ⟨⟨⟨st.peers.peers.filter (fun m2 => !(m2.key == peer_id)),
                st.peers.initialRetryFrequency⟩,
              ⟨st.unref.peers.filter (fun p => !(p.1 == peer_id)),
                st.unref.requested_endpoints,
                st.unref.retry_frequency, st.unref.last_connection_attempt⟩,
              RefMap.mk (st.refMap.counts.filter (fun p => !(p.1 == peer_id)))⟩,
              ⟨[], [], [(meta.active_endpoint, meta.connection_id)], false⟩,
              .error "remove connection error"⟩ := by
          simp only [removePeer, hrr, UnreferencedPeerState.removePeer, removeFinish,
            PeerMap.remove, hfind2, hsf, Bool.false_eq_true, if_false, hrm, noEffects]
        rw [hout]
        exact ⟨hunref st.unref, fun hh => absurd hh h2,
          fun _ => ⟨hgone, hrfmap, fun hq => absurd hq hpend, fun _ => rfl⟩⟩

/-- Witness for C8: removing the single reference of a connected peer closes
its connection and empties the peer map. -/
theorem remove_peer_spec_witness :
    (sampleState.refMap.lookup keyAB = some 1 ∧
      sampleState.peers.getByPeerId keyAB = some sampleMeta) ∧
    ((removePeer sampleEnv keyAB sampleState true).state.unref.lookupPeer keyAB = none ∧
    (2 ≤ 1 →
      (removePeer sampleEnv keyAB sampleState true).state.peers = sampleState.peers ∧
      (removePeer sampleEnv keyAB sampleState true).result = .ok () ∧
      (removePeer sampleEnv keyAB sampleState true).state.refMap.lookup keyAB = some (1 - 1) ∧
      (removePeer sampleEnv keyAB sampleState true).effects.removals = []) ∧
    (1 = 1 →
      (removePeer sampleEnv keyAB sampleState true).state.peers.getByPeerId keyAB = none ∧
      (removePeer sampleEnv keyAB sampleState true).state.refMap.lookup keyAB = none ∧
      (sampleMeta.status = PeerStatus.pending →
        (removePeer sampleEnv keyAB sampleState true).effects.removals = [] ∧
        (removePeer sampleEnv keyAB sampleState true).result = .ok ()) ∧
      (sampleMeta.status ≠ PeerStatus.pending →
        (removePeer sampleEnv keyAB sampleState true).effects.removals =
          [(sampleMeta.active_endpoint, sampleMeta.connection_id)]))) :=
  ⟨⟨by decide, by decide⟩,
    remove_peer_spec sampleEnv keyAB sampleState true 1 sampleMeta (by decide) (by decide)⟩

theorem addPeer_no_panic (env : ConnectorEnv) (pid : PeerAuthorizationToken)
    (eps : List String) (la : PeerAuthorizationToken) (st : PMState) (cid : String)
    (now : Nat) : (addPeer env pid eps la st cid now).effects.panicked = false := by
  simp only [addPeer]
  repeat first
    | rfl
    | split

theorem addUnidentified_no_panic (env : ConnectorEnv) (e : String)
    (la : PeerAuthorizationToken) (st : PMState) (cid : String) :
    (addUnidentified env e la st cid).effects.panicked = false := by
  simp only [addUnidentified]
  repeat first
    | rfl
    | split

theorem inbound_no_panic (env : ConnectorEnv) (e : String)
    (identity : PeerAuthorizationToken) (cid : String) (la : PeerAuthorizationToken)
    (st : PMState) (rf now : Nat) :
    (handleInboundConnection env e identity cid la st rf now).effects.panicked = false := by
  simp only [handleInboundConnection]
  repeat first
    | rfl
    | split

theorem connected_no_panic (env : ConnectorEnv) (e : String)
    (identity : PeerAuthorizationToken) (cid : String) (la : PeerAuthorizationToken)
    (st : PMState) (rf now : Nat) :
    (handleConnected env e identity cid la st rf now).effects.panicked = false := by
  simp only [handleConnected]
  repeat first
    | rfl
    | split

theorem disconnection_no_panic (env : ConnectorEnv) (e : String)
    (identity : PeerAuthorizationToken) (cid : String) (st : PMState) :
    (handleDisconnection env e identity cid st).effects.panicked = false := by
  simp only [handleDisconnection]
  repeat first
    | rfl
    | split

theorem nonfatal_no_panic (env : ConnectorEnv) (e : String) (attempts : Nat)
    (cid : String) (st : PMState) (maxRA : Nat) :
    (handleNonFatalConnectionError env e attempts cid st maxRA).effects.panicked = false := by
  simp only [handleNonFatalConnectionError]
  repeat first
    | rfl
    | split

theorem fatal_no_panic (cid : String) (st : PMState) (maxRF now : Nat) :
    (handleFatalConnection cid st maxRF now).effects.panicked = false := by
  simp only [handleFatalConnection]
  repeat first
    | rfl
    | split

theorem retryPending_no_panic (env : ConnectorEnv) (st : PMState) (now maxRF : Nat)
    (uuidGen : Nat → String) :
    (retryPending env st now maxRF uuidGen).effects.panicked = false := by
  simp only [retryPending]
  repeat first
    | rfl
    | split

theorem removePeer_panicked (env : ConnectorEnv) (k : PeerTokenPair) (st : PMState)
    (strict : Bool) :
    (removePeer env k st strict).effects.panicked = true ↔
      (strict = true ∧ st.refMap.lookup k = none) := by
  cases hl : st.refMap.lookup k with
  | none =>
    have hrr : st.refMap.removeRef k = .error () := by
      simp only [RefMap.removeRef, hl]
    simp only [removePeer, hrr]
    cases strict <;> simp [noEffects]
  | some n =>
    have hp : (removePeer env k st strict).effects.panicked = false := by
      by_cases hle : n ≤ 1
      · have hrr : st.refMap.removeRef k =
            .ok (some k, ⟨st.refMap.counts.filter (fun p => !(p.1 == k))⟩) := by
          simp only [RefMap.removeRef, hl]
          rw [if_pos hle]
        simp only [removePeer, hrr, removeFinish]
        repeat first
          | rfl
          | split
      · have hrr : st.refMap.removeRef k =
            .ok (none, ⟨st.refMap.counts.map
              (fun p => if p.1 == k then (k, n - 1) else p)⟩) := by
          simp only [RefMap.removeRef, hl]
          rw [if_neg hle]
        simp only [removePeer, hrr]
        rfl
    rw [hp]
    simp [hl]

theorem removePeerByEndpoint_panicked (env : ConnectorEnv) (e cid : String) (st : PMState)
    (strict : Bool) :
    (removePeerByEndpoint env e cid st strict).effects.panicked = true ↔
      (strict = true ∧ ∃ meta, st.peers.getByConnectionId cid = some meta ∧
        st.refMap.lookup meta.key = none) := by
  cases hf : st.peers.getByConnectionId cid with
  | none =>
    simp only [removePeerByEndpoint, hf]
    simp [noEffects]
  | some meta =>
    cases hl : st.refMap.lookup meta.key with
    | none =>
      have hrr : st.refMap.removeRef meta.key = .error () := by
        simp only [RefMap.removeRef, hl]
      simp only [removePeerByEndpoint, hf, hrr]
      cases strict
      · simp only [Bool.false_eq_true, if_false]
        simp [noEffects]
      · simp only [if_true]
        simp [hl]
    | some n =>
      have hp : (removePeerByEndpoint env e cid st strict).effects.panicked = false := by
        by_cases hle : n ≤ 1
        · have hrr : st.refMap.removeRef meta.key =
              .ok (some meta.key, ⟨st.refMap.counts.filter (fun p => !(p.1 == meta.key))⟩) := by
            simp only [RefMap.removeRef, hl]
            rw [if_pos hle]
          simp only [removePeerByEndpoint, hf, hrr, removeFinish]
          repeat first
            | rfl
            | split
        · have hrr : st.refMap.removeRef meta.key =
              .ok (none, ⟨st.refMap.counts.map
                (fun p => if p.1 == meta.key then (meta.key, n - 1) else p)⟩) := by
            simp only [RefMap.removeRef, hl]
            rw [if_neg hle]
          simp only [removePeerByEndpoint, hf, hrr]
          rfl
      rw [hp]
      constructor
      · intro h; cases h
      · rintro ⟨_, meta2, hm2, hl2⟩
        injection hm2 with hq
        rw [← hq] at hl2
        rw [hl] at hl2
        cases hl2

/-- Condition under which the actor aborts: a removal request in strict mode
whose key is absent from the reference map. -/
def panicCond (cfg : PMConfig) (st : PMState) (m : PMMsg) : Prop :=
  match m with
  | .removePeer k => cfg.strict_ref_counts = true ∧ st.refMap.lookup k = none
  | .removePeerByEndpoint _ cid =>
    cfg.strict_ref_counts = true ∧
      ∃ meta, st.peers.getByConnectionId cid = some meta ∧ st.refMap.lookup meta.key = none
  | _ => False

/-- C9: for every message and every behaviour of the connection manager, the
actor panics exactly when `strict_ref_counts` is set and a removal names a key
absent from the reference map; in particular no handler panics on transport
errors. -/
theorem actor_panic_iff (env : ConnectorEnv) (cfg : PMConfig) (st : PMState) (m : PMMsg)
    (now : Nat) :
    (handleMessage env cfg st m now).effects.panicked = true ↔ panicCond cfg st m := by
  cases m with
  | addPeer pid eps la cid =>
    simp only [handleMessage, panicCond]
    rw [addPeer_no_panic]
    simp
  | addUnidentified e la cid =>
    simp only [handleMessage, panicCond]
    rw [addUnidentified_no_panic]
    simp
  | removePeer k =>
    simp only [handleMessage, panicCond]
    exact removePeer_panicked env k st cfg.strict_ref_counts
  | removePeerByEndpoint e cid =>
    simp only [handleMessage, panicCond]
    exact removePeerByEndpoint_panicked env e cid st cfg.strict_ref_counts
  | inbound e identity cid la =>
    simp only [handleMessage, panicCond]
    rw [inbound_no_panic]
    simp
  | connected e identity cid la =>
    simp only [handleMessage, panicCond]
    rw [connected_no_panic]
    simp
  | disconnected e identity cid =>
    simp only [handleMessage, panicCond]
    rw [disconnection_no_panic]
    simp
  | nonFatal e attempts cid =>
    simp only [handleMessage, panicCond]
    rw [nonfatal_no_panic]
    simp
  | fatal cid =>
    simp only [handleMessage, panicCond]
    rw [fatal_no_panic]
    simp
  | retryPending uuidGen =>
    simp only [handleMessage, panicCond]
    rw [retryPending_no_panic]
    simp

theorem lookup_addRef_self (rm : RefMap) (k : PeerTokenPair) :
    (rm.addRef k).2.lookup k = some ((rm.lookup k).getD 0 + 1) := by
  cases hl : rm.lookup k with
  | some n =>
    simp only [RefMap.addRef, hl]
    rcases RefMap.lookup_some_mem rm k n hl with ⟨p, hp, hk, _⟩
    unfold RefMap.lookup
    rw [find?_fst_map_update rm.counts k (n + 1) ⟨p, hp, hk⟩]
    simp
  | none =>
    simp only [RefMap.addRef, hl]
    have hfn : rm.counts.find? (fun p => p.1 == k) = none := by
      unfold RefMap.lookup at hl
      cases hq : rm.counts.find? (fun p => p.1 == k) with
      | none => rfl
      | some p => rw [hq] at hl; cases hl
    unfold RefMap.lookup
    rw [find?_append_eq, hfn, find?_cons_pos _ _ _ (by simp)]
    simp

theorem lookupRequested_insert_self (u : UnreferencedPeerState) (e : String)
    (v : RequestedEndpoint) : (u.insertRequested e v).lookupRequested e = some v := by
  unfold UnreferencedPeerState.insertRequested UnreferencedPeerState.lookupRequested
  rw [find?_append_eq]
  rw [find?_filter_none _ _ _ (fun x hq => by
    simp only [Bool.not_eq_true'] at hq
    simpa using hq)]
  rw [find?_cons_pos _ _ _ (by simp)]
  rfl

/-- Reply sent by the actor for an `AddUnidentified` request (mod.rs lines 402
to 421): the result of `add_unidentified` wrapped in `Ok`, unconditionally. -/
def addUnidentifiedReply (env : ConnectorEnv) (e : String)
    (la : PeerAuthorizationToken) (st : PMState) (cid : String) :
    Except String EndpointPeerRef :=
  Except.ok (addUnidentified env e la st cid).result

/-- C10: `AddUnidentified` is always answered with `Ok` carrying an
`EndpointPeerRef`: a matching peer (same endpoint and local authorization)
gets its reference count incremented and its connection id returned; otherwise
a fresh connection id is returned, the connection request outcome is ignored,
and the endpoint is recorded in `requested_endpoints`. -/
theorem add_unidentified_spec (env : ConnectorEnv) (e : String)
    (la : PeerAuthorizationToken) (st : PMState) (cid : String) :
    (∃ r, addUnidentifiedReply env e la st cid = Except.ok r) ∧
    (match (st.peers.getPeerFromEndpoint e).find?
        (fun m => m.required_local_auth == la) with
     | some meta =>
        (addUnidentified env e la st cid).result = ⟨e, meta.connection_id⟩ ∧
        (addUnidentified env e la st cid).state.refMap.lookup meta.key =
          some ((st.refMap.lookup meta.key).getD 0 + 1) ∧
        (addUnidentified env e la st cid).state.peers = st.peers ∧
        (addUnidentified env e la st cid).state.unref = st.unref ∧
        (addUnidentified env e la st cid).effects.requests = []
     | none =>
        (addUnidentified env e la st cid).result = ⟨e, cid⟩ ∧
        (addUnidentified env e la st cid).state.unref.lookupRequested e =
          some ⟨e, la⟩ ∧
        (addUnidentified env e la st cid).effects.requests =
          [⟨e, cid, none, some la⟩] ∧
        (addUnidentified env e la st cid).state.peers = st.peers ∧
        (addUnidentified env e la st cid).state.refMap = st.refMap) := by
  refine ⟨⟨(addUnidentified env e la st cid).result, rfl⟩, ?_⟩
  cases hf : (st.peers.getPeerFromEndpoint e).find?
      (fun m => m.required_local_auth == la) with
  | some meta =>
    simp only [addUnidentified, hf]
    exact ⟨by trivial, lookup_addRef_self st.refMap meta.key, by trivial, by trivial,
      by trivial⟩
  | none =>
    simp only [addUnidentified, hf]
    exact ⟨by trivial, lookupRequested_insert_self st.unref e ⟨e, la⟩, by trivial,
      by trivial, by trivial⟩

/-- Status under which a key currently appears in the peer map. -/
def peerStatusOf (st : PMState) (K : PeerTokenPair) : Option PeerStatus :=
  (st.peers.getByPeerId K).map (·.status)

/-- Number of `Connected{K}` notifications among the broadcast effects. -/
def connectedCount (eff : Effects) (K : PeerTokenPair) : Nat :=
  eff.broadcasts.countP (fun b => b == PeerManagerNotification.connected K)

/-- Environment consistency for one message: a `Connected` notification for a
requested endpoint reports the local authorization under which that endpoint
was requested (the connection manager echoes the authorization it was handed
in `request_connection`). -/
def msgConsistent (st : PMState) (m : PMMsg) : Prop :=
  match m with
  | .connected e _ _ la =>
    ∀ req, st.unref.lookupRequested e = some req → req.local_authorization = la
  | _ => True

/-- C4 counterexample: `add_peer` for a peer that is already `Connected` (and
whose reference count is already positive) broadcasts `Connected` although the
peer's status was `Connected` before and does not change — so the claim that
no handler broadcasts `Connected` without a transition is false. -/
theorem connected_rebroadcast_counterexample :
    peerStatusOf sampleState keyAB = some PeerStatus.connected ∧
    (addPeer sampleEnv tokA ["tcp://a"] tokB sampleState "conn-3" 9).state.peers =
      sampleState.peers ∧
    (addPeer sampleEnv tokA ["tcp://a"] tokB sampleState "conn-3" 9).effects.broadcasts =
      [PeerManagerNotification.connected keyAB] := by
  refine ⟨by decide, by decide, by decide⟩

theorem statusOf_updateOrKeep (pm : PeerMap) (meta : PeerMetadata) (K : PeerTokenPair) :
    (pm.updateOrKeep meta).getByPeerId K = pm.getByPeerId K ∨
    (pm.updateOrKeep meta).getByPeerId K = some meta := by
  by_cases hK : K = meta.key
  · by_cases hany : pm.peers.any (fun m => m.key == meta.key) = true
    · right
      rcases List.any_eq_true.mp hany with ⟨m0, hm0, hk0⟩
      rw [hK]
      exact getByPeerId_updateOrKeep_self pm meta m0 hm0 (by simpa using hk0)
    · left
      unfold PeerMap.updateOrKeep PeerMap.updatePeer
      rw [if_neg hany]
  · left
    exact getByPeerId_updateOrKeep_ne pm meta K hK

theorem connectedCount_nil (rq : List ReqCall) (rm : List (String × String)) (p : Bool)
    (K : PeerTokenPair) : connectedCount ⟨[], rq, rm, p⟩ K = 0 := rfl

theorem connectedCount_single (k K : PeerTokenPair) (rq : List ReqCall)
    (rm : List (String × String)) (p : Bool) :
    connectedCount ⟨[PeerManagerNotification.connected k], rq, rm, p⟩ K =
      if k = K then 1 else 0 := by
  unfold connectedCount
  by_cases h : k = K
  · simp [List.countP_cons, h]
  · simp [List.countP_cons, List.countP_nil, h]

theorem connectedCount_single_disc (k K : PeerTokenPair) (rq : List ReqCall)
    (rm : List (String × String)) (p : Bool) :
    connectedCount ⟨[PeerManagerNotification.disconnected k], rq, rm, p⟩ K = 0 := by
  unfold connectedCount
  simp [List.countP_cons, List.countP_nil]

theorem getByPeerId_filterKey (pm : PeerMap) (rk K : PeerTokenPair) :
    (PeerMap.mk (pm.peers.filter (fun m2 => !(m2.key == rk)))
      pm.initialRetryFrequency).getByPeerId K = none ∨
    (PeerMap.mk (pm.peers.filter (fun m2 => !(m2.key == rk)))
      pm.initialRetryFrequency).getByPeerId K = pm.getByPeerId K := by
  by_cases hK : K = rk
  · left
    unfold PeerMap.getByPeerId
    rw [find?_filter_none _ _ _ (fun x hq => by
      simp only [Bool.not_eq_true'] at hq
      simp only [beq_eq_false_iff_ne, ne_eq] at hq
      simp [hq, hK])]
  · right
    unfold PeerMap.getByPeerId
    rw [find?_filter_sub _ _ _ (fun x hp => by
      simp only [beq_iff_eq] at hp
      simp [hp, hK])]

/-- Statement shape shared by all handlers that never broadcast `Connected`:
no `Connected{K}` notification is emitted and no key newly acquires
`Connected` status. -/
def NoNewConnected (st : PMState) (out : NotifOut) : Prop :=
  (∀ K, connectedCount out.effects K = 0) ∧
  (∀ K, peerStatusOf out.state K = some PeerStatus.connected →
    peerStatusOf st K = some PeerStatus.connected)

theorem addUnidentified_noNewConnected (env : ConnectorEnv) (e : String)
    (la : PeerAuthorizationToken) (st : PMState) (cid : String) :
    NoNewConnected st ⟨(addUnidentified env e la st cid).state,
      (addUnidentified env e la st cid).effects⟩ := by
  cases hf : (st.peers.getPeerFromEndpoint e).find?
      (fun m => m.required_local_auth == la) with
  | some meta =>
    simp only [addUnidentified, hf]
    exact ⟨fun K => rfl, fun K h => h⟩
  | none =>
    simp only [addUnidentified, hf]
    exact ⟨fun K => rfl, fun K h => h⟩

theorem removeFinish_noNewConnected (env : ConnectorEnv) (rk : PeerTokenPair)
    (st : PMState) :
    (∀ K, connectedCount (removeFinish env rk st).effects K = 0) ∧
    (∀ K, peerStatusOf (removeFinish env rk st).state K = some PeerStatus.connected →
      peerStatusOf st K = some PeerStatus.connected) := by
  unfold peerStatusOf
  cases hf : st.peers.getByPeerId rk with
  | none =>
    have hrem : st.peers.remove rk = (none, st.peers) := by
      unfold PeerMap.remove
      unfold PeerMap.getByPeerId at hf
      rw [hf]
    simp only [removeFinish, hrem]
    exact ⟨fun K => rfl, fun K h => h⟩
  | some meta =>
    have hrem : st.peers.remove rk = (some meta,
        ⟨st.peers.peers.filter (fun m2 => !(m2.key == rk)),
          st.peers.initialRetryFrequency⟩) := by
      unfold PeerMap.remove
      unfold PeerMap.getByPeerId at hf
      rw [hf]
    have hstat : ∀ K,
        (PeerMap.mk (st.peers.peers.filter (fun m2 => !(m2.key == rk)))
          st.peers.initialRetryFrequency).getByPeerId K = none ∨
        (PeerMap.mk (st.peers.peers.filter (fun m2 => !(m2.key == rk)))
          st.peers.initialRetryFrequency).getByPeerId K = st.peers.getByPeerId K :=
      fun K => getByPeerId_filterKey st.peers rk K

    simp only [removeFinish, hrem]
    by_cases hpend : (meta.status == PeerStatus.pending) = true
    · rw [if_pos hpend]
      refine ⟨fun K => rfl, fun K h => ?_⟩
      rcases hstat K with h2 | h2
      · rw [h2] at h; cases h
      · rw [h2] at h; exact h
    · rw [if_neg hpend]
      cases env.remRes meta.active_endpoint meta.connection_id <;>
        refine ⟨fun K => rfl, fun K h => ?_⟩ <;>
        rcases hstat K with h2 | h2 <;>
        (first
          | (rw [h2] at h; cases h)
          | (rw [h2] at h; exact h))

theorem removePeer_noNewConnected (env : ConnectorEnv) (k : PeerTokenPair) (st : PMState)
    (strict : Bool) :
    NoNewConnected st ⟨(removePeer env k st strict).state,
      (removePeer env k st strict).effects⟩ := by
  cases hl : st.refMap.lookup k with
  | none =>
    have hrr : st.refMap.removeRef k = .error () := by
      simp only [RefMap.removeRef, hl]
    simp only [removePeer, hrr]
    cases strict
    · simp only [Bool.false_eq_true, if_false]
      exact ⟨fun K => rfl, fun K h => h⟩
    · simp only [if_true]
      exact ⟨fun K => rfl, fun K h => h⟩
  | some n =>
    by_cases hle : n ≤ 1
    · have hrr : st.refMap.removeRef k =
          .ok (some k, ⟨st.refMap.counts.filter (fun p => !(p.1 == k))⟩) := by
        simp only [RefMap.removeRef, hl]
        rw [if_pos hle]
      simp only [removePeer, hrr]
      exact removeFinish_noNewConnected env k _
    · have hrr : st.refMap.removeRef k =
          .ok (none, ⟨st.refMap.counts.map
            (fun p => if p.1 == k then (k, n - 1) else p)⟩) := by
        simp only [RefMap.removeRef, hl]
        rw [if_neg hle]
      simp only [removePeer, hrr]
      exact ⟨fun K => rfl, fun K h => h⟩

theorem removePeerByEndpoint_noNewConnected (env : ConnectorEnv) (e cid : String)
    (st : PMState) (strict : Bool) :
    NoNewConnected st ⟨(removePeerByEndpoint env e cid st strict).state,
      (removePeerByEndpoint env e cid st strict).effects⟩ := by
  cases hf : st.peers.getByConnectionId cid with
  | none =>
    simp only [removePeerByEndpoint, hf]
    exact ⟨fun K => rfl, fun K h => h⟩
  | some meta =>
    cases hl : st.refMap.lookup meta.key with
    | none =>
      have hrr : st.refMap.removeRef meta.key = .error () := by
        simp only [RefMap.removeRef, hl]
      simp only [removePeerByEndpoint, hf, hrr]
      cases strict
      · simp only [Bool.false_eq_true, if_false]
        exact ⟨fun K => rfl, fun K h => h⟩
      · simp only [if_true]
        exact ⟨fun K => rfl, fun K h => h⟩
    | some n =>
      by_cases hle : n ≤ 1
      · have hrr : st.refMap.removeRef meta.key =
            .ok (some meta.key,
              ⟨st.refMap.counts.filter (fun p => !(p.1 == meta.key))⟩) := by
          simp only [RefMap.removeRef, hl]
          rw [if_pos hle]
        simp only [removePeerByEndpoint, hf, hrr]
        exact removeFinish_noNewConnected env meta.key _
      · have hrr : st.refMap.removeRef meta.key =
            .ok (none, ⟨st.refMap.counts.map
              (fun p => if p.1 == meta.key then (meta.key, n - 1) else p)⟩) := by
          simp only [RefMap.removeRef, hl]
          rw [if_neg hle]
        simp only [removePeerByEndpoint, hf, hrr]
        exact ⟨fun K => rfl, fun K h => h⟩

theorem disconnection_noNewConnected (env : ConnectorEnv) (e : String)
    (identity : PeerAuthorizationToken) (cid : String) (st : PMState) :
    NoNewConnected st (handleDisconnection env e identity cid st) := by
  cases hf : st.peers.getByConnectionId cid with
  | some meta =>
    by_cases hep : e ≠ meta.active_endpoint
    · simp only [handleDisconnection, hf, if_pos hep]
      exact ⟨fun K => rfl, fun K h => h⟩
    · by_cases hin : e ∈ meta.endpoints
      · simp only [handleDisconnection, hf, if_neg hep, if_pos hin]
        refine ⟨fun K => connectedCount_single_disc _ K _ _ _, fun K h => ?_⟩
        unfold peerStatusOf at h ⊢
        rcases statusOf_updateOrKeep st.peers
            { meta with status := PeerStatus.disconnected 1 } K with h2 | h2
        · simp only [h2] at h
          exact h
        · simp only [h2] at h
          simp at h
      · simp only [handleDisconnection, hf, if_neg hep, if_neg hin]
        refine ⟨fun K => connectedCount_single_disc _ K _ _ _, fun K h => ?_⟩
        unfold peerStatusOf at h ⊢
        rcases statusOf_updateOrKeep st.peers
            { meta with status := PeerStatus.pending } K with h2 | h2
        · simp only [h2] at h
          exact h
        · simp only [h2] at h
          simp at h
  | none =>
    cases hu : st.unref.getByConnectionId cid with
    | some p =>
      simp only [handleDisconnection, hf, hu]
      exact ⟨fun K => rfl, fun K h => h⟩
    | none =>
      simp only [handleDisconnection, hf, hu]
      exact ⟨fun K => rfl, fun K h => h⟩

theorem nonfatal_noNewConnected (env : ConnectorEnv) (e : String) (attempts : Nat)
    (cid : String) (st : PMState) (maxRA : Nat) :
    NoNewConnected st (handleNonFatalConnectionError env e attempts cid st maxRA) := by
  cases hf : st.peers.getByConnectionId cid with
  | none =>
    simp only [handleNonFatalConnectionError, hf]
    exact ⟨fun K => rfl, fun K h => h⟩
  | some meta =>
    have hupd : ∀ K, peerStatusOf
        ⟨st.peers.updateOrKeep { meta with status := PeerStatus.disconnected attempts },
          st.unref, st.refMap⟩ K = some PeerStatus.connected →
        peerStatusOf st K = some PeerStatus.connected := by
      intro K h
      unfold peerStatusOf at h ⊢
      rcases statusOf_updateOrKeep st.peers
          { meta with status := PeerStatus.disconnected attempts } K with h2 | h2
      · simp only [h2] at h
        exact h
      · simp only [h2] at h
        simp at h
    by_cases hra : maxRA ≤ attempts
    · by_cases hep : e ≠ meta.active_endpoint
      · simp only [handleNonFatalConnectionError, hf, if_pos hra, if_pos hep]
        exact ⟨fun K => rfl, fun K h => h⟩
      · simp only [handleNonFatalConnectionError, hf, if_pos hra, if_neg hep]
        exact ⟨fun K => rfl, fun K h => hupd K h⟩
    · simp only [handleNonFatalConnectionError, hf, if_neg hra]
      exact ⟨fun K => rfl, fun K h => hupd K h⟩

theorem fatal_noNewConnected (cid : String) (st : PMState) (maxRF now : Nat) :
    NoNewConnected st (handleFatalConnection cid st maxRF now) := by
  cases hf : st.peers.getByConnectionId cid with
  | none =>
    simp only [handleFatalConnection, hf]
    exact ⟨fun K => rfl, fun K h => h⟩
  | some meta =>
    simp only [handleFatalConnection, hf]
    refine ⟨fun K => connectedCount_single_disc _ K _ _ _, fun K h => ?_⟩
    unfold peerStatusOf at h ⊢
    rcases statusOf_updateOrKeep st.peers
        { meta with
          retry_frequency := min (meta.retry_frequency * 2) maxRF,
          last_connection_attempt := now, status := PeerStatus.pending } K with h2 | h2
    · simp only [h2] at h
      exact h
    · simp only [h2] at h
      simp at h

theorem retry_fold_status (env : ConnectorEnv) (maxRF now : Nat) (l : List PeerMetadata) :
    ∀ (start : PeerMap × List ReqCall) (K : PeerTokenPair),
    (∀ m ∈ l, m.status = PeerStatus.pending) →
    ((l.foldl (fun (acc : PeerMap × List ReqCall) m =>
        let r := retryOnePeer env m maxRF now
        (acc.1.updateOrKeep r.1, acc.2 ++ r.2)) start).1.getByPeerId K =
      start.1.getByPeerId K) ∨
    (∃ m2, (l.foldl (fun (acc : PeerMap × List ReqCall) m =>
        let r := retryOnePeer env m maxRF now
        (acc.1.updateOrKeep r.1, acc.2 ++ r.2)) start).1.getByPeerId K = some m2 ∧
      m2.status = PeerStatus.pending) := by
  induction l with
  | nil =>
    intro start K _
    left
    rfl
  | cons m t ih =>
    intro start K hl
    have hm : m.status = PeerStatus.pending := hl m (List.mem_cons_self _ _)
    have ht : ∀ m2 ∈ t, m2.status = PeerStatus.pending :=
      fun m2 hm2 => hl m2 (List.mem_cons_of_mem _ hm2)
    simp only [List.foldl_cons]
    rcases ih (start.1.updateOrKeep (retryOnePeer env m maxRF now).1,
        start.2 ++ (retryOnePeer env m maxRF now).2) K ht with h | h
    · rcases statusOf_updateOrKeep start.1 (retryOnePeer env m maxRF now).1 K with h2 | h2
      · left
        rw [h, h2]
      · right
        refine ⟨(retryOnePeer env m maxRF now).1, by rw [h, h2], ?_⟩
        simpa [retryOnePeer] using hm
    · right
      exact h

theorem retryPending_noNewConnected (env : ConnectorEnv) (st : PMState) (now maxRF : Nat)
    (uuidGen : Nat → String) :
    NoNewConnected st (retryPending env st now maxRF uuidGen) := by
  have hfold := retry_fold_status env maxRF now
    (st.peers.peers.filter (fun m => m.status == PeerStatus.pending &&
      decide (m.retry_frequency < now - m.last_connection_attempt)))
    (st.peers, [])
  have hstat : ∀ K, peerStatusOf (retryPending env st now maxRF uuidGen).state K =
      some PeerStatus.connected → peerStatusOf st K = some PeerStatus.connected := by
    intro K h
    have hl : ∀ m ∈ st.peers.peers.filter (fun m => m.status == PeerStatus.pending &&
        decide (m.retry_frequency < now - m.last_connection_attempt)),
        m.status = PeerStatus.pending := by
      intro m hm
      have := List.of_mem_filter hm
      simp only [Bool.and_eq_true, beq_iff_eq] at this
      exact this.1
    have hpeers : (retryPending env st now maxRF uuidGen).state.peers =
        ((st.peers.peers.filter (fun m => m.status == PeerStatus.pending &&
          decide (m.retry_frequency < now - m.last_connection_attempt))).foldl
          (fun (acc : PeerMap × List ReqCall) m =>
            let r := retryOnePeer env m maxRF now
            (acc.1.updateOrKeep r.1, acc.2 ++ r.2)) (st.peers, [])).1 := by
      simp only [retryPending]
      by_cases hc : st.unref.retry_frequency < now - st.unref.last_connection_attempt
      · rw [if_pos hc]
      · rw [if_neg hc]
    unfold peerStatusOf at h ⊢ 
    rw [hpeers] at h
    rcases hfold K hl with h2 | h2
    · rw [h2] at h
      exact h
    · rcases h2 with ⟨m2, hm2, hs2⟩
      rw [hm2] at h
      simp only [Option.map_some'] at h
      injection h with h3
      rw [hs2] at h3
      cases h3
  refine ⟨fun K => ?_, hstat⟩
  have heff : (retryPending env st now maxRF uuidGen).effects.broadcasts = [] := by
    simp only [retryPending]
    by_cases hc : st.unref.retry_frequency < now - st.unref.last_connection_attempt
    · rw [if_pos hc]
      rfl
    · rw [if_neg hc]
      rfl
  unfold connectedCount
  rw [heff]
  rfl

/-- The three broadcast-discipline facts of C4, for one handler output. -/
def ConnectedFacts (st : PMState) (out : NotifOut) : Prop :=
  ∀ K, connectedCount out.effects K ≤ 1 ∧
    ((peerStatusOf st K ≠ some PeerStatus.connected ∧
      peerStatusOf out.state K = some PeerStatus.connected) →
      connectedCount out.effects K = 1) ∧
    (1 ≤ connectedCount out.effects K →
      peerStatusOf out.state K = some PeerStatus.connected)

theorem noNew_connectedFacts (st : PMState) (out : NotifOut)
    (h : NoNewConnected st out) : ConnectedFacts st out := by
  intro K
  refine ⟨?_, ?_, ?_⟩
  · rw [h.1 K]
    omega
  · rintro ⟨hpre, hpost⟩
    exact absurd (h.2 K hpost) hpre
  · intro h1
    rw [h.1 K] at h1
    omega

theorem connectedFacts_samePeers (st st2 : PMState) (eff : Effects)
    (hp : st2.peers = st.peers) (hb : eff.broadcasts = []) :
    ConnectedFacts st ⟨st2, eff⟩ := by
  intro K
  have hc : connectedCount eff K = 0 := by
    unfold connectedCount
    rw [hb]
    rfl
  have hsame : peerStatusOf st2 K = peerStatusOf st K := by
    unfold peerStatusOf
    rw [hp]
  refine ⟨by rw [hc]; omega, ?_, ?_⟩
  · rintro ⟨hpre, hpost⟩
    rw [hsame] at hpost
    exact absurd hpost hpre
  · intro h1
    rw [hc] at h1
    omega

theorem connectedFacts_rebroadcast (st st2 : PMState) (ptp : PeerTokenPair)
    (meta : PeerMetadata) (rq : List ReqCall) (rm : List (String × String)) (p : Bool)
    (hp : st2.peers = st.peers) (hf : st.peers.getByPeerId ptp = some meta)
    (hstat : meta.status = PeerStatus.connected) :
    ConnectedFacts st ⟨st2, ⟨[PeerManagerNotification.connected ptp], rq, rm, p⟩⟩ := by
  intro K
  have hc : connectedCount ⟨[PeerManagerNotification.connected ptp], rq, rm, p⟩ K =
      if ptp = K then 1 else 0 := connectedCount_single ptp K rq rm p
  have hsame : peerStatusOf st2 K = peerStatusOf st K := by
    unfold peerStatusOf
    rw [hp]
  refine ⟨?_, ?_, ?_⟩
  · rw [hc]
    by_cases h : ptp = K <;> simp [h]
  · rintro ⟨hpre, hpost⟩
    rw [hsame] at hpost
    exact absurd hpost hpre
  · intro h1
    rw [hc] at h1
    by_cases h : ptp = K
    · rw [hsame]
      unfold peerStatusOf
      rw [← h, hf]
      simp [hstat]
    · rw [if_neg h] at h1
      omega

theorem connectedFacts_updateConn (st : PMState) (u : UnreferencedPeerState) (r : RefMap)
    (pm2 m0 : PeerMetadata) (rq : List ReqCall) (rm : List (String × String)) (p : Bool)
    (hm0 : m0 ∈ st.peers.peers) (hk : m0.key = pm2.key)
    (hstat : pm2.status = PeerStatus.connected) :
    ConnectedFacts st ⟨⟨st.peers.updateOrKeep pm2, u, r⟩,
      ⟨[PeerManagerNotification.connected pm2.key], rq, rm, p⟩⟩ := by
  intro K
  have hc : connectedCount ⟨[PeerManagerNotification.connected pm2.key], rq, rm, p⟩ K =
      if pm2.key = K then 1 else 0 := connectedCount_single pm2.key K rq rm p
  have hself : (st.peers.updateOrKeep pm2).getByPeerId pm2.key = some pm2 :=
    getByPeerId_updateOrKeep_self st.peers pm2 m0 hm0 hk
  refine ⟨?_, ?_, ?_⟩
  · rw [hc]
    by_cases h : pm2.key = K <;> simp [h]
  · rintro ⟨hpre, hpost⟩
    rw [hc]
    by_cases h : pm2.key = K
    · rw [if_pos h]
    · exfalso
      unfold peerStatusOf at hpost
      rw [getByPeerId_updateOrKeep_ne st.peers pm2 K (Ne.symm h)] at hpost
      exact hpre hpost
  · intro h1
    rw [hc] at h1
    by_cases h : pm2.key = K
    · unfold peerStatusOf
      rw [← h, hself]
      simp [hstat]
    · rw [if_neg h] at h1
      omega

theorem connectedFacts_insertConn (st : PMState) (u : UnreferencedPeerState) (r : RefMap)
    (id : PeerAuthorizationToken) (cid : String) (eps : List String) (active : String)
    (la2 : PeerAuthorizationToken) (oldIds : List String) (now : Nat)
    (rq : List ReqCall) (rm : List (String × String)) (p : Bool) :
    ConnectedFacts st ⟨⟨st.peers.insert id cid eps active PeerStatus.connected la2 oldIds now,
      u, r⟩, ⟨[PeerManagerNotification.connected ⟨id, la2⟩], rq, rm, p⟩⟩ := by
  intro K
  have hc : connectedCount
      ⟨[PeerManagerNotification.connected ⟨id, la2⟩], rq, rm, p⟩ K =
      if (⟨id, la2⟩ : PeerTokenPair) = K then 1 else 0 :=
    connectedCount_single _ K rq rm p
  refine ⟨?_, ?_, ?_⟩
  · rw [hc]
    by_cases h : (⟨id, la2⟩ : PeerTokenPair) = K <;> simp [h]
  · rintro ⟨hpre, hpost⟩
    rw [hc]
    by_cases h : (⟨id, la2⟩ : PeerTokenPair) = K
    · rw [if_pos h]
    · exfalso
      unfold peerStatusOf at hpost
      rw [getByPeerId_insert_ne st.peers id cid eps active PeerStatus.connected la2 oldIds
        now K (Ne.symm h)] at hpost
      exact hpre hpost
  · intro h1
    rw [hc] at h1
    by_cases h : (⟨id, la2⟩ : PeerTokenPair) = K
    · unfold peerStatusOf
      rw [← h, getByPeerId_insert_self]
      simp [insertedMeta]
    · rw [if_neg h] at h1
      omega

theorem connectedFacts_insertPending (st : PMState) (u : UnreferencedPeerState) (r : RefMap)
    (id : PeerAuthorizationToken) (cid : String) (eps : List String) (active : String)
    (la2 : PeerAuthorizationToken) (oldIds : List String) (now : Nat) (eff : Effects)
    (hb : eff.broadcasts = []) :
    ConnectedFacts st ⟨⟨st.peers.insert id cid eps active PeerStatus.pending la2 oldIds now,
      u, r⟩, eff⟩ := by
  intro K
  have hc : connectedCount eff K = 0 := by
    unfold connectedCount
    rw [hb]
    rfl
  refine ⟨by rw [hc]; omega, ?_, ?_⟩
  · rintro ⟨hpre, hpost⟩
    unfold peerStatusOf at hpost
    by_cases h : (⟨id, la2⟩ : PeerTokenPair) = K
    · rw [← h, getByPeerId_insert_self] at hpost
      simp [insertedMeta] at hpost
    · rw [getByPeerId_insert_ne st.peers id cid eps active PeerStatus.pending la2 oldIds
        now K (Ne.symm h)] at hpost
      exact absurd hpost hpre
  · intro h1
    rw [hc] at h1
    omega

theorem updatePeer_some_eq (pm : PeerMap) (meta m0 : PeerMetadata)
    (hm0 : m0 ∈ pm.peers) (hk : m0.key = meta.key) :
    pm.updatePeer meta = some (pm.updateOrKeep meta) := by
  have hany : pm.peers.any (fun m => m.key == meta.key) = true :=
    List.any_eq_true.mpr ⟨m0, hm0, by simp [hk]⟩
  simp only [PeerMap.updateOrKeep, PeerMap.updatePeer, hany, if_true]

theorem connectedFacts_updateSameStatus (st : PMState) (u : UnreferencedPeerState)
    (r : RefMap) (pm2 m0 : PeerMetadata) (eff : Effects)
    (hb : eff.broadcasts = [])
    (hpre : st.peers.getByPeerId pm2.key = some m0)
    (hstat : pm2.status = m0.status) :
    ConnectedFacts st ⟨⟨st.peers.updateOrKeep pm2, u, r⟩, eff⟩ := by
  intro K
  have hc : connectedCount eff K = 0 := by
    unfold connectedCount
    rw [hb]
    rfl
  refine ⟨by rw [hc]; omega, ?_, ?_⟩
  · rintro ⟨hpre2, hpost⟩
    exfalso
    unfold peerStatusOf at hpre2 hpost
    by_cases h : K = pm2.key
    · rw [h] at hpost hpre2
      rw [getByPeerId_updateOrKeep_self st.peers pm2 m0
        (getByPeerId_mem _ _ _ hpre) (getByPeerId_key _ _ _ hpre)] at hpost
      rw [hpre] at hpre2
      simp only [Option.map_some'] at hpost hpre2
      injection hpost with h2
      rw [hstat] at h2
      exact hpre2 (by rw [h2])
    · rw [getByPeerId_updateOrKeep_ne st.peers pm2 K h] at hpost
      exact absurd hpost hpre2
  · intro h1
    rw [hc] at h1
    omega

theorem inbound_connectedFacts (env : ConnectorEnv) (e : String)
    (identity : PeerAuthorizationToken) (cid : String) (la : PeerAuthorizationToken)
    (st : PMState) (rf now : Nat) :
    ConnectedFacts st (handleInboundConnection env e identity cid la st rf now) := by
  cases hf : st.peers.getByPeerId ⟨identity, la⟩ with
  | some meta =>
    have hkey : meta.key = ⟨identity, la⟩ := getByPeerId_key _ _ _ hf
    have hmem : meta ∈ st.peers.peers := getByPeerId_mem _ _ _ hf
    by_cases hrej : (meta.status == PeerStatus.connected &&
        tokenLt identity meta.required_local_auth) = true
    · have hout : handleInboundConnection env e identity cid la st rf now =
          ⟨st, { noEffects with removals := [(e, cid)] }⟩ := by
        simp only [handleInboundConnection, hf, hrej, if_true]
      rw [hout]
      exact connectedFacts_samePeers st st _ rfl rfl
    · have hrej2 : (meta.status == PeerStatus.connected &&
          tokenLt identity meta.required_local_auth) = false := by
        simpa using hrej
      have hout : handleInboundConnection env e identity cid la st rf now =
          ⟨⟨st.peers.updateOrKeep { meta with
              status := PeerStatus.connected,
              connection_id := cid,
              retry_frequency := rf,
              last_connection_attempt := now,
              active_endpoint := e }, st.unref, st.refMap⟩,
            ⟨[PeerManagerNotification.connected ⟨identity, la⟩], [],
              if cid ≠ meta.connection_id ∧ meta.status ≠ PeerStatus.pending then
                [(meta.active_endpoint, meta.connection_id)]
              else [], false⟩⟩ := by
        simp only [handleInboundConnection, hf, hrej2, Bool.false_eq_true, if_false]
      rw [hout, ← hkey]
      exact connectedFacts_updateConn st st.unref st.refMap _ meta _ _ _ hmem rfl rfl
  | none =>
    cases hu : st.unref.lookupPeer ⟨identity, la⟩ with
    | some u =>
      by_cases htok : tokenLt identity u.local_authorization = true
      · have hout : handleInboundConnection env e identity cid la st rf now =
            ⟨st, { noEffects with removals := [(e, cid)] }⟩ := by
          simp only [handleInboundConnection, hf, hu, htok, if_true]
        rw [hout]
        exact connectedFacts_samePeers st st _ rfl rfl
      · have htok2 : tokenLt identity u.local_authorization = false := by
          simpa using htok
        have hout : handleInboundConnection env e identity cid la st rf now =
            ⟨⟨st.peers, st.unref.setPeer ⟨identity, la⟩
                ⟨cid, e, la, u.old_connection_ids ++ [u.connection_id]⟩, st.refMap⟩,
              { noEffects with removals := [(u.endpoint, u.connection_id)] }⟩ := by
          simp only [handleInboundConnection, hf, hu, htok2, Bool.false_eq_true, if_false]
        rw [hout]
        exact connectedFacts_samePeers st _ _ rfl rfl
    | none =>
      have hout : handleInboundConnection env e identity cid la st rf now =
          ⟨⟨st.peers, st.unref.insertPeer ⟨identity, la⟩ ⟨cid, e, la, []⟩, st.refMap⟩,
            noEffects⟩ := by
        simp only [handleInboundConnection, hf, hu]
      rw [hout]
      exact connectedFacts_samePeers st _ _ rfl rfl

theorem connected_connectedFacts (env : ConnectorEnv) (e : String)
    (identity : PeerAuthorizationToken) (cid : String) (la : PeerAuthorizationToken)
    (st : PMState) (rf now : Nat)
    (hcons : ∀ req, st.unref.lookupRequested e = some req →
      req.local_authorization = la) :
    ConnectedFacts st (handleConnected env e identity cid la st rf now) := by
  cases hf : st.peers.getByPeerId ⟨identity, la⟩ with
  | some meta =>
    have hkey : meta.key = ⟨identity, la⟩ := getByPeerId_key _ _ _ hf
    have hmem : meta ∈ st.peers.peers := getByPeerId_mem _ _ _ hf
    by_cases hrej : (meta.status == PeerStatus.connected &&
        tokenLt meta.required_local_auth identity) = true
    · have hout : handleConnected env e identity cid la st rf now =
          ⟨st, { noEffects with
            removals := if e ≠ meta.active_endpoint then [(e, cid)] else [] }⟩ := by
        simp only [handleConnected, hf, hrej, if_true]
      rw [hout]
      exact connectedFacts_samePeers st st _ rfl rfl
    · have hrej2 : (meta.status == PeerStatus.connected &&
          tokenLt meta.required_local_auth identity) = false := by
        simpa using hrej
      have hout : handleConnected env e identity cid la st rf now =
          ⟨⟨st.peers.updateOrKeep { meta with
              active_endpoint := e,
              status := PeerStatus.connected,
              connection_id := cid,
              retry_frequency := rf,
              last_connection_attempt := now }, st.unref, st.refMap⟩,
            ⟨[PeerManagerNotification.connected ⟨identity, la⟩], [],
              if cid ≠ meta.connection_id ∧ meta.status ≠ PeerStatus.pending then
                [(meta.active_endpoint, meta.connection_id)]
              else [], false⟩⟩ := by
        simp only [handleConnected, hf, hrej2, Bool.false_eq_true, if_false]
      rw [hout, ← hkey]
      exact connectedFacts_updateConn st st.unref st.refMap _ meta _ _ _ hmem rfl rfl
  | none =>
    cases hreq : st.unref.lookupRequested e with
    | some req =>
      have hla : req.local_authorization = la := hcons req hreq
      cases hup : st.unref.lookupPeer ⟨identity, la⟩ with
      | some u =>
        by_cases htok : tokenLt u.local_authorization identity = true
        · have hout : handleConnected env e identity cid la st rf now =
              ⟨⟨st.peers.insert identity u.connection_id [e] u.endpoint
                  PeerStatus.connected req.local_authorization
                  (u.old_connection_ids ++ [cid]) now,
                (st.unref.removePeer ⟨identity, la⟩).2,
                (st.refMap.addRef ⟨identity, la⟩).2⟩,
                ⟨[PeerManagerNotification.connected ⟨identity, la⟩], [],
                  if e ≠ u.endpoint then [(e, cid)] else [], false⟩⟩ := by
            simp only [handleConnected, hf, hreq, UnreferencedPeerState.removePeer, hup,
              htok, if_true]
          rw [hout, hla]
          exact connectedFacts_insertConn st _ _ identity u.connection_id [e] u.endpoint
            la (u.old_connection_ids ++ [cid]) now _ _ _
        · have htok2 : tokenLt u.local_authorization identity = false := by
            simpa using htok
          have hout : handleConnected env e identity cid la st rf now =
              ⟨⟨st.peers.insert identity cid [e] e
                  PeerStatus.connected req.local_authorization [u.connection_id] now,
                (st.unref.removePeer ⟨identity, la⟩).2,
                (st.refMap.addRef ⟨identity, la⟩).2⟩,
                ⟨[PeerManagerNotification.connected ⟨identity, la⟩], [],
                  [(u.endpoint, u.connection_id)], false⟩⟩ := by
            simp only [handleConnected, hf, hreq, UnreferencedPeerState.removePeer, hup,
              htok2, Bool.false_eq_true, if_false]
          rw [hout, hla]
          exact connectedFacts_insertConn st _ _ identity cid [e] e la
            [u.connection_id] now _ _ _
      | none =>
        have hout : handleConnected env e identity cid la st rf now =
            ⟨⟨st.peers.insert identity cid [e] e
                PeerStatus.connected req.local_authorization [] now,
              (st.unref.removePeer ⟨identity, la⟩).2,
              (st.refMap.addRef ⟨identity, la⟩).2⟩,
              ⟨[PeerManagerNotification.connected ⟨identity, la⟩], [], [], false⟩⟩ := by
          simp only [handleConnected, hf, hreq, UnreferencedPeerState.removePeer, hup]
        rw [hout, hla]
        exact connectedFacts_insertConn st _ _ identity cid [e] e la [] now _ _ _
    | none =>
      cases hup : st.unref.lookupPeer ⟨identity, la⟩ with
      | some u =>
        by_cases htok : tokenLt u.local_authorization identity = true
        · have hout : handleConnected env e identity cid la st rf now =
              ⟨st, { noEffects with removals := [(e, cid)] }⟩ := by
            simp only [handleConnected, hf, hreq, hup, htok, if_true]
          rw [hout]
          exact connectedFacts_samePeers st st _ rfl rfl
        · have htok2 : tokenLt u.local_authorization identity = false := by
            simpa using htok
          have hout : handleConnected env e identity cid la st rf now =
              ⟨⟨st.peers, st.unref.setPeer ⟨identity, la⟩
                  ⟨cid, e, la, u.old_connection_ids ++ [u.connection_id]⟩, st.refMap⟩,
                { noEffects with removals := [(u.endpoint, u.connection_id)] }⟩ := by
            simp only [handleConnected, hf, hreq, hup, htok2, Bool.false_eq_true, if_false]
          rw [hout]
          exact connectedFacts_samePeers st _ _ rfl rfl
      | none =>
        have hout : handleConnected env e identity cid la st rf now =
            ⟨⟨st.peers, st.unref.insertPeer ⟨identity, la⟩ ⟨cid, e, la, []⟩, st.refMap⟩,
              noEffects⟩ := by
          simp only [handleConnected, hf, hreq, hup]
        rw [hout]
        exact connectedFacts_samePeers st _ _ rfl rfl

theorem addPeer_connectedFacts (env : ConnectorEnv) (pid : PeerAuthorizationToken)
    (eps : List String) (la : PeerAuthorizationToken) (st : PMState) (cid : String)
    (now : Nat) :
    ConnectedFacts st ⟨(addPeer env pid eps la st cid now).state,
      (addPeer env pid eps la st cid now).effects⟩ := by
  by_cases hdup : checkForDuplicateEndpoint pid eps st.peers = true
  · have hout : addPeer env pid eps la st cid now =
        ⟨st, noEffects,
          .error "endpoints already belong to another peer using trust"⟩ := by
      simp only [addPeer, hdup, if_true]
    rw [hout]
    exact connectedFacts_samePeers st st _ rfl rfl
  · have hdup2 : checkForDuplicateEndpoint pid eps st.peers = false := by
      simpa using hdup
    cases har : st.refMap.addRef ⟨pid, la⟩ with
    | mk nrc rm1 =>
      by_cases hn : 1 < nrc
      · cases hmeta : st.peers.getByPeerId ⟨pid, la⟩ with
        | some meta =>
          have hkey : meta.key = ⟨pid, la⟩ := getByPeerId_key _ _ _ hmeta
          have hmem : meta ∈ st.peers.peers := getByPeerId_mem _ _ _ hmeta
          by_cases hrec : meta.endpoints.length = 1 ∧ 1 < eps.length
          · cases hhead : meta.endpoints.head? with
            | some e1 =>
              by_cases hre : (st.unref.lookupRequested e1).isSome ∧ e1 ∈ eps
              · have hupd : st.peers.updatePeer { meta with endpoints := eps } =
                    some (st.peers.updateOrKeep { meta with endpoints := eps }) :=
                  updatePeer_some_eq st.peers _ meta hmem rfl
                have hout : addPeer env pid eps la st cid now =
                    ⟨⟨st.peers.updateOrKeep { meta with endpoints := eps }, st.unref, rm1⟩,
                      { noEffects with broadcasts :=
                        if { meta with endpoints := eps }.status == PeerStatus.connected
                        then [PeerManagerNotification.connected ⟨pid, la⟩] else [] },
                      .ok ⟨pid, la⟩⟩ := by
                  simp only [addPeer, hdup2, Bool.false_eq_true, if_false, har, if_pos hn,
                    hmeta, if_pos hrec, hhead, if_pos hre, hupd]
                rw [hout]
                by_cases hstat : meta.status = PeerStatus.connected
                · have hbs : (if { meta with endpoints := eps }.status ==
                      PeerStatus.connected
                      then [PeerManagerNotification.connected ⟨pid, la⟩] else []) =
                      [PeerManagerNotification.connected ⟨pid, la⟩] := by
                    simp [hstat]
                  rw [hbs, ← hkey]
                  exact connectedFacts_updateConn st st.unref rm1 _ meta _ _ _ hmem rfl hstat
                · have hbs : (if { meta with endpoints := eps }.status ==
                      PeerStatus.connected
                      then [PeerManagerNotification.connected ⟨pid, la⟩] else []) = [] := by
                    simp [hstat]
                  rw [hbs, ← hkey]
                  exact connectedFacts_updateSameStatus st st.unref rm1
                    { meta with endpoints := eps } meta _ rfl
                    (by rw [show ({ meta with endpoints := eps } : PeerMetadata).key =
                      meta.key from rfl, hkey]; exact hmeta) rfl
              · have hout : addPeer env pid eps la st cid now =
                    ⟨⟨st.peers, st.unref, rm1.removeRefQuiet ⟨pid, la⟩⟩, noEffects,
                      .error "mismatch between existing and requested peer endpoints"⟩ := by
                  simp only [addPeer, hdup2, Bool.false_eq_true, if_false, har, if_pos hn,
                    hmeta, if_pos hrec, hhead, if_neg hre]
                rw [hout]
                exact connectedFacts_samePeers st _ _ rfl rfl
            | none =>
              have hout : addPeer env pid eps la st cid now =
                  ⟨⟨st.peers, st.unref, rm1⟩, noEffects,
                    .error "peer does not have any endpoints"⟩ := by
                simp only [addPeer, hdup2, Bool.false_eq_true, if_false, har, if_pos hn,
                  hmeta, if_pos hrec, hhead]
              rw [hout]
              exact connectedFacts_samePeers st _ _ rfl rfl
          · have hout : addPeer env pid eps la st cid now =
                ⟨⟨st.peers, st.unref, rm1⟩,
                  { noEffects with broadcasts :=
                    if meta.status == PeerStatus.connected
                    then [PeerManagerNotification.connected ⟨pid, la⟩] else [] },
                  .ok ⟨pid, la⟩⟩ := by
              simp only [addPeer, hdup2, Bool.false_eq_true, if_false, har, if_pos hn,
                hmeta, if_neg hrec]
            rw [hout]
            by_cases hstat : meta.status = PeerStatus.connected
            · have hbs : (if meta.status == PeerStatus.connected
                  then [PeerManagerNotification.connected ⟨pid, la⟩] else []) =
                  [PeerManagerNotification.connected ⟨pid, la⟩] := by
                simp [hstat]
              rw [hbs]
              exact connectedFacts_rebroadcast st _ _ meta _ _ _ rfl hmeta hstat
            · have hbs : (if meta.status == PeerStatus.connected
                  then [PeerManagerNotification.connected ⟨pid, la⟩] else []) = [] := by
                simp [hstat]
              rw [hbs]
              exact connectedFacts_samePeers st _ _ rfl rfl
        | none =>
          have hout : addPeer env pid eps la st cid now =
              ⟨⟨st.peers, st.unref, rm1⟩, noEffects,
                .error "a reference exists but peer metadata is missing"⟩ := by
            simp only [addPeer, hdup2, Bool.false_eq_true, if_false, har, if_pos hn, hmeta]
          rw [hout]
          exact connectedFacts_samePeers st _ _ rfl rfl
      · cases hup : st.unref.lookupPeer ⟨pid, la⟩ with
        | some u =>
          have hout : addPeer env pid eps la st cid now =
              ⟨⟨st.peers.insert pid u.connection_id eps u.endpoint PeerStatus.connected
                  la u.old_connection_ids now,
                (st.unref.removePeer ⟨pid, la⟩).2, rm1⟩,
                { noEffects with broadcasts :=
                  [PeerManagerNotification.connected ⟨pid, la⟩] },
                .ok ⟨pid, la⟩⟩ := by
            simp only [addPeer, hdup2, Bool.false_eq_true, if_false, har, if_neg hn,
              UnreferencedPeerState.removePeer, hup]
          rw [hout]
          exact connectedFacts_insertConn st _ _ pid u.connection_id eps u.endpoint la
            u.old_connection_ids now _ _ _
        | none =>
          cases hhead : eps.head? with
          | none =>
            have hout : addPeer env pid eps la st cid now =
                ⟨⟨st.peers, st.unref, rm1.removeRefQuiet ⟨pid, la⟩⟩, noEffects,
                  .error "no endpoints provided"⟩ := by
              simp only [addPeer, hdup2, Bool.false_eq_true, if_false, har, if_neg hn,
                UnreferencedPeerState.removePeer, hup, hhead]
            rw [hout]
            exact connectedFacts_samePeers st _ _ rfl rfl
          | some e0 =>
            have hout : addPeer env pid eps la st cid now =
                ⟨⟨st.peers.insert pid cid eps
                    (tryEndpoints env eps cid (some pid) (some la) e0).1
                    PeerStatus.pending la [] now, st.unref, rm1⟩,
                  { noEffects with requests :=
                    (tryEndpoints env eps cid (some pid) (some la) e0).2 },
                  .ok ⟨pid, la⟩⟩ := by
              simp only [addPeer, hdup2, Bool.false_eq_true, if_false, har, if_neg hn,
                UnreferencedPeerState.removePeer, hup, hhead]
            rw [hout]
            exact connectedFacts_insertPending st _ _ pid cid eps _ la [] now _ rfl

def sampleCfg : PMConfig := ⟨true, 3, 10, 25⟩

/-- C4 as amended: provided a `Connected` notification for a requested
endpoint carries the local authorization stored for that endpoint
(`msgConsistent` — when it differs, `handle_connected`'s requested-endpoint
promotion broadcasts `Connected` for the notification's key while inserting
the `Connected` metadata under the requested authorization's key, so the
broadcast key is not left `Connected` and the newly connected key gets no
broadcast): across all actor message handlers, at most one `Connected{K}`
notification is broadcast per message; a message that takes K's status into
`Connected` from any other situation broadcasts it exactly once; and every
`Connected{K}` broadcast leaves K `Connected` — however a handler may
re-broadcast `Connected` for a peer that was already `Connected` and whose
status did not change (an `AddPeer` for an already-connected peer, or a
connection replacement), so broadcasts are not limited to transitions. -/
theorem connected_broadcast_spec (env : ConnectorEnv) (cfg : PMConfig) (st : PMState)
    (m : PMMsg) (now : Nat) (K : PeerTokenPair) (hcons : msgConsistent st m) :
    connectedCount (handleMessage env cfg st m now).effects K ≤ 1 ∧
    ((peerStatusOf st K ≠ some PeerStatus.connected ∧
      peerStatusOf (handleMessage env cfg st m now).state K = some PeerStatus.connected) →
      connectedCount (handleMessage env cfg st m now).effects K = 1) ∧
    (1 ≤ connectedCount (handleMessage env cfg st m now).effects K →
      peerStatusOf (handleMessage env cfg st m now).state K = some PeerStatus.connected) := by
  have hfacts : ConnectedFacts st (handleMessage env cfg st m now) := by
    cases m with
    | addPeer pid eps la cid =>
      simp only [handleMessage]
      exact addPeer_connectedFacts env pid eps la st cid now
    | addUnidentified e la cid =>
      simp only [handleMessage]
      exact noNew_connectedFacts st _ (addUnidentified_noNewConnected env e la st cid)
    | removePeer k =>
      simp only [handleMessage]
      exact noNew_connectedFacts st _
        (removePeer_noNewConnected env k st cfg.strict_ref_counts)
    | removePeerByEndpoint e cid =>
      simp only [handleMessage]
      exact noNew_connectedFacts st _
        (removePeerByEndpoint_noNewConnected env e cid st cfg.strict_ref_counts)
    | inbound e identity cid li =>
      simp only [handleMessage]
      exact inbound_connectedFacts env e identity cid li st cfg.retryFrequency now
    | connected e identity cid li =>
      simp only [handleMessage]
      exact connected_connectedFacts env e identity cid li st cfg.retryFrequency now hcons
    | disconnected e identity cid =>
      simp only [handleMessage]
      exact noNew_connectedFacts st _ (disconnection_noNewConnected env e identity cid st)
    | nonFatal e attempts cid =>
      simp only [handleMessage]
      exact noNew_connectedFacts st _
        (nonfatal_noNewConnected env e attempts cid st cfg.maxRetryAttempts)
    | fatal cid =>
      simp only [handleMessage]
      exact noNew_connectedFacts st _
        (fatal_noNewConnected cid st cfg.maxRetryAttempts now)
    | retryPending uuidGen =>
      simp only [handleMessage]
      exact noNew_connectedFacts st _
        (retryPending_noNewConnected env st now cfg.maxRetryFrequency uuidGen)
  exact hfacts K

/-- Witness for the amended C4 at a concrete fatal-error message. -/
theorem connected_broadcast_spec_witness :
    msgConsistent sampleState (PMMsg.fatal "conn-1") ∧
    (connectedCount (handleMessage sampleEnv sampleCfg sampleState
        (PMMsg.fatal "conn-1") 4).effects keyAB ≤ 1 ∧
    ((peerStatusOf sampleState keyAB ≠ some PeerStatus.connected ∧
      peerStatusOf (handleMessage sampleEnv sampleCfg sampleState
        (PMMsg.fatal "conn-1") 4).state keyAB = some PeerStatus.connected) →
      connectedCount (handleMessage sampleEnv sampleCfg sampleState
        (PMMsg.fatal "conn-1") 4).effects keyAB = 1) ∧
    (1 ≤ connectedCount (handleMessage sampleEnv sampleCfg sampleState
        (PMMsg.fatal "conn-1") 4).effects keyAB →
      peerStatusOf (handleMessage sampleEnv sampleCfg sampleState
        (PMMsg.fatal "conn-1") 4).state keyAB = some PeerStatus.connected)) :=
  ⟨trivial, connected_broadcast_spec sampleEnv sampleCfg sampleState
    (PMMsg.fatal "conn-1") 4 keyAB trivial⟩

theorem find?_filter_of_none {α : Type} (l : List α) (p q : α → Bool)
    (h : l.find? p = none) : (l.filter q).find? p = none := by
  induction l with
  | nil => rfl
  | cons a t ih =>
    by_cases hp : p a = true
    · rw [find?_cons_pos p a t hp] at h
      cases h
    · rw [find?_cons_neg p a t hp] at h
      by_cases hq : q a = true
      · rw [List.filter_cons_of_pos hq, find?_cons_neg p a _ hp]
        exact ih h
      · rw [List.filter_cons_of_neg (by simpa using hq)]
        exact ih h

theorem find?_fst_map_update_ne {α β : Type} [DecidableEq α] (l : List (α × β)) (k : α)
    (v : β) (k2 : α) (hne : k2 ≠ k) :
    (l.map (fun p => if p.1 == k then (k, v) else p)).find? (fun p => p.1 == k2) =
      l.find? (fun p => p.1 == k2) := by
  induction l with
  | nil => rfl
  | cons a t ih =>
    by_cases ha : (a.1 == k) = true
    · have h1 : a.1 = k := by simpa using ha
      have hif : (if a.1 == k then (k, v) else a) = (k, v) := if_pos ha
      simp only [List.map_cons, hif]
      rw [find?_cons_neg (fun p => p.1 == k2) (k, v) _ (by simp [Ne.symm hne]),
        find?_cons_neg (fun p => p.1 == k2) a _ (by simp [h1, Ne.symm hne]), ih]
    · have hif : (if a.1 == k then (k, v) else a) = a := if_neg ha
      simp only [List.map_cons, hif]
      by_cases hk2 : (a.1 == k2) = true
      · rw [find?_cons_pos (fun p => p.1 == k2) a _ hk2,
          find?_cons_pos (fun p => p.1 == k2) a _ hk2]
      · rw [find?_cons_neg (fun p => p.1 == k2) a _ hk2,
          find?_cons_neg (fun p => p.1 == k2) a _ hk2, ih]

theorem lookup_addRef_other (rm : RefMap) (k k2 : PeerTokenPair) (hne : k2 ≠ k) :
    (rm.addRef k).2.lookup k2 = rm.lookup k2 := by
  cases hl : rm.lookup k with
  | some n =>
    simp only [RefMap.addRef, hl]
    unfold RefMap.lookup
    rw [find?_fst_map_update_ne rm.counts k (n + 1) k2 hne]
  | none =>
    simp only [RefMap.addRef, hl]
    unfold RefMap.lookup
    rw [find?_append_eq]
    cases hf : rm.counts.find? (fun p => p.1 == k2) with
    | some p => rfl
    | none =>
      rw [find?_cons_neg _ _ _ (by simp [Ne.symm hne])]
      rfl

theorem lookup_addRef_mono (rm : RefMap) (k k2 : PeerTokenPair)
    (h : 1 ≤ (rm.lookup k2).getD 0) : 1 ≤ ((rm.addRef k).2.lookup k2).getD 0 := by
  by_cases hne : k2 = k
  · rw [hne, lookup_addRef_self]
    simp
  · rw [lookup_addRef_other rm k k2 hne]
    exact h

theorem lookup_roundtrip_other (rm : RefMap) (k k2 : PeerTokenPair) (hne : k2 ≠ k) :
    ((rm.addRef k).2.removeRefQuiet k).lookup k2 = rm.lookup k2 := by
  have hself : (rm.addRef k).2.lookup k = some ((rm.lookup k).getD 0 + 1) :=
    lookup_addRef_self rm k
  unfold RefMap.removeRefQuiet
  simp only [RefMap.removeRef, hself]
  by_cases hle : (rm.lookup k).getD 0 + 1 ≤ 1
  · rw [if_pos hle]
    unfold RefMap.lookup
    rw [find?_filter_sub _ _ _ (fun x hp => by
      simp only [beq_iff_eq] at hp
      simp [hp, hne])]
    have h2 := lookup_addRef_other rm k k2 hne
    unfold RefMap.lookup at h2
    exact h2
  · rw [if_neg hle]
    unfold RefMap.lookup
    rw [find?_fst_map_update_ne _ k _ k2 hne]
    have h2 := lookup_addRef_other rm k k2 hne
    unfold RefMap.lookup at h2
    exact h2

theorem lookup_roundtrip_self (rm : RefMap) (k : PeerTokenPair)
    (h : 1 ≤ (rm.lookup k).getD 0) :
    ((rm.addRef k).2.removeRefQuiet k).lookup k = rm.lookup k := by
  cases hl : rm.lookup k with
  | none => rw [hl] at h; simp at h
  | some n =>
    have hn : 1 ≤ n := by rw [hl] at h; simpa using h
    have hself : (rm.addRef k).2.lookup k = some (n + 1) := by
      rw [lookup_addRef_self, hl]
      rfl
    unfold RefMap.removeRefQuiet
    simp only [RefMap.removeRef, hself]
    rw [if_neg (by omega)]
    have hmem : ∃ p ∈ (rm.addRef k).2.counts, p.1 = k := by
      rcases RefMap.lookup_some_mem _ k (n + 1) hself with ⟨p, hp, hk, _⟩
      exact ⟨p, hp, hk⟩
    unfold RefMap.lookup
    rw [find?_fst_map_update _ k (n + 1 - 1) hmem]
    simp

theorem lookupPeer_remove_none (u : UnreferencedPeerState) (k x : PeerTokenPair)
    (h : u.lookupPeer x = none) : (u.removePeer k).2.lookupPeer x = none := by
  unfold UnreferencedPeerState.lookupPeer at h
  unfold UnreferencedPeerState.lookupPeer UnreferencedPeerState.removePeer
  cases hf : u.peers.find? (fun p => p.1 == x) with
  | some p => rw [hf] at h; cases h
  | none =>
    rw [find?_filter_of_none _ _ _ hf]
    rfl

theorem lookupPeer_remove_self (u : UnreferencedPeerState) (k : PeerTokenPair) :
    (u.removePeer k).2.lookupPeer k = none := by
  unfold UnreferencedPeerState.lookupPeer UnreferencedPeerState.removePeer
  rw [find?_filter_none _ _ _ (fun x hq => by
    simp only [Bool.not_eq_true'] at hq
    simpa using hq)]
  rfl

theorem lookupPeer_setPeer_ne (u : UnreferencedPeerState) (k : PeerTokenPair)
    (v : UnreferencedPeer) (k2 : PeerTokenPair) (hne : k2 ≠ k) :
    (u.setPeer k v).lookupPeer k2 = u.lookupPeer k2 := by
  unfold UnreferencedPeerState.lookupPeer UnreferencedPeerState.setPeer
  rw [find?_fst_map_update_ne u.peers k v k2 hne]

theorem lookupPeer_insertPeer_ne (u : UnreferencedPeerState) (k : PeerTokenPair)
    (v : UnreferencedPeer) (k2 : PeerTokenPair) (hne : k2 ≠ k) :
    (u.insertPeer k v).lookupPeer k2 = u.lookupPeer k2 := by
  unfold UnreferencedPeerState.lookupPeer UnreferencedPeerState.insertPeer
  rw [find?_append_eq]
  rw [find?_filter_sub _ _ _ (fun x hp => by
    simp only [beq_iff_eq] at hp
    simp [hp, hne])]
  cases hf : u.peers.find? (fun p => p.1 == k2) with
  | some p => rfl
  | none =>
    rw [find?_cons_neg _ _ _ (by simp [Ne.symm hne])]
    rfl

theorem mem_updateOrKeep (pm : PeerMap) (meta m2 : PeerMetadata)
    (h : m2 ∈ (pm.updateOrKeep meta).peers) :
    m2 ∈ pm.peers ∨ (m2 = meta ∧ ∃ m0 ∈ pm.peers, m0.key = meta.key) := by
  unfold PeerMap.updateOrKeep PeerMap.updatePeer at h
  by_cases hany : pm.peers.any (fun m => m.key == meta.key) = true
  · rw [if_pos hany] at h
    simp only [List.mem_map] at h
    rcases h with ⟨m0, hm0, hf⟩
    by_cases hk : (m0.key == meta.key) = true
    · right
      rw [if_pos hk] at hf
      exact ⟨hf.symm, m0, hm0, by simpa using hk⟩
    · left
      rw [if_neg hk] at hf
      rw [← hf]
      exact hm0
  · rw [if_neg hany] at h
    exact Or.inl h

theorem mem_insert (pm : PeerMap) (id : PeerAuthorizationToken) (cid : String)
    (eps : List String) (active : String) (status : PeerStatus)
    (la : PeerAuthorizationToken) (oldIds : List String) (now : Nat) (m2 : PeerMetadata)
    (h : m2 ∈ (pm.insert id cid eps active status la oldIds now).peers) :
    m2 ∈ pm.peers ∨ m2 = insertedMeta pm id cid eps active status la oldIds now := by
  unfold PeerMap.insert at h
  rcases List.mem_append.mp h with h2 | h2
  · exact Or.inl (List.mem_of_mem_filter h2)
  · right
    simpa [insertedMeta] using h2

/-- C5 invariant: every key in the peer map carries a positive reference count
and is absent from the unreferenced-peer table. -/
def stateInv (st : PMState) : Prop :=
  (∀ m ∈ st.peers.peers, 1 ≤ (st.refMap.lookup m.key).getD 0) ∧
  (∀ m ∈ st.peers.peers, st.unref.lookupPeer m.key = none)

theorem stateInv_of (st st2 : PMState) (hinv : stateInv st)
    (hkeys : ∀ m2 ∈ st2.peers.peers, ∃ m0 ∈ st.peers.peers, m2.key = m0.key)
    (href : ∀ m2 ∈ st2.peers.peers,
      1 ≤ (st.refMap.lookup m2.key).getD 0 → 1 ≤ (st2.refMap.lookup m2.key).getD 0)
    (hun : ∀ m2 ∈ st2.peers.peers,
      st.unref.lookupPeer m2.key = none → st2.unref.lookupPeer m2.key = none) :
    stateInv st2 := by
  constructor
  · intro m2 hm2
    rcases hkeys m2 hm2 with ⟨m0, hm0, hk⟩
    exact href m2 hm2 (by rw [hk]; exact hinv.1 m0 hm0)
  · intro m2 hm2
    rcases hkeys m2 hm2 with ⟨m0, hm0, hk⟩
    exact hun m2 hm2 (by rw [hk]; exact hinv.2 m0 hm0)

theorem keys_updateOrKeep (pm : PeerMap) (meta : PeerMetadata) :
    ∀ m2 ∈ (pm.updateOrKeep meta).peers, ∃ m0 ∈ pm.peers, m2.key = m0.key := by
  intro m2 hm2
  rcases mem_updateOrKeep pm meta m2 hm2 with h | ⟨hq, m0, hm0, hk0⟩
  · exact ⟨m2, h, rfl⟩
  · exact ⟨m0, hm0, by rw [hq, hk0]⟩

theorem getByPeerId_none_keys (pm : PeerMap) (k : PeerTokenPair)
    (h : pm.getByPeerId k = none) : ∀ m ∈ pm.peers, m.key ≠ k := by
  intro m hm
  unfold PeerMap.getByPeerId at h
  have h2 := List.find?_eq_none.mp h m hm
  simpa using h2

theorem mem_insert_strong (pm : PeerMap) (id : PeerAuthorizationToken) (cid : String)
    (eps : List String) (active : String) (status : PeerStatus)
    (la : PeerAuthorizationToken) (oldIds : List String) (now : Nat) (m2 : PeerMetadata)
    (h : m2 ∈ (pm.insert id cid eps active status la oldIds now).peers) :
    (m2 ∈ pm.peers ∧ m2.key ≠ ⟨id, la⟩) ∨
      m2 = insertedMeta pm id cid eps active status la oldIds now := by
  unfold PeerMap.insert at h
  rcases List.mem_append.mp h with h2 | h2
  · left
    have hmem := List.mem_of_mem_filter h2
    have hpred := List.of_mem_filter h2
    simp only [Bool.not_eq_true'] at hpred
    exact ⟨hmem, by simpa using hpred⟩
  · right
    simpa [insertedMeta] using h2

theorem stateInv_insert (st : PMState) (id : PeerAuthorizationToken) (cid : String)
    (eps : List String) (active : String) (status : PeerStatus)
    (la : PeerAuthorizationToken) (oldIds : List String) (now : Nat)
    (u2 : UnreferencedPeerState) (r2 : RefMap) (hinv : stateInv st)
    (href : ∀ m2 ∈ st.peers.peers, m2.key ≠ ⟨id, la⟩ →
      1 ≤ (st.refMap.lookup m2.key).getD 0 → 1 ≤ (r2.lookup m2.key).getD 0)
    (hun : ∀ m2 ∈ st.peers.peers, m2.key ≠ ⟨id, la⟩ →
      st.unref.lookupPeer m2.key = none → u2.lookupPeer m2.key = none)
    (hnewRef : 1 ≤ (r2.lookup ⟨id, la⟩).getD 0)
    (hnewUn : u2.lookupPeer ⟨id, la⟩ = none) :
    stateInv ⟨st.peers.insert id cid eps active status la oldIds now, u2, r2⟩ := by
  constructor
  · intro m2 hm2
    rcases mem_insert_strong st.peers id cid eps active status la oldIds now m2 hm2 with
      ⟨hmem, hne⟩ | hq
    · exact href m2 hmem hne (hinv.1 m2 hmem)
    · rw [hq]
      exact hnewRef
  · intro m2 hm2
    rcases mem_insert_strong st.peers id cid eps active status la oldIds now m2 hm2 with
      ⟨hmem, hne⟩ | hq
    · exact hun m2 hmem hne (hinv.2 m2 hmem)
    · rw [hq]
      exact hnewUn

theorem inbound_inv (env : ConnectorEnv) (e : String) (identity : PeerAuthorizationToken)
    (cid : String) (la : PeerAuthorizationToken) (st : PMState) (rf now : Nat)
    (hinv : stateInv st) :
    stateInv (handleInboundConnection env e identity cid la st rf now).state := by
  cases hf : st.peers.getByPeerId ⟨identity, la⟩ with
  | some meta =>
    by_cases hrej : (meta.status == PeerStatus.connected &&
        tokenLt identity meta.required_local_auth) = true
    · have hout : handleInboundConnection env e identity cid la st rf now =
          ⟨st, { noEffects with removals := [(e, cid)] }⟩ := by
        simp only [handleInboundConnection, hf, hrej, if_true]
      rw [hout]
      exact hinv
    · have hrej2 : (meta.status == PeerStatus.connected &&
          tokenLt identity meta.required_local_auth) = false := by
        simpa using hrej
      have hout : handleInboundConnection env e identity cid la st rf now =
          ⟨⟨st.peers.updateOrKeep { meta with
              status := PeerStatus.connected,
              connection_id := cid,
              retry_frequency := rf,
              last_connection_attempt := now,
              active_endpoint := e }, st.unref, st.refMap⟩,
            ⟨[PeerManagerNotification.connected ⟨identity, la⟩], [],
              if cid ≠ meta.connection_id ∧ meta.status ≠ PeerStatus.pending then
                [(meta.active_endpoint, meta.connection_id)]
              else [], false⟩⟩ := by
        simp only [handleInboundConnection, hf, hrej2, Bool.false_eq_true, if_false]
      rw [hout]
      exact stateInv_of st _ hinv (keys_updateOrKeep _ _)
        (fun m2 _ h => h) (fun m2 _ h => h)
  | none =>
    have hkeys := getByPeerId_none_keys st.peers ⟨identity, la⟩ hf
    cases hu : st.unref.lookupPeer ⟨identity, la⟩ with
    | some u =>
      by_cases htok : tokenLt identity u.local_authorization = true
      · have hout : handleInboundConnection env e identity cid la st rf now =
            ⟨st, { noEffects with removals := [(e, cid)] }⟩ := by
          simp only [handleInboundConnection, hf, hu, htok, if_true]
        rw [hout]
        exact hinv
      · have htok2 : tokenLt identity u.local_authorization = false := by
          simpa using htok
        have hout : handleInboundConnection env e identity cid la st rf now =
            ⟨⟨st.peers, st.unref.setPeer ⟨identity, la⟩
                ⟨cid, e, la, u.old_connection_ids ++ [u.connection_id]⟩, st.refMap⟩,
              { noEffects with removals := [(u.endpoint, u.connection_id)] }⟩ := by
          simp only [handleInboundConnection, hf, hu, htok2, Bool.false_eq_true, if_false]
        rw [hout]
        exact stateInv_of st _ hinv (fun m2 h => ⟨m2, h, rfl⟩) (fun m2 _ h => h)
          (fun m2 hm2 h => by
            rw [lookupPeer_setPeer_ne _ _ _ _ (hkeys m2 hm2)]
            exact h)
    | none =>
      have hout : handleInboundConnection env e identity cid la st rf now =
          ⟨⟨st.peers, st.unref.insertPeer ⟨identity, la⟩ ⟨cid, e, la, []⟩, st.refMap⟩,
            noEffects⟩ := by
        simp only [handleInboundConnection, hf, hu]
      rw [hout]
      exact stateInv_of st _ hinv (fun m2 h => ⟨m2, h, rfl⟩) (fun m2 _ h => h)
        (fun m2 hm2 h => by
          rw [lookupPeer_insertPeer_ne _ _ _ _ (hkeys m2 hm2)]
          exact h)

theorem connected_inv (env : ConnectorEnv) (e : String) (identity : PeerAuthorizationToken)
    (cid : String) (la : PeerAuthorizationToken) (st : PMState) (rf now : Nat)
    (hcons : ∀ req, st.unref.lookupRequested e = some req →
      req.local_authorization = la)
    (hinv : stateInv st) :
    stateInv (handleConnected env e identity cid la st rf now).state := by
  cases hf : st.peers.getByPeerId ⟨identity, la⟩ with
  | some meta =>
    by_cases hrej : (meta.status == PeerStatus.connected &&
        tokenLt meta.required_local_auth identity) = true
    · have hout : handleConnected env e identity cid la st rf now =
          ⟨st, { noEffects with
            removals := if e ≠ meta.active_endpoint then [(e, cid)] else [] }⟩ := by
        simp only [handleConnected, hf, hrej, if_true]
      rw [hout]
      exact hinv
    · have hrej2 : (meta.status == PeerStatus.connected &&
          tokenLt meta.required_local_auth identity) = false := by
        simpa using hrej
      have hout : handleConnected env e identity cid la st rf now =
          ⟨⟨st.peers.updateOrKeep { meta with
              active_endpoint := e,
              status := PeerStatus.connected,
              connection_id := cid,
              retry_frequency := rf,
              last_connection_attempt := now }, st.unref, st.refMap⟩,
            ⟨[PeerManagerNotification.connected ⟨identity, la⟩], [],
              if cid ≠ meta.connection_id ∧ meta.status ≠ PeerStatus.pending then
                [(meta.active_endpoint, meta.connection_id)]
              else [], false⟩⟩ := by
        simp only [handleConnected, hf, hrej2, Bool.false_eq_true, if_false]
      rw [hout]
      exact stateInv_of st _ hinv (keys_updateOrKeep _ _)
        (fun m2 _ h => h) (fun m2 _ h => h)
  | none =>
    have hkeys := getByPeerId_none_keys st.peers ⟨identity, la⟩ hf
    cases hreq : st.unref.lookupRequested e with
    | some req =>
      have hla : req.local_authorization = la := hcons req hreq
      have hinsert : ∀ (cid2 : String) (eps2 : List String) (active2 : String)
          (oldIds2 : List String),
          stateInv ⟨st.peers.insert identity cid2 eps2 active2
              PeerStatus.connected la oldIds2 now,
            (st.unref.removePeer ⟨identity, la⟩).2,
            (st.refMap.addRef ⟨identity, la⟩).2⟩ := by
        intro cid2 eps2 active2 oldIds2
        refine stateInv_insert st identity cid2 eps2 active2 PeerStatus.connected la
          oldIds2 now _ _ hinv
          (fun m2 _ _ h => lookup_addRef_mono st.refMap ⟨identity, la⟩ m2.key h)
          (fun m2 _ _ h => lookupPeer_remove_none st.unref ⟨identity, la⟩ m2.key h)
          ?_ (lookupPeer_remove_self st.unref ⟨identity, la⟩)
        rw [lookup_addRef_self]
        simp
      cases hup : st.unref.lookupPeer ⟨identity, la⟩ with
      | some u =>
        by_cases htok : tokenLt u.local_authorization identity = true
        · have hout : handleConnected env e identity cid la st rf now =
              ⟨⟨st.peers.insert identity u.connection_id [e] u.endpoint
                  PeerStatus.connected req.local_authorization
                  (u.old_connection_ids ++ [cid]) now,
                (st.unref.removePeer ⟨identity, la⟩).2,
                (st.refMap.addRef ⟨identity, la⟩).2⟩,
                ⟨[PeerManagerNotification.connected ⟨identity, la⟩], [],
                  if e ≠ u.endpoint then [(e, cid)] else [], false⟩⟩ := by
            simp only [handleConnected, hf, hreq, UnreferencedPeerState.removePeer, hup,
              htok, if_true]
          rw [hout, hla]
          exact hinsert _ _ _ _
        · have htok2 : tokenLt u.local_authorization identity = false := by
            simpa using htok
          have hout : handleConnected env e identity cid la st rf now =
              ⟨⟨st.peers.insert identity cid [e] e
                  PeerStatus.connected req.local_authorization [u.connection_id] now,
                (st.unref.removePeer ⟨identity, la⟩).2,
                (st.refMap.addRef ⟨identity, la⟩).2⟩,
                ⟨[PeerManagerNotification.connected ⟨identity, la⟩], [],
                  [(u.endpoint, u.connection_id)], false⟩⟩ := by
            simp only [handleConnected, hf, hreq, UnreferencedPeerState.removePeer, hup,
              htok2, Bool.false_eq_true, if_false]
          rw [hout, hla]
          exact hinsert _ _ _ _
      | none =>
        have hout : handleConnected env e identity cid la st rf now =
            ⟨⟨st.peers.insert identity cid [e] e
                PeerStatus.connected req.local_authorization [] now,
              (st.unref.removePeer ⟨identity, la⟩).2,
              (st.refMap.addRef ⟨identity, la⟩).2⟩,
              ⟨[PeerManagerNotification.connected ⟨identity, la⟩], [], [], false⟩⟩ := by
          simp only [handleConnected, hf, hreq, UnreferencedPeerState.removePeer, hup]
        rw [hout, hla]
        exact hinsert _ _ _ _
    | none =>
      cases hup : st.unref.lookupPeer ⟨identity, la⟩ with
      | some u =>
        by_cases htok : tokenLt u.local_authorization identity = true
        · have hout : handleConnected env e identity cid la st rf now =
              ⟨st, { noEffects with removals := [(e, cid)] }⟩ := by
            simp only [handleConnected, hf, hreq, hup, htok, if_true]
          rw [hout]
          exact hinv
        · have htok2 : tokenLt u.local_authorization identity = false := by
            simpa using htok
          have hout : handleConnected env e identity cid la st rf now =
              ⟨⟨st.peers, st.unref.setPeer ⟨identity, la⟩
                  ⟨cid, e, la, u.old_connection_ids ++ [u.connection_id]⟩, st.refMap⟩,
                { noEffects with removals := [(u.endpoint, u.connection_id)] }⟩ := by
            simp only [handleConnected, hf, hreq, hup, htok2, Bool.false_eq_true, if_false]
          rw [hout]
          exact stateInv_of st _ hinv (fun m2 h => ⟨m2, h, rfl⟩) (fun m2 _ h => h)
            (fun m2 hm2 h => by
              rw [lookupPeer_setPeer_ne _ _ _ _ (hkeys m2 hm2)]
              exact h)
      | none =>
        have hout : handleConnected env e identity cid la st rf now =
            ⟨⟨st.peers, st.unref.insertPeer ⟨identity, la⟩ ⟨cid, e, la, []⟩, st.refMap⟩,
              noEffects⟩ := by
          simp only [handleConnected, hf, hreq, hup]
        rw [hout]
        exact stateInv_of st _ hinv (fun m2 h => ⟨m2, h, rfl⟩) (fun m2 _ h => h)
          (fun m2 hm2 h => by
            rw [lookupPeer_insertPeer_ne _ _ _ _ (hkeys m2 hm2)]
            exact h)

theorem addUnidentified_inv (env : ConnectorEnv) (e : String)
    (la : PeerAuthorizationToken) (st : PMState) (cid : String) (hinv : stateInv st) :
    stateInv (addUnidentified env e la st cid).state := by
  cases hf : (st.peers.getPeerFromEndpoint e).find?
      (fun m => m.required_local_auth == la) with
  | some meta =>
    simp only [addUnidentified, hf]
    exact stateInv_of st _ hinv (fun m2 h => ⟨m2, h, rfl⟩)
      (fun m2 _ h => lookup_addRef_mono st.refMap meta.key m2.key h) (fun m2 _ h => h)
  | none =>
    simp only [addUnidentified, hf]
    exact stateInv_of st _ hinv (fun m2 h => ⟨m2, h, rfl⟩) (fun m2 _ h => h)
      (fun m2 _ h => h)

theorem nonfatal_inv (env : ConnectorEnv) (e : String) (attempts : Nat) (cid : String)
    (st : PMState) (maxRA : Nat) (hinv : stateInv st) :
    stateInv (handleNonFatalConnectionError env e attempts cid st maxRA).state := by
  cases hf : st.peers.getByConnectionId cid with
  | none =>
    simp only [handleNonFatalConnectionError, hf]
    exact hinv
  | some meta =>
    have hupd : stateInv ⟨st.peers.updateOrKeep
        { meta with status := PeerStatus.disconnected attempts }, st.unref, st.refMap⟩ :=
      stateInv_of st _ hinv (keys_updateOrKeep _ _) (fun m2 _ h => h) (fun m2 _ h => h)
    by_cases hra : maxRA ≤ attempts
    · by_cases hep : e ≠ meta.active_endpoint
      · simp only [handleNonFatalConnectionError, hf, if_pos hra, if_pos hep]
        exact hinv
      · simp only [handleNonFatalConnectionError, hf, if_pos hra, if_neg hep]
        exact hupd
    · simp only [handleNonFatalConnectionError, hf, if_neg hra]
      exact hupd

theorem fatal_inv (cid : String) (st : PMState) (maxRF now : Nat) (hinv : stateInv st) :
    stateInv (handleFatalConnection cid st maxRF now).state := by
  cases hf : st.peers.getByConnectionId cid with
  | none =>
    simp only [handleFatalConnection, hf]
    exact hinv
  | some meta =>
    simp only [handleFatalConnection, hf]
    exact stateInv_of st _ hinv (keys_updateOrKeep _ _) (fun m2 _ h => h)
      (fun m2 _ h => h)

theorem disconnection_inv (env : ConnectorEnv) (e : String)
    (identity : PeerAuthorizationToken) (cid : String) (st : PMState)
    (hinv : stateInv st) :
    stateInv (handleDisconnection env e identity cid st).state := by
  cases hf : st.peers.getByConnectionId cid with
  | some meta =>
    by_cases hep : e ≠ meta.active_endpoint
    · simp only [handleDisconnection, hf, if_pos hep]
      exact hinv
    · by_cases hin : e ∈ meta.endpoints
      · simp only [handleDisconnection, hf, if_neg hep, if_pos hin]
        exact stateInv_of st _ hinv (keys_updateOrKeep _ _) (fun m2 _ h => h)
          (fun m2 _ h => h)
      · simp only [handleDisconnection, hf, if_neg hep, if_neg hin]
        exact stateInv_of st _ hinv (keys_updateOrKeep _ _) (fun m2 _ h => h)
          (fun m2 _ h => h)
  | none =>
    cases hu : st.unref.getByConnectionId cid with
    | some p =>
      simp only [handleDisconnection, hf, hu]
      exact stateInv_of st _ hinv (fun m2 h => ⟨m2, h, rfl⟩) (fun m2 _ h => h)
        (fun m2 _ h => lookupPeer_remove_none st.unref p.1 m2.key h)
    | none =>
      simp only [handleDisconnection, hf, hu]
      exact hinv

theorem addPeer_inv (env : ConnectorEnv) (pid : PeerAuthorizationToken)
    (eps : List String) (la : PeerAuthorizationToken) (st : PMState) (cid : String)
    (now : Nat) (hinv : stateInv st) :
    stateInv (addPeer env pid eps la st cid now).state := by
  by_cases hdup : checkForDuplicateEndpoint pid eps st.peers = true
  · have hout : addPeer env pid eps la st cid now =
        ⟨st, noEffects,
          .error "endpoints already belong to another peer using trust"⟩ := by
      simp only [addPeer, hdup, if_true]
    rw [hout]
    exact hinv
  · have hdup2 : checkForDuplicateEndpoint pid eps st.peers = false := by
      simpa using hdup
    cases har : st.refMap.addRef ⟨pid, la⟩ with
    | mk nrc rm1 =>
      have hrm : (st.refMap.addRef ⟨pid, la⟩).2 = rm1 := by rw [har]
      have hmono : ∀ m2 ∈ st.peers.peers,
          1 ≤ (st.refMap.lookup m2.key).getD 0 → 1 ≤ (rm1.lookup m2.key).getD 0 := by
        intro m2 _ h
        rw [← hrm]
        exact lookup_addRef_mono st.refMap ⟨pid, la⟩ m2.key h
      have hroll : ∀ m2 ∈ st.peers.peers,
          1 ≤ (st.refMap.lookup m2.key).getD 0 →
          1 ≤ ((rm1.removeRefQuiet ⟨pid, la⟩).lookup m2.key).getD 0 := by
        intro m2 _ h
        rw [← hrm]
        by_cases hk : m2.key = ⟨pid, la⟩
        · rw [hk, lookup_roundtrip_self st.refMap ⟨pid, la⟩ (by rw [← hk]; exact h),
            ← hk]
          exact h
        · rw [lookup_roundtrip_other st.refMap ⟨pid, la⟩ m2.key hk]
          exact h
      by_cases hn : 1 < nrc
      · cases hmeta : st.peers.getByPeerId ⟨pid, la⟩ with
        | some meta =>
          have hmem : meta ∈ st.peers.peers := getByPeerId_mem _ _ _ hmeta
          by_cases hrec : meta.endpoints.length = 1 ∧ 1 < eps.length
          · cases hhead : meta.endpoints.head? with
            | some e1 =>
              by_cases hre : (st.unref.lookupRequested e1).isSome ∧ e1 ∈ eps
              · have hupd : st.peers.updatePeer { meta with endpoints := eps } =
                    some (st.peers.updateOrKeep { meta with endpoints := eps }) :=
                  updatePeer_some_eq st.peers _ meta hmem rfl
                have hout : addPeer env pid eps la st cid now =
                    ⟨⟨st.peers.updateOrKeep { meta with endpoints := eps }, st.unref,
                        rm1⟩,
                      { noEffects with broadcasts :=
                        if { meta with endpoints := eps }.status == PeerStatus.connected
                        then [PeerManagerNotification.connected ⟨pid, la⟩] else [] },
                      .ok ⟨pid, la⟩⟩ := by
                  simp only [addPeer, hdup2, Bool.false_eq_true, if_false, har, if_pos hn,
                    hmeta, if_pos hrec, hhead, if_pos hre, hupd]
                rw [hout]
                exact stateInv_of st _ hinv (keys_updateOrKeep _ _)
                  (fun m2 hm2 h => by
                    rcases keys_updateOrKeep st.peers _ m2 hm2 with ⟨m0, hm0, hk⟩
                    rw [hk]
                    exact hmono m0 hm0 (by rw [← hk]; exact h))
                  (fun m2 _ h => h)
              · have hout : addPeer env pid eps la st cid now =
                    ⟨⟨st.peers, st.unref, rm1.removeRefQuiet ⟨pid, la⟩⟩, noEffects,
                      .error "mismatch between existing and requested peer endpoints"⟩ := by
                  simp only [addPeer, hdup2, Bool.false_eq_true, if_false, har, if_pos hn,
                    hmeta, if_pos hrec, hhead, if_neg hre]
                rw [hout]
                exact stateInv_of st _ hinv (fun m2 h => ⟨m2, h, rfl⟩) hroll
                  (fun m2 _ h => h)
            | none =>
              have hout : addPeer env pid eps la st cid now =
                  ⟨⟨st.peers, st.unref, rm1⟩, noEffects,
                    .error "peer does not have any endpoints"⟩ := by
                simp only [addPeer, hdup2, Bool.false_eq_true, if_false, har, if_pos hn,
                  hmeta, if_pos hrec, hhead]
              rw [hout]
              exact stateInv_of st _ hinv (fun m2 h => ⟨m2, h, rfl⟩) hmono
                (fun m2 _ h => h)
          · have hout : addPeer env pid eps la st cid now =
                ⟨⟨st.peers, st.unref, rm1⟩,
                  { noEffects with broadcasts :=
                    if meta.status == PeerStatus.connected
                    then [PeerManagerNotification.connected ⟨pid, la⟩] else [] },
                  .ok ⟨pid, la⟩⟩ := by
              simp only [addPeer, hdup2, Bool.false_eq_true, if_false, har, if_pos hn,
                hmeta, if_neg hrec]
            rw [hout]
            exact stateInv_of st _ hinv (fun m2 h => ⟨m2, h, rfl⟩) hmono
              (fun m2 _ h => h)
        | none =>
          have hout : addPeer env pid eps la st cid now =
              ⟨⟨st.peers, st.unref, rm1⟩, noEffects,
                .error "a reference exists but peer metadata is missing"⟩ := by
            simp only [addPeer, hdup2, Bool.false_eq_true, if_false, har, if_pos hn, hmeta]
          rw [hout]
          exact stateInv_of st _ hinv (fun m2 h => ⟨m2, h, rfl⟩) hmono (fun m2 _ h => h)
      · cases hup : st.unref.lookupPeer ⟨pid, la⟩ with
        | some u =>
          have hout : addPeer env pid eps la st cid now =
              ⟨⟨st.peers.insert pid u.connection_id eps u.endpoint PeerStatus.connected
                  la u.old_connection_ids now,
                (st.unref.removePeer ⟨pid, la⟩).2, rm1⟩,
                { noEffects with broadcasts :=
                  [PeerManagerNotification.connected ⟨pid, la⟩] },
                .ok ⟨pid, la⟩⟩ := by
            simp only [addPeer, hdup2, Bool.false_eq_true, if_false, har, if_neg hn,
              UnreferencedPeerState.removePeer, hup]
          rw [hout]
          refine stateInv_insert st pid u.connection_id eps u.endpoint
            PeerStatus.connected la u.old_connection_ids now _ _ hinv
            (fun m2 hm2 _ h => hmono m2 hm2 h)
            (fun m2 _ _ h => lookupPeer_remove_none st.unref ⟨pid, la⟩ m2.key h)
            ?_ (lookupPeer_remove_self st.unref ⟨pid, la⟩)
          rw [← hrm, lookup_addRef_self]
          simp
        | none =>
          cases hhead : eps.head? with
          | none =>
            have hout : addPeer env pid eps la st cid now =
                ⟨⟨st.peers, st.unref, rm1.removeRefQuiet ⟨pid, la⟩⟩, noEffects,
                  .error "no endpoints provided"⟩ := by
              simp only [addPeer, hdup2, Bool.false_eq_true, if_false, har, if_neg hn,
                UnreferencedPeerState.removePeer, hup, hhead]
            rw [hout]
            exact stateInv_of st _ hinv (fun m2 h => ⟨m2, h, rfl⟩) hroll (fun m2 _ h => h)
          | some e0 =>
            have hout : addPeer env pid eps la st cid now =
                ⟨⟨st.peers.insert pid cid eps
                    (tryEndpoints env eps cid (some pid) (some la) e0).1
                    PeerStatus.pending la [] now, st.unref, rm1⟩,
                  { noEffects with requests :=
                    (tryEndpoints env eps cid (some pid) (some la) e0).2 },
                  .ok ⟨pid, la⟩⟩ := by
              simp only [addPeer, hdup2, Bool.false_eq_true, if_false, har, if_neg hn,
                UnreferencedPeerState.removePeer, hup, hhead]
            rw [hout]
            refine stateInv_insert st pid cid eps _ PeerStatus.pending la [] now _ _ hinv
              (fun m2 hm2 _ h => hmono m2 hm2 h) (fun m2 _ _ h => h) ?_ hup
            rw [← hrm, lookup_addRef_self]
            simp

theorem removeFinish_inv (env : ConnectorEnv) (k : PeerTokenPair) (st st2 : PMState)
    (hinv : stateInv st) (hp : st2.peers = st.peers)
    (href : ∀ m2 ∈ st.peers.peers, m2.key ≠ k →
      1 ≤ (st.refMap.lookup m2.key).getD 0 → 1 ≤ (st2.refMap.lookup m2.key).getD 0)
    (hun : ∀ m2 ∈ st.peers.peers,
      st.unref.lookupPeer m2.key = none → st2.unref.lookupPeer m2.key = none)
    (hnok : st.peers.getByPeerId k = none →
      ∀ m2 ∈ st.peers.peers, 1 ≤ (st.refMap.lookup m2.key).getD 0 →
        1 ≤ (st2.refMap.lookup m2.key).getD 0) :
    stateInv (removeFinish env k st2).state := by
  cases hf : st.peers.getByPeerId k with
  | none =>
    have hrem : st2.peers.remove k = (none, st2.peers) := by
      unfold PeerMap.remove
      unfold PeerMap.getByPeerId at hf
      rw [hp, hf]
    simp only [removeFinish, hrem]
    exact stateInv_of st st2 hinv (fun m2 h => ⟨m2, by rw [← hp]; exact h, rfl⟩)
      (fun m2 hm2 h => hnok hf m2 (by rw [hp] at hm2; exact hm2) h)
      (fun m2 hm2 h => hun m2 (by rw [hp] at hm2; exact hm2) h)
  | some meta =>
    have hrem : st2.peers.remove k = (some meta,
        ⟨st2.peers.peers.filter (fun m2 => !(m2.key == k)),
          st2.peers.initialRetryFrequency⟩) := by
      unfold PeerMap.remove
      unfold PeerMap.getByPeerId at hf
      rw [hp, hf]
    have hcommon : stateInv ⟨⟨st2.peers.peers.filter (fun m2 => !(m2.key == k)),
        st2.peers.initialRetryFrequency⟩, st2.unref, st2.refMap⟩ := by
      refine stateInv_of st _ hinv ?_ ?_ ?_
      · intro m2 hm2
        exact ⟨m2, by rw [← hp]; exact List.mem_of_mem_filter hm2, rfl⟩
      · intro m2 hm2 h
        have hne : m2.key ≠ k := by
          have := List.of_mem_filter hm2
          simp only [Bool.not_eq_true'] at this
          simpa using this
        exact href m2 (by rw [← hp]; exact List.mem_of_mem_filter hm2) hne h
      · intro m2 hm2 h
        exact hun m2 (by rw [← hp]; exact List.mem_of_mem_filter hm2) h
    simp only [removeFinish, hrem]
    by_cases hpend : (meta.status == PeerStatus.pending) = true
    · rw [if_pos hpend]
      exact hcommon
    · rw [if_neg hpend]
      cases env.remRes meta.active_endpoint meta.connection_id <;> exact hcommon

theorem removePeer_inv (env : ConnectorEnv) (k : PeerTokenPair) (st : PMState)
    (strict : Bool) (hinv : stateInv st) :
    stateInv (removePeer env k st strict).state := by
  have hunref2 : ∀ m2 ∈ st.peers.peers, st.unref.lookupPeer m2.key = none →
      (st.unref.removePeer k).2.lookupPeer m2.key = none :=
    fun m2 _ h => lookupPeer_remove_none st.unref k m2.key h
  cases hl : st.refMap.lookup k with
  | none =>
    have hrr : st.refMap.removeRef k = .error () := by
      simp only [RefMap.removeRef, hl]
    simp only [removePeer, hrr, UnreferencedPeerState.removePeer]
    cases strict
    · simp only [Bool.false_eq_true, if_false]
      exact stateInv_of st _ hinv (fun m2 h => ⟨m2, h, rfl⟩) (fun m2 _ h => h)
        (fun m2 hm2 h => lookupPeer_remove_none st.unref k m2.key h)
    · simp only [if_true]
      exact stateInv_of st _ hinv (fun m2 h => ⟨m2, h, rfl⟩) (fun m2 _ h => h)
        (fun m2 hm2 h => lookupPeer_remove_none st.unref k m2.key h)
  | some n =>
    by_cases hle : n ≤ 1
    · have hrr : st.refMap.removeRef k =
          .ok (some k, ⟨st.refMap.counts.filter (fun p => !(p.1 == k))⟩) := by
        simp only [RefMap.removeRef, hl]
        rw [if_pos hle]
      simp only [removePeer, hrr, UnreferencedPeerState.removePeer]
      refine removeFinish_inv env k st _ hinv rfl ?_ hunref2 ?_
      · intro m2 _ hne h
        unfold RefMap.lookup
        rw [find?_filter_sub _ _ _ (fun x hp => by
          simp only [beq_iff_eq] at hp
          simp [hp, hne])]
        exact h
      · intro hnone m2 hm2 h
        have hne : m2.key ≠ k := getByPeerId_none_keys st.peers k hnone m2 hm2
        unfold RefMap.lookup
        rw [find?_filter_sub _ _ _ (fun x hp => by
          simp only [beq_iff_eq] at hp
          simp [hp, hne])]
        exact h
    · have hrr : st.refMap.removeRef k =
          .ok (none, ⟨st.refMap.counts.map
            (fun p => if p.1 == k then (k, n - 1) else p)⟩) := by
        simp only [RefMap.removeRef, hl]
        rw [if_neg hle]
      simp only [removePeer, hrr, UnreferencedPeerState.removePeer]
      refine stateInv_of st _ hinv (fun m2 h => ⟨m2, h, rfl⟩) ?_
        (fun m2 hm2 h => lookupPeer_remove_none st.unref k m2.key h)
      intro m2 _ h
      by_cases hk : m2.key = k
      · rcases RefMap.lookup_some_mem st.refMap k n hl with ⟨p, hp, hk2, _⟩
        rw [hk]
        unfold RefMap.lookup
        rw [find?_fst_map_update st.refMap.counts k (n - 1) ⟨p, hp, hk2⟩]
        simp only [Option.map_some', Option.getD_some]
        omega
      · unfold RefMap.lookup
        rw [find?_fst_map_update_ne st.refMap.counts k (n - 1) m2.key hk]
        exact h

theorem removePeerByEndpoint_inv (env : ConnectorEnv) (e cid : String) (st : PMState)
    (strict : Bool) (hinv : stateInv st) :
    stateInv (removePeerByEndpoint env e cid st strict).state := by
  cases hf : st.peers.getByConnectionId cid with
  | none =>
    simp only [removePeerByEndpoint, hf]
    exact hinv
  | some meta =>
    cases hl : st.refMap.lookup meta.key with
    | none =>
      have hrr : st.refMap.removeRef meta.key = .error () := by
        simp only [RefMap.removeRef, hl]
      simp only [removePeerByEndpoint, hf, hrr]
      cases strict
      · simp only [Bool.false_eq_true, if_false]
        exact hinv
      · simp only [if_true]
        exact hinv
    | some n =>
      by_cases hle : n ≤ 1
      · have hrr : st.refMap.removeRef meta.key =
            .ok (some meta.key,
              ⟨st.refMap.counts.filter (fun p => !(p.1 == meta.key))⟩) := by
          simp only [RefMap.removeRef, hl]
          rw [if_pos hle]
        simp only [removePeerByEndpoint, hf, hrr]
        refine removeFinish_inv env meta.key st _ hinv rfl ?_ (fun m2 _ h => h) ?_
        · intro m2 _ hne h
          unfold RefMap.lookup
          rw [find?_filter_sub _ _ _ (fun x hp => by
            simp only [beq_iff_eq] at hp
            simp [hp, hne])]
          exact h
        · intro hnone m2 hm2 h
          have hne : m2.key ≠ meta.key := getByPeerId_none_keys st.peers meta.key hnone m2 hm2
          unfold RefMap.lookup
          rw [find?_filter_sub _ _ _ (fun x hp => by
            simp only [beq_iff_eq] at hp
            simp [hp, hne])]
          exact h
      · have hrr : st.refMap.removeRef meta.key =
            .ok (none, ⟨st.refMap.counts.map
              (fun p => if p.1 == meta.key then (meta.key, n - 1) else p)⟩) := by
          simp only [RefMap.removeRef, hl]
          rw [if_neg hle]
        simp only [removePeerByEndpoint, hf, hrr]
        refine stateInv_of st _ hinv (fun m2 h => ⟨m2, h, rfl⟩) ?_ (fun m2 _ h => h)
        intro m2 _ h
        by_cases hk : m2.key = meta.key
        · rcases RefMap.lookup_some_mem st.refMap meta.key n hl with ⟨p, hp, hk2, _⟩
          rw [hk]
          unfold RefMap.lookup
          rw [find?_fst_map_update st.refMap.counts meta.key (n - 1) ⟨p, hp, hk2⟩]
          simp only [Option.map_some', Option.getD_some]
          omega
        · unfold RefMap.lookup
          rw [find?_fst_map_update_ne st.refMap.counts meta.key (n - 1) m2.key hk]
          exact h

theorem retry_fold_keys (env : ConnectorEnv) (maxRF now : Nat) (l : List PeerMetadata) :
    ∀ (start : PeerMap × List ReqCall) (m2 : PeerMetadata),
      m2 ∈ ((l.foldl (fun (acc : PeerMap × List ReqCall) m =>
        let r := retryOnePeer env m maxRF now
        (acc.1.updateOrKeep r.1, acc.2 ++ r.2)) start).1).peers →
      ∃ m0, (m0 ∈ start.1.peers ∨ m0 ∈ l) ∧ m2.key = m0.key := by
  induction l with
  | nil =>
    intro start m2 h
    exact ⟨m2, Or.inl h, rfl⟩
  | cons m t ih =>
    intro start m2 h
    simp only [List.foldl_cons] at h
    rcases ih _ m2 h with ⟨m0, hm0 | hm0, hk⟩
    · rcases mem_updateOrKeep start.1 (retryOnePeer env m maxRF now).1 m0 hm0 with
        h2 | ⟨hq, m3, hm3, hk3⟩
      · exact ⟨m0, Or.inl h2, hk⟩
      · refine ⟨m, Or.inr (List.mem_cons_self _ _), ?_⟩
        rw [hk, hq]
        rfl
    · exact ⟨m0, Or.inr (List.mem_cons_of_mem _ hm0), hk⟩

theorem retryPending_inv (env : ConnectorEnv) (st : PMState) (now maxRF : Nat)
    (uuidGen : Nat → String) (hinv : stateInv st) :
    stateInv (retryPending env st now maxRF uuidGen).state := by
  have hkeys : ∀ m2 ∈ (((st.peers.peers.filter (fun m =>
      m.status == PeerStatus.pending &&
      decide (m.retry_frequency < now - m.last_connection_attempt))).foldl
      (fun (acc : PeerMap × List ReqCall) m =>
        let r := retryOnePeer env m maxRF now
        (acc.1.updateOrKeep r.1, acc.2 ++ r.2)) (st.peers, [])).1).peers,
      ∃ m0 ∈ st.peers.peers, m2.key = m0.key := by
    intro m2 hm2
    rcases retry_fold_keys env maxRF now _ (st.peers, []) m2 hm2 with ⟨m0, hm0 | hm0, hk⟩
    · exact ⟨m0, hm0, hk⟩
    · exact ⟨m0, List.mem_of_mem_filter hm0, hk⟩
  simp only [retryPending]
  by_cases hc : st.unref.retry_frequency < now - st.unref.last_connection_attempt
  · rw [if_pos hc]
    exact stateInv_of st _ hinv hkeys (fun m2 _ h => h) (fun m2 _ h => h)
  · rw [if_neg hc]
    exact stateInv_of st _ hinv hkeys (fun m2 _ h => h) (fun m2 _ h => h)

/-- C5 as amended: provided every `Connected` notification for a requested
endpoint carries the local authorization stored for that endpoint
(`msgConsistent`), after any actor message is processed every key in the peer
map carries a reference count of at least one, and no key lies in both the
peer map and the unreferenced-peer table.  Without that proviso the invariant
is not preserved — see `map_invariant_broken_counterexample`. -/
theorem map_invariant_preserved (env : ConnectorEnv) (cfg : PMConfig) (st : PMState)
    (m : PMMsg) (now : Nat) (hinv : stateInv st) (hcons : msgConsistent st m) :
    stateInv (handleMessage env cfg st m now).state := by
  cases m with
  | addPeer pid eps la cid =>
    simp only [handleMessage]
    exact addPeer_inv env pid eps la st cid now hinv
  | addUnidentified e la cid =>
    simp only [handleMessage]
    exact addUnidentified_inv env e la st cid hinv
  | removePeer k =>
    simp only [handleMessage]
    exact removePeer_inv env k st cfg.strict_ref_counts hinv
  | removePeerByEndpoint e cid =>
    simp only [handleMessage]
    exact removePeerByEndpoint_inv env e cid st cfg.strict_ref_counts hinv
  | inbound e identity cid li =>
    simp only [handleMessage]
    exact inbound_inv env e identity cid li st cfg.retryFrequency now hinv
  | connected e identity cid li =>
    simp only [handleMessage]
    exact connected_inv env e identity cid li st cfg.retryFrequency now hcons hinv
  | disconnected e identity cid =>
    simp only [handleMessage]
    exact disconnection_inv env e identity cid st hinv
  | nonFatal e attempts cid =>
    simp only [handleMessage]
    exact nonfatal_inv env e attempts cid st cfg.maxRetryAttempts hinv
  | fatal cid =>
    simp only [handleMessage]
    exact fatal_inv cid st cfg.maxRetryAttempts now hinv
  | retryPending uuidGen =>
    simp only [handleMessage]
    exact retryPending_inv env st now cfg.maxRetryFrequency uuidGen hinv

/-- Witness for the amended C5 at a concrete state and message. -/
theorem map_invariant_preserved_witness :
    (stateInv sampleState ∧ msgConsistent sampleState (PMMsg.fatal "conn-1")) ∧
    stateInv (handleMessage sampleEnv sampleCfg sampleState
      (PMMsg.fatal "conn-1") 4).state :=
  ⟨⟨by unfold stateInv; decide, trivial⟩,
    map_invariant_preserved sampleEnv sampleCfg sampleState (PMMsg.fatal "conn-1") 4
      (by unfold stateInv; decide) trivial⟩

def PeerAuthorizationToken.isTrust : PeerAuthorizationToken → Bool
  | .trust _ => true
  | .challenge _ => false

/-- Invariant 4 of the spec: no two peer-map records with distinct `Trust`
tokens share an endpoint of their configured endpoint lists. -/
def trustEndpointUnique (pm : PeerMap) : Prop :=
  ∀ m1 ∈ pm.peers, ∀ m2 ∈ pm.peers,
    m1.id.isTrust = true → m2.id.isTrust = true → m1.id ≠ m2.id →
    ∀ e ∈ m1.endpoints, e ∉ m2.endpoints

def metaOther : PeerMetadata :=
  { id := .trust "other", connection_id := "conn-0", endpoints := ["tcp://e"],
    active_endpoint := "tcp://e", status := PeerStatus.connected,
    required_local_auth := tokB, old_connection_ids := [],
    retry_frequency := 10, last_connection_attempt := 0 }

def stateC6 : PMState :=
  { peers := ⟨[metaOther], 10⟩,
    unref := ⟨[], [("tcp://e", ⟨"tcp://e", tokB⟩)], 60, 0⟩,
    refMap := ⟨[(⟨.trust "other", tokB⟩, 1)]⟩ }

/-- C6 counterexample: the `Connected`-notification handler's promotion of a
requested endpoint inserts a `Trust` peer whose endpoint already belongs to a
different `Trust` peer, so not every operation preserves endpoint
uniqueness. -/
theorem trust_unique_not_preserved_counterexample :
    trustEndpointUnique stateC6.peers ∧
    ¬ trustEndpointUnique
      ((handleConnected sampleEnv "tcp://e" (.trust "p") "conn-9" tokB
        stateC6 10 0).state.peers) := by
  constructor
  · unfold trustEndpointUnique
    decide
  · unfold trustEndpointUnique
    decide

theorem checkDup_true_of (pid : PeerAuthorizationToken) (eps : List String) (pm : PeerMap)
    (ht : pid.isTrust = true)
    (h : ∃ e ∈ eps, ∃ m ∈ pm.peers, e ∈ m.endpoints ∧ m.id.isTrust = true ∧ m.id ≠ pid) :
    checkForDuplicateEndpoint pid eps pm = true := by
  cases pid with
  | challenge pk => cases ht
  | trust s =>
    rcases h with ⟨e, he, m, hm, hme, hmt, hne⟩
    unfold checkForDuplicateEndpoint
    apply List.any_eq_true.mpr
    refine ⟨e, he, ?_⟩
    apply List.any_eq_true.mpr
    refine ⟨m, ?_, ?_⟩
    · unfold PeerMap.getPeerFromEndpoint
      exact List.mem_filter.mpr ⟨hm, by simpa using hme⟩
    · cases hid : m.id with
      | challenge pk2 => rw [hid] at hmt; cases hmt
      | trust s2 =>
        simp only [Bool.and_eq_true, Bool.not_eq_true']
        refine ⟨by trivial, ?_⟩
        rw [hid] at hne
        simpa using hne

theorem checkDup_false_of (pid : PeerAuthorizationToken) (eps : List String) (pm : PeerMap)
    (h : checkForDuplicateEndpoint pid eps pm = false) (ht : pid.isTrust = true) :
    ∀ e ∈ eps, ∀ m ∈ pm.peers, e ∈ m.endpoints → m.id.isTrust = true → m.id = pid := by
  intro e he m hm hme hmt
  by_contra hne
  rw [checkDup_true_of pid eps pm ht ⟨e, he, m, hm, hme, hmt, hne⟩] at h
  cases h

/-- Record-level preservation: every record of the second map carries the id
and endpoint list of some record of the first. -/
def peersPreserved (pmA pmB : PeerMap) : Prop :=
  ∀ m2 ∈ pmB.peers, ∃ m0 ∈ pmA.peers, m2.id = m0.id ∧ m2.endpoints = m0.endpoints

theorem trustUnique_of_preserved (pmA pmB : PeerMap) (hpres : peersPreserved pmA pmB)
    (hu : trustEndpointUnique pmA) : trustEndpointUnique pmB := by
  intro m1 h1 m2 h2 ht1 ht2 hne e he1
  rcases hpres m1 h1 with ⟨n1, hn1, hid1, heps1⟩
  rcases hpres m2 h2 with ⟨n2, hn2, hid2, heps2⟩
  rw [heps2]
  exact hu n1 hn1 n2 hn2 (by rw [← hid1]; exact ht1) (by rw [← hid2]; exact ht2)
    (by rw [← hid1, ← hid2]; exact hne) e (by rw [← heps1]; exact he1)

theorem peersPreserved_refl (pm : PeerMap) : peersPreserved pm pm :=
  fun m2 h => ⟨m2, h, rfl, rfl⟩

theorem peersPreserved_filter (pm : PeerMap) (q : PeerMetadata → Bool) (irf : Nat) :
    peersPreserved pm ⟨pm.peers.filter q, irf⟩ :=
  fun m2 h => ⟨m2, List.mem_of_mem_filter h, rfl, rfl⟩

theorem peersPreserved_updateOrKeep (pm : PeerMap) (pm2 meta : PeerMetadata)
    (hmem : meta ∈ pm.peers) (hid : pm2.id = meta.id)
    (heps : pm2.endpoints = meta.endpoints) :
    peersPreserved pm (pm.updateOrKeep pm2) := by
  intro m2 hm2
  rcases mem_updateOrKeep pm pm2 m2 hm2 with h | ⟨hq, _⟩
  · exact ⟨m2, h, rfl, rfl⟩
  · exact ⟨meta, hmem, by rw [hq, hid], by rw [hq, heps]⟩

theorem trustUnique_insert (pm : PeerMap) (id : PeerAuthorizationToken) (cid : String)
    (eps : List String) (active : String) (status : PeerStatus)
    (la : PeerAuthorizationToken) (oldIds : List String) (now : Nat)
    (hu : trustEndpointUnique pm)
    (hchk : checkForDuplicateEndpoint id eps pm = false) :
    trustEndpointUnique (pm.insert id cid eps active status la oldIds now) := by
  intro m1 h1 m2 h2 ht1 ht2 hne e he1 he2
  rcases mem_insert_strong pm id cid eps active status la oldIds now m1 h1 with
    ⟨hm1, _⟩ | hq1
  · rcases mem_insert_strong pm id cid eps active status la oldIds now m2 h2 with
      ⟨hm2, _⟩ | hq2
    · exact hu m1 hm1 m2 hm2 ht1 ht2 hne e he1 he2
    · -- m2 is the new record: its id is the requested one
      have hid2 : m2.id = id := by rw [hq2]; rfl
      have heps2 : m2.endpoints = eps := by rw [hq2]; rfl
      have := checkDup_false_of id eps pm hchk (by rw [← hid2]; exact ht2) e
        (by rw [← heps2]; exact he2) m1 hm1 he1 ht1
      rw [← hid2] at this
      exact hne this
  · rcases mem_insert_strong pm id cid eps active status la oldIds now m2 h2 with
      ⟨hm2, _⟩ | hq2
    · have hid1 : m1.id = id := by rw [hq1]; rfl
      have heps1 : m1.endpoints = eps := by rw [hq1]; rfl
      have := checkDup_false_of id eps pm hchk (by rw [← hid1]; exact ht1) e
        (by rw [← heps1]; exact he1) m2 hm2 he2 ht2
      rw [← hid1] at this
      exact hne this.symm
    · exact hne (by rw [hq1, hq2])

theorem trustUnique_update_eps (pm : PeerMap) (pm2 : PeerMetadata)
    (hu : trustEndpointUnique pm)
    (hchk : checkForDuplicateEndpoint pm2.id pm2.endpoints pm = false) :
    trustEndpointUnique (pm.updateOrKeep pm2) := by
  intro m1 h1 m2 h2 ht1 ht2 hne e he1 he2
  rcases mem_updateOrKeep pm pm2 m1 h1 with hm1 | ⟨hq1, _⟩
  · rcases mem_updateOrKeep pm pm2 m2 h2 with hm2 | ⟨hq2, _⟩
    · exact hu m1 hm1 m2 hm2 ht1 ht2 hne e he1 he2
    · have := checkDup_false_of pm2.id pm2.endpoints pm hchk
        (by rw [← hq2]; exact ht2) e (by rw [← hq2]; exact he2) m1 hm1 he1 ht1
      rw [← hq2] at this
      exact hne this
  · rcases mem_updateOrKeep pm pm2 m2 h2 with hm2 | ⟨hq2, _⟩
    · have := checkDup_false_of pm2.id pm2.endpoints pm hchk
        (by rw [← hq1]; exact ht1) e (by rw [← hq1]; exact he1) m2 hm2 he2 ht2
      rw [← hq1] at this
      exact hne this.symm
    · exact hne (by rw [hq1, hq2])

theorem addUnidentified_peersPreserved (env : ConnectorEnv) (e : String)
    (la : PeerAuthorizationToken) (st : PMState) (cid : String) :
    peersPreserved st.peers (addUnidentified env e la st cid).state.peers := by
  cases hf : (st.peers.getPeerFromEndpoint e).find?
      (fun m => m.required_local_auth == la) with
  | some meta =>
    simp only [addUnidentified, hf]
    exact peersPreserved_refl st.peers
  | none =>
    simp only [addUnidentified, hf]
    exact peersPreserved_refl st.peers

theorem removeFinish_peersPreserved (env : ConnectorEnv) (k : PeerTokenPair)
    (st2 : PMState) :
    peersPreserved st2.peers (removeFinish env k st2).state.peers := by
  cases hf : st2.peers.getByPeerId k with
  | none =>
    have hrem : st2.peers.remove k = (none, st2.peers) := by
      unfold PeerMap.remove
      unfold PeerMap.getByPeerId at hf
      rw [hf]
    simp only [removeFinish, hrem]
    exact peersPreserved_refl st2.peers
  | some meta =>
    have hrem : st2.peers.remove k = (some meta,
        ⟨st2.peers.peers.filter (fun m2 => !(m2.key == k)),
          st2.peers.initialRetryFrequency⟩) := by
      unfold PeerMap.remove
      unfold PeerMap.getByPeerId at hf
      rw [hf]
    simp only [removeFinish, hrem]
    by_cases hpend : (meta.status == PeerStatus.pending) = true
    · rw [if_pos hpend]
      exact peersPreserved_filter st2.peers _ _
    · rw [if_neg hpend]
      cases env.remRes meta.active_endpoint meta.connection_id <;>
        exact peersPreserved_filter st2.peers _ _

theorem removePeer_peersPreserved (env : ConnectorEnv) (k : PeerTokenPair) (st : PMState)
    (strict : Bool) :
    peersPreserved st.peers (removePeer env k st strict).state.peers := by
  cases hl : st.refMap.lookup k with
  | none =>
    have hrr : st.refMap.removeRef k = .error () := by
      simp only [RefMap.removeRef, hl]
    simp only [removePeer, hrr, UnreferencedPeerState.removePeer]
    cases strict
    · simp only [Bool.false_eq_true, if_false]
      exact peersPreserved_refl st.peers
    · simp only [if_true]
      exact peersPreserved_refl st.peers
  | some n =>
    by_cases hle : n ≤ 1
    · have hrr : st.refMap.removeRef k =
          .ok (some k, ⟨st.refMap.counts.filter (fun p => !(p.1 == k))⟩) := by
        simp only [RefMap.removeRef, hl]
        rw [if_pos hle]
      simp only [removePeer, hrr, UnreferencedPeerState.removePeer]
      exact removeFinish_peersPreserved env k _
    · have hrr : st.refMap.removeRef k =
          .ok (none, ⟨st.refMap.counts.map
            (fun p => if p.1 == k then (k, n - 1) else p)⟩) := by
        simp only [RefMap.removeRef, hl]
        rw [if_neg hle]
      simp only [removePeer, hrr, UnreferencedPeerState.removePeer]
      exact peersPreserved_refl st.peers

theorem removePeerByEndpoint_peersPreserved (env : ConnectorEnv) (e cid : String)
    (st : PMState) (strict : Bool) :
    peersPreserved st.peers (removePeerByEndpoint env e cid st strict).state.peers := by
  cases hf : st.peers.getByConnectionId cid with
  | none =>
    simp only [removePeerByEndpoint, hf]
    exact peersPreserved_refl st.peers
  | some meta =>
    cases hl : st.refMap.lookup meta.key with
    | none =>
      have hrr : st.refMap.removeRef meta.key = .error () := by
        simp only [RefMap.removeRef, hl]
      simp only [removePeerByEndpoint, hf, hrr]
      cases strict
      · simp only [Bool.false_eq_true, if_false]
        exact peersPreserved_refl st.peers
      · simp only [if_true]
        exact peersPreserved_refl st.peers
    | some n =>
      by_cases hle : n ≤ 1
      · have hrr : st.refMap.removeRef meta.key =
            .ok (some meta.key,
              ⟨st.refMap.counts.filter (fun p => !(p.1 == meta.key))⟩) := by
          simp only [RefMap.removeRef, hl]
          rw [if_pos hle]
        simp only [removePeerByEndpoint, hf, hrr]
        exact removeFinish_peersPreserved env meta.key _
      · have hrr : st.refMap.removeRef meta.key =
            .ok (none, ⟨st.refMap.counts.map
              (fun p => if p.1 == meta.key then (meta.key, n - 1) else p)⟩) := by
          simp only [RefMap.removeRef, hl]
          rw [if_neg hle]
        simp only [removePeerByEndpoint, hf, hrr]
        exact peersPreserved_refl st.peers

theorem inbound_peersPreserved (env : ConnectorEnv) (e : String)
    (identity : PeerAuthorizationToken) (cid : String) (la : PeerAuthorizationToken)
    (st : PMState) (rf now : Nat) :
    peersPreserved st.peers
      (handleInboundConnection env e identity cid la st rf now).state.peers := by
  cases hf : st.peers.getByPeerId ⟨identity, la⟩ with
  | some meta =>
    have hmem : meta ∈ st.peers.peers := getByPeerId_mem _ _ _ hf
    by_cases hrej : (meta.status == PeerStatus.connected &&
        tokenLt identity meta.required_local_auth) = true
    · simp only [handleInboundConnection, hf, hrej, if_true]
      exact peersPreserved_refl st.peers
    · have hrej2 : (meta.status == PeerStatus.connected &&
          tokenLt identity meta.required_local_auth) = false := by
        simpa using hrej
      simp only [handleInboundConnection, hf, hrej2, Bool.false_eq_true, if_false]
      exact peersPreserved_updateOrKeep st.peers _ meta hmem rfl rfl
  | none =>
    cases hu : st.unref.lookupPeer ⟨identity, la⟩ with
    | some u =>
      by_cases htok : tokenLt identity u.local_authorization = true
      · simp only [handleInboundConnection, hf, hu, htok, if_true]
        exact peersPreserved_refl st.peers
      · have htok2 : tokenLt identity u.local_authorization = false := by
          simpa using htok
        simp only [handleInboundConnection, hf, hu, htok2, Bool.false_eq_true, if_false]
        exact peersPreserved_refl st.peers
    | none =>
      simp only [handleInboundConnection, hf, hu]
      exact peersPreserved_refl st.peers

theorem disconnection_peersPreserved (env : ConnectorEnv) (e : String)
    (identity : PeerAuthorizationToken) (cid : String) (st : PMState) :
    peersPreserved st.peers (handleDisconnection env e identity cid st).state.peers := by
  cases hf : st.peers.getByConnectionId cid with
  | some meta =>
    have hmem : meta ∈ st.peers.peers := getByConnectionId_mem _ _ _ hf
    by_cases hep : e ≠ meta.active_endpoint
    · simp only [handleDisconnection, hf, if_pos hep]
      exact peersPreserved_refl st.peers
    · by_cases hin : e ∈ meta.endpoints
      · simp only [handleDisconnection, hf, if_neg hep, if_pos hin]
        exact peersPreserved_updateOrKeep st.peers _ meta hmem rfl rfl
      · simp only [handleDisconnection, hf, if_neg hep, if_neg hin]
        exact peersPreserved_updateOrKeep st.peers _ meta hmem rfl rfl
  | none =>
    cases hu : st.unref.getByConnectionId cid with
    | some p =>
      simp only [handleDisconnection, hf, hu]
      exact peersPreserved_refl st.peers
    | none =>
      simp only [handleDisconnection, hf, hu]
      exact peersPreserved_refl st.peers

theorem nonfatal_peersPreserved (env : ConnectorEnv) (e : String) (attempts : Nat)
    (cid : String) (st : PMState) (maxRA : Nat) :
    peersPreserved st.peers
      (handleNonFatalConnectionError env e attempts cid st maxRA).state.peers := by
  cases hf : st.peers.getByConnectionId cid with
  | none =>
    simp only [handleNonFatalConnectionError, hf]
    exact peersPreserved_refl st.peers
  | some meta =>
    have hmem : meta ∈ st.peers.peers := getByConnectionId_mem _ _ _ hf
    by_cases hra : maxRA ≤ attempts
    · by_cases hep : e ≠ meta.active_endpoint
      · simp only [handleNonFatalConnectionError, hf, if_pos hra, if_pos hep]
        exact peersPreserved_refl st.peers
      · simp only [handleNonFatalConnectionError, hf, if_pos hra, if_neg hep]
        exact peersPreserved_updateOrKeep st.peers _ meta hmem rfl rfl
    · simp only [handleNonFatalConnectionError, hf, if_neg hra]
      exact peersPreserved_updateOrKeep st.peers _ meta hmem rfl rfl

theorem fatal_peersPreserved (cid : String) (st : PMState) (maxRF now : Nat) :
    peersPreserved st.peers (handleFatalConnection cid st maxRF now).state.peers := by
  cases hf : st.peers.getByConnectionId cid with
  | none =>
    simp only [handleFatalConnection, hf]
    exact peersPreserved_refl st.peers
  | some meta =>
    simp only [handleFatalConnection, hf]
    exact peersPreserved_updateOrKeep st.peers _ meta
      (getByConnectionId_mem _ _ _ hf) rfl rfl

theorem retry_fold_sub (env : ConnectorEnv) (maxRF now : Nat) (l : List PeerMetadata) :
    ∀ (start : PeerMap × List ReqCall) (m2 : PeerMetadata),
      m2 ∈ ((l.foldl (fun (acc : PeerMap × List ReqCall) m =>
        let r := retryOnePeer env m maxRF now
        (acc.1.updateOrKeep r.1, acc.2 ++ r.2)) start).1).peers →
      ∃ m0, (m0 ∈ start.1.peers ∨ m0 ∈ l) ∧ m2.id = m0.id ∧
        m2.endpoints = m0.endpoints := by
  induction l with
  | nil =>
    intro start m2 h
    exact ⟨m2, Or.inl h, rfl, rfl⟩
  | cons m t ih =>
    intro start m2 h
    simp only [List.foldl_cons] at h
    rcases ih _ m2 h with ⟨m0, hm0 | hm0, hid, heps⟩
    · rcases mem_updateOrKeep start.1 (retryOnePeer env m maxRF now).1 m0 hm0 with
        h2 | ⟨hq, _⟩
      · exact ⟨m0, Or.inl h2, hid, heps⟩
      · refine ⟨m, Or.inr (List.mem_cons_self _ _), ?_, ?_⟩
        · rw [hid, hq]
          rfl
        · rw [heps, hq]
          rfl
    · exact ⟨m0, Or.inr (List.mem_cons_of_mem _ hm0), hid, heps⟩

theorem retryPending_peersPreserved (env : ConnectorEnv) (st : PMState) (now maxRF : Nat)
    (uuidGen : Nat → String) :
    peersPreserved st.peers (retryPending env st now maxRF uuidGen).state.peers := by
  have hpres : peersPreserved st.peers
      (((st.peers.peers.filter (fun m => m.status == PeerStatus.pending &&
        decide (m.retry_frequency < now - m.last_connection_attempt))).foldl
        (fun (acc : PeerMap × List ReqCall) m =>
          let r := retryOnePeer env m maxRF now
          (acc.1.updateOrKeep r.1, acc.2 ++ r.2)) (st.peers, [])).1) := by
    intro m2 hm2
    rcases retry_fold_sub env maxRF now _ (st.peers, []) m2 hm2 with
      ⟨m0, hm0 | hm0, hid, heps⟩
    · exact ⟨m0, hm0, hid, heps⟩
    · exact ⟨m0, List.mem_of_mem_filter hm0, hid, heps⟩
  simp only [retryPending]
  by_cases hc : st.unref.retry_frequency < now - st.unref.last_connection_attempt
  · rw [if_pos hc]
    exact hpres
  · rw [if_neg hc]
    exact hpres

theorem addPeer_trustUnique (env : ConnectorEnv) (pid : PeerAuthorizationToken)
    (eps : List String) (la : PeerAuthorizationToken) (st : PMState) (cid : String)
    (now : Nat) (hu : trustEndpointUnique st.peers) :
    trustEndpointUnique (addPeer env pid eps la st cid now).state.peers := by
  by_cases hdup : checkForDuplicateEndpoint pid eps st.peers = true
  · have hout : addPeer env pid eps la st cid now =
        ⟨st, noEffects,
          .error "endpoints already belong to another peer using trust"⟩ := by
      simp only [addPeer, hdup, if_true]
    rw [hout]
    exact hu
  · have hdup2 : checkForDuplicateEndpoint pid eps st.peers = false := by
      simpa using hdup
    cases har : st.refMap.addRef ⟨pid, la⟩ with
    | mk nrc rm1 =>
      by_cases hn : 1 < nrc
      · cases hmeta : st.peers.getByPeerId ⟨pid, la⟩ with
        | some meta =>
          have hkey : meta.key = ⟨pid, la⟩ := getByPeerId_key _ _ _ hmeta
          have hmem : meta ∈ st.peers.peers := getByPeerId_mem _ _ _ hmeta
          have hid : meta.id = pid := congrArg PeerTokenPair.peerId hkey
          by_cases hrec : meta.endpoints.length = 1 ∧ 1 < eps.length
          · cases hhead : meta.endpoints.head? with
            | some e1 =>
              by_cases hre : (st.unref.lookupRequested e1).isSome ∧ e1 ∈ eps
              · have hupd : st.peers.updatePeer { meta with endpoints := eps } =
                    some (st.peers.updateOrKeep { meta with endpoints := eps }) :=
                  updatePeer_some_eq st.peers _ meta hmem rfl
                have hout : addPeer env pid eps la st cid now =
                    ⟨⟨st.peers.updateOrKeep { meta with endpoints := eps }, st.unref,
                        rm1⟩,
                      { noEffects with broadcasts :=
                        if { meta with endpoints := eps }.status == PeerStatus.connected
                        then [PeerManagerNotification.connected ⟨pid, la⟩] else [] },
                      .ok ⟨pid, la⟩⟩ := by
                  simp only [addPeer, hdup2, Bool.false_eq_true, if_false, har, if_pos hn,
                    hmeta, if_pos hrec, hhead, if_pos hre, hupd]
                rw [hout]
                refine trustUnique_update_eps st.peers { meta with endpoints := eps }
                  hu ?_
                rw [show ({ meta with endpoints := eps } : PeerMetadata).id = meta.id
                  from rfl, hid]
                exact hdup2
              · have hout : addPeer env pid eps la st cid now =
                    ⟨⟨st.peers, st.unref, rm1.removeRefQuiet ⟨pid, la⟩⟩, noEffects,
                      .error "mismatch between existing and requested peer endpoints"⟩ := by
                  simp only [addPeer, hdup2, Bool.false_eq_true, if_false, har, if_pos hn,
                    hmeta, if_pos hrec, hhead, if_neg hre]
                rw [hout]
                exact hu
            | none =>
              have hout : addPeer env pid eps la st cid now =
                  ⟨⟨st.peers, st.unref, rm1⟩, noEffects,
                    .error "peer does not have any endpoints"⟩ := by
                simp only [addPeer, hdup2, Bool.false_eq_true, if_false, har, if_pos hn,
                  hmeta, if_pos hrec, hhead]
              rw [hout]
              exact hu
          · have hout : addPeer env pid eps la st cid now =
                ⟨⟨st.peers, st.unref, rm1⟩,
                  { noEffects with broadcasts :=
                    if meta.status == PeerStatus.connected
                    then [PeerManagerNotification.connected ⟨pid, la⟩] else [] },
                  .ok ⟨pid, la⟩⟩ := by
              simp only [addPeer, hdup2, Bool.false_eq_true, if_false, har, if_pos hn,
                hmeta, if_neg hrec]
            rw [hout]
            exact hu
        | none =>
          have hout : addPeer env pid eps la st cid now =
              ⟨⟨st.peers, st.unref, rm1⟩, noEffects,
                .error "a reference exists but peer metadata is missing"⟩ := by
            simp only [addPeer, hdup2, Bool.false_eq_true, if_false, har, if_pos hn, hmeta]
          rw [hout]
          exact hu
      · cases hup : st.unref.lookupPeer ⟨pid, la⟩ with
        | some u =>
          have hout : addPeer env pid eps la st cid now =
              ⟨⟨st.peers.insert pid u.connection_id eps u.endpoint PeerStatus.connected
                  la u.old_connection_ids now,
                (st.unref.removePeer ⟨pid, la⟩).2, rm1⟩,
                { noEffects with broadcasts :=
                  [PeerManagerNotification.connected ⟨pid, la⟩] },
                .ok ⟨pid, la⟩⟩ := by
            simp only [addPeer, hdup2, Bool.false_eq_true, if_false, har, if_neg hn,
              UnreferencedPeerState.removePeer, hup]
          rw [hout]
          exact trustUnique_insert st.peers pid u.connection_id eps u.endpoint
            PeerStatus.connected la u.old_connection_ids now hu hdup2
        | none =>
          cases hhead : eps.head? with
          | none =>
            have hout : addPeer env pid eps la st cid now =
                ⟨⟨st.peers, st.unref, rm1.removeRefQuiet ⟨pid, la⟩⟩, noEffects,
                  .error "no endpoints provided"⟩ := by
              simp only [addPeer, hdup2, Bool.false_eq_true, if_false, har, if_neg hn,
                UnreferencedPeerState.removePeer, hup, hhead]
            rw [hout]
            exact hu
          | some e0 =>
            have hout : addPeer env pid eps la st cid now =
                ⟨⟨st.peers.insert pid cid eps
                    (tryEndpoints env eps cid (some pid) (some la) e0).1
                    PeerStatus.pending la [] now, st.unref, rm1⟩,
                  { noEffects with requests :=
                    (tryEndpoints env eps cid (some pid) (some la) e0).2 },
                  .ok ⟨pid, la⟩⟩ := by
              simp only [addPeer, hdup2, Bool.false_eq_true, if_false, har, if_neg hn,
                UnreferencedPeerState.removePeer, hup, hhead]
            rw [hout]
            exact trustUnique_insert st.peers pid cid eps _ PeerStatus.pending la [] now
              hu hdup2

/-- C6 as amended: `add_peer` rejects a `Trust` peer (returning an `AddError`
and leaving the state untouched) whenever any requested endpoint already
belongs to a different `Trust` peer, `Challenge` tokens being exempt from the
check; and every actor message other than a `Connected` notification preserves
trust-endpoint uniqueness.  (The `Connected` handler's requested-endpoint
promotion may insert a `Trust` peer on an endpoint owned by a different
`Trust` peer, as the counterexample shows.) -/
theorem trust_endpoint_unique_spec :
    (∀ (env : ConnectorEnv) (pid : PeerAuthorizationToken) (eps : List String)
      (la : PeerAuthorizationToken) (st : PMState) (cid : String) (now : Nat),
      pid.isTrust = true →
      (∃ e ∈ eps, ∃ m ∈ st.peers.peers, e ∈ m.endpoints ∧ m.id.isTrust = true ∧
        m.id ≠ pid) →
      (addPeer env pid eps la st cid now).state = st ∧
      ∃ msg, (addPeer env pid eps la st cid now).result = .error msg) ∧
    (∀ (pk : List Nat) (eps : List String) (pm : PeerMap),
      checkForDuplicateEndpoint (.challenge pk) eps pm = false) ∧
    (∀ (env : ConnectorEnv) (cfg : PMConfig) (st : PMState) (m : PMMsg) (now : Nat),
      (∀ e i c l, m ≠ PMMsg.connected e i c l) →
      trustEndpointUnique st.peers →
      trustEndpointUnique (handleMessage env cfg st m now).state.peers) := by
  refine ⟨?_, ?_, ?_⟩
  · intro env pid eps la st cid now ht hex
    have hchk : checkForDuplicateEndpoint pid eps st.peers = true :=
      checkDup_true_of pid eps st.peers ht hex
    have hout : addPeer env pid eps la st cid now =
        ⟨st, noEffects,
          .error "endpoints already belong to another peer using trust"⟩ := by
      simp only [addPeer, hchk, if_true]
    rw [hout]
    exact ⟨rfl, "endpoints already belong to another peer using trust", rfl⟩
  · intro pk eps pm
    rfl
  · intro env cfg st m now hnotc hu
    cases m with
    | addPeer pid eps la cid =>
      simp only [handleMessage]
      exact addPeer_trustUnique env pid eps la st cid now hu
    | addUnidentified e la cid =>
      simp only [handleMessage]
      exact trustUnique_of_preserved _ _ (addUnidentified_peersPreserved env e la st cid) hu
    | removePeer k =>
      simp only [handleMessage]
      exact trustUnique_of_preserved _ _
        (removePeer_peersPreserved env k st cfg.strict_ref_counts) hu
    | removePeerByEndpoint e cid =>
      simp only [handleMessage]
      exact trustUnique_of_preserved _ _
        (removePeerByEndpoint_peersPreserved env e cid st cfg.strict_ref_counts) hu
    | inbound e identity cid li =>
      simp only [handleMessage]
      exact trustUnique_of_preserved _ _
        (inbound_peersPreserved env e identity cid li st cfg.retryFrequency now) hu
    | connected e identity cid li =>
      exact absurd rfl (hnotc e identity cid li)
    | disconnected e identity cid =>
      simp only [handleMessage]
      exact trustUnique_of_preserved _ _
        (disconnection_peersPreserved env e identity cid st) hu
    | nonFatal e attempts cid =>
      simp only [handleMessage]
      exact trustUnique_of_preserved _ _
        (nonfatal_peersPreserved env e attempts cid st cfg.maxRetryAttempts) hu
    | fatal cid =>
      simp only [handleMessage]
      exact trustUnique_of_preserved _ _
        (fatal_peersPreserved cid st cfg.maxRetryAttempts now) hu
    | retryPending uuidGen =>
      simp only [handleMessage]
      exact trustUnique_of_preserved _ _
        (retryPending_peersPreserved env st now cfg.maxRetryFrequency uuidGen) hu

/-- Witness for the amended C6: a colliding Trust add is rejected on the
sample state, and a fatal-error message preserves uniqueness there. -/
theorem trust_endpoint_unique_spec_witness :
    ((PeerAuthorizationToken.trust "different").isTrust = true ∧
      (∃ e ∈ ["tcp://a"], ∃ m ∈ sampleState.peers.peers, e ∈ m.endpoints ∧
        m.id.isTrust = true ∧ m.id ≠ .trust "different") ∧
      trustEndpointUnique sampleState.peers) ∧
    ((addPeer sampleEnv (.trust "different") ["tcp://a"] tokB sampleState
        "conn-7" 2).state = sampleState ∧
      ∃ msg, (addPeer sampleEnv (.trust "different") ["tcp://a"] tokB sampleState
        "conn-7" 2).result = .error msg) ∧
    trustEndpointUnique (handleMessage sampleEnv sampleCfg sampleState
      (PMMsg.fatal "conn-1") 4).state.peers :=
  ⟨⟨by decide, by decide, by unfold trustEndpointUnique; decide⟩,
    trust_endpoint_unique_spec.1 sampleEnv (.trust "different") ["tcp://a"] tokB
      sampleState "conn-7" 2 (by decide) (by decide),
    trust_endpoint_unique_spec.2.2 sampleEnv sampleCfg sampleState (PMMsg.fatal "conn-1") 4
      (fun e i c l h => PMMsg.noConfusion h)
      (by unfold trustEndpointUnique; decide)⟩

def cfgMix : PMConfig := ⟨true, 100, 10, 25⟩

def metaRF : PeerMetadata :=
  { sampleMeta with retry_frequency := 20 }

def stateRF : PMState :=
  { peers := ⟨[metaRF], 10⟩, unref := ⟨[], [], 60, 0⟩, refMap := ⟨[(keyAB, 1)]⟩ }

/-- C2: refuted as a code bug.  The actor loop hands `max_retry_attempts` to
`handle_notifications` (mod.rs line 300), which passes it into
`handle_fatal_connection`'s `max_retry_frequency` parameter (mod.rs lines
1013 to 1019), so after a `FatalConnectionError` the peer's retry frequency
is `min(2 * old, max_retry_attempts)`: with `max_retry_attempts = 100`,
`max_retry_frequency = 25` and an old frequency of 20 it becomes 40,
exceeding the configured `max_retry_frequency`, whereas the claimed formula
`min(2 * old, max_retry_frequency)` gives 25. -/
theorem fatal_retry_cap_code_bug :
    ((handleMessage sampleEnv cfgMix stateRF (PMMsg.fatal "conn-1") 7).state.peers.getByPeerId
        keyAB).map PeerMetadata.retry_frequency = some 40 ∧
    40 = min (metaRF.retry_frequency * 2) cfgMix.maxRetryAttempts ∧
    cfgMix.maxRetryFrequency < 40 ∧
    min (metaRF.retry_frequency * 2) cfgMix.maxRetryFrequency = 25 :=
  ⟨by decide, by decide, by decide, by decide⟩

/-- C5 counterexample: starting from a state satisfying the invariant, a
`Connected` notification for a requested endpoint whose local identity
differs from the local authorization stored in `requested_endpoints` adds a
reference under the notification's key but inserts the peer metadata under
the requested key, leaving a peer-map entry with no reference — the
invariant breaks. -/
theorem map_invariant_broken_counterexample :
    stateInv stateC6 ∧
    ¬ stateInv (handleMessage sampleEnv sampleCfg stateC6
      (PMMsg.connected "tcp://e" (.trust "p") "conn-9" tokA) 5).state := by
  constructor
  · unfold stateInv
    decide
  · unfold stateInv
    decide

end Splinter
